import Mathlib

/-!
Shallow embedding of the play-text parsing and state-derivation engine of the
usmbsbpbp repository (src/utils/text.ts, src/pipelines/live-play-feed.ts),
together with theorems settling the frozen claims about it.

Modelling conventions:
* TypeScript strings are modelled as `List Char` (`Str`).  JavaScript string
  lengths are code-unit counts; all texts involved are ASCII, where the two
  notions agree.
* JavaScript numbers that the code treats as integral (scores, outs, jersey
  numbers, inning numbers, fielder codes) are modelled as `Int`; counts as
  `Nat`; the one fractional constant (a location confidence of 0.9) as `Rat`.
* `he.decode` (third-party HTML-entity decoding, out of scope per the spec) is
  modelled as the identity: inputs are modelled as already-decoded text.
* Case conversion is ASCII (all inputs of interest are ASCII).
* The sha1-based `digest` helper is an external primitive and is modelled as an
  explicit function parameter of the extraction pipeline.
-/

namespace BSB

abbrev Str := List Char

/-- Character list of a Lean string literal. -/
def str (s : String) : Str := s.data

/-- Apostrophe character (U+0027). -/
def apos : Char := Char.ofNat 39

/-- Backtick character (U+0060). -/
def btick : Char := Char.ofNat 96

def isAsciiUpper (c : Char) : Bool := 'A' ≤ c && c ≤ 'Z'

def isAsciiLower (c : Char) : Bool := 'a' ≤ c && c ≤ 'z'

def isAsciiAlpha (c : Char) : Bool := isAsciiUpper c || isAsciiLower c

def isAsciiDigit (c : Char) : Bool := '0' ≤ c && c ≤ '9'

/-- JavaScript regex word character, the class [A-Za-z0-9_]. -/
def isWordChar (c : Char) : Bool := isAsciiAlpha c || isAsciiDigit c || c = '_'

def toLowerChar (c : Char) : Char :=
if isAsciiUpper c then Char.ofNat (c.toNat + 32) else c

def toUpperChar (c : Char) : Char :=
if isAsciiLower c then Char.ofNat (c.toNat - 32) else c

def lowerStr (s : Str) : Str := s.map toLowerChar

def upperStr (s : Str) : Str := s.map toUpperChar

/-- Non-breaking space, U+00A0. -/
def nbsp : Char := Char.ofNat 160

/-- JavaScript regex whitespace class restricted to the characters that can
occur in the modelled inputs (ASCII whitespace and the non-breaking space). -/
def isWsChar (c : Char) : Bool :=
c = ' ' || c = '\t' || c = '\n' || c = '\r' || c = Char.ofNat 11 || c = Char.ofNat 12 || c = nbsp

/-- Replace every maximal run of characters satisfying `p` by the single
character `rep` (the effect of a global replace of a character-class-plus
pattern). The boolean flag records whether the previous character was in a
run. -/
def collapseRunsAux (p : Char → Bool) (rep : Char) : Bool → Str → Str
| _, [] => []
| inRun, c :: rest =>
  if p c then (if inRun then [] else [rep]) ++ collapseRunsAux p rep true rest
  else c :: collapseRunsAux p rep false rest

def collapseRuns (p : Char → Bool) (rep : Char) (s : Str) : Str :=
collapseRunsAux p rep false s

/-- Drop leading and trailing characters satisfying `p`. -/
def trimWith (p : Char → Bool) (s : Str) : Str :=
((s.dropWhile p).reverse.dropWhile p).reverse

/-- JavaScript String.prototype.trim. -/
def trimStr (s : Str) : Str := trimWith isWsChar s

/-- JavaScript String.prototype.trimEnd. -/
def trimEndStr (s : Str) : Str := (s.reverse.dropWhile isWsChar).reverse

/-- JavaScript String.prototype.trimStart. -/
def trimStartStr (s : Str) : Str := s.dropWhile isWsChar

/-- cleanText from src/utils/text.ts: entity-decode (modelled as identity),
replace U+00A0 by a space, collapse whitespace runs to single spaces, trim. -/
def cleanText (s : Str) : Str :=
trimStr (collapseRuns isWsChar ' ' (s.map (fun c => if c = nbsp then ' ' else c)))

def cleanTextOpt (s : Option Str) : Str := cleanText (s.getD [])

/-- Decimal digits of a natural number as characters (JavaScript String(n)). -/
def natToChars (n : Nat) : Str :=
if n = 0 then ['0'] else ((Nat.digits 10 n).map Nat.digitChar).reverse

/-- JavaScript String(i) for an integral number. -/
def intToChars (i : Int) : Str :=
if i < 0 then '-' :: natToChars i.natAbs else natToChars i.toNat

def digitVal (c : Char) : Nat := c.toNat - 48

def digitsToNat (s : Str) : Nat := s.foldl (fun acc c => acc * 10 + digitVal c) 0

/-- Test of the anchored pattern of one-or-more decimal digits. -/
def isAllDigits (s : Str) : Bool := !s.isEmpty && s.all isAsciiDigit

/-- Test of the anchored pattern `-?\d+`. -/
def matchSignedDigits : Str → Bool
| '-' :: rest => isAllDigits rest
| s => isAllDigits s

def parseSignedInt : Str → Int
| '-' :: rest => - (digitsToNat rest : Int)
| s => (digitsToNat s : Int)

/-- Match a literal character sequence at the start of the text, returning the
remainder on success. -/
def matchLit : Str → Str → Option Str
| [], t => some t
| _ :: _, [] => none
| p :: ps, c :: cs => if c = p then matchLit ps cs else none

/-- A word boundary holds after a word character at this remainder position
(the remainder is empty or starts with a non-word character). -/
def boundaryAfter : Str → Bool
| [] => true
| c :: _ => !isWordChar c

/-- Does the literal phrase `p` (which starts and ends with word characters)
match at the head of `t` with a trailing word boundary? -/
def phraseAt (p : Str) (t : Str) : Bool :=
match matchLit p t with
| none => false
| some rest => boundaryAfter rest

/-- Scan `t` for an occurrence of the word-delimited phrase `p`; `bnd` records
whether the current position sits at a word boundary (previous character
non-word, or start of string).  This realises the regex \b p \b for literal
phrases that start and end with word characters: such phrases cannot overlap
themselves across a word boundary, so position-by-position scanning agrees
with the JavaScript regex engine. -/
def containsPhraseFrom (p : Str) : Str → Bool → Bool
| [], bnd => bnd && phraseAt p []
| t@(c :: rest), bnd => (bnd && phraseAt p t) || containsPhraseFrom p rest (!isWordChar c)

/-- Test of the regex \b p \b for a literal phrase `p`. -/
def containsWordPhrase (p : Str) (t : Str) : Bool := containsPhraseFrom p t true

def containsAnyWordPhrase (ps : List Str) (t : Str) : Bool :=
ps.any (fun p => containsWordPhrase p t)

/-- Number of matches of the global regex \b p \b for a non-self-overlapping
literal phrase `p` (all phrases counted in the source have this property, so
counting match positions agrees with the JavaScript global-match count). -/
def countPhraseFrom (p : Str) : Str → Bool → Nat
| [], bnd => if bnd && phraseAt p [] then 1 else 0
| t@(c :: rest), bnd =>
  (if bnd && phraseAt p t then 1 else 0) + countPhraseFrom p rest (!isWordChar c)

def countWordPhrase (p : Str) (t : Str) : Nat := countPhraseFrom p t true

/-- Match one-or-more whitespace characters followed by the literal `p`
(regex \s+ p for a `p` not starting with whitespace: maximal-munch is
complete). -/
def wsThenLit (p : Str) : Str → Bool
| [] => false
| c :: rest => isWsChar c && (matchLit p (rest.dropWhile isWsChar)).isSome

/-- Does the word `w` match at the head of `t` with a trailing word boundary
and without being followed by whitespace and the literal `follow` (regex
\b w (?!\s+follow) \b at this position)? -/
def wordNotFollowedAt (w : Str) (follow : Str) (t : Str) : Bool :=
match matchLit w t with
| none => false
| some rest => boundaryAfter rest && !wsThenLit follow rest

def containsWordNotFollowedFrom (w follow : Str) : Str → Bool → Bool
| [], bnd => bnd && wordNotFollowedAt w follow []
| t@(c :: rest), bnd =>
  (bnd && wordNotFollowedAt w follow t) || containsWordNotFollowedFrom w follow rest (!isWordChar c)

/-- Test of the regex \b w (?!\s+follow) \b. -/
def containsWordNotFollowed (w follow : Str) (t : Str) : Bool :=
containsWordNotFollowedFrom w follow t true

/-- Case-insensitive substring test (regex /p/i for a literal `p`). -/
def containsLitCI (p : Str) (t : Str) : Bool :=
let pl := lowerStr p
let rec go : Str → Bool
| [] => (matchLit pl []).isSome
| t@(_ :: rest) => (matchLit pl (lowerStr t)).isSome || go rest
go t

/-- Case-insensitive prefix test (regex /^p/i for a literal `p`). -/
def startsWithCI (p : Str) (t : Str) : Bool :=
(matchLit (lowerStr p) (lowerStr t)).isSome

/-- Case-insensitive whole-string equality (regex /^p$/i for a literal `p`). -/
def eqCI (p : Str) (t : Str) : Bool := lowerStr p = lowerStr t

/-- Split on whitespace runs, keeping only non-empty parts: the composition of
a JavaScript split(/\s+/) with a filter for non-empty segments, as used by the
scoring-decision parser. -/
def splitWsParts (s : Str) : List Str :=
(s.splitOnP (fun c => isWsChar c)).filter (fun part => !part.isEmpty)

/-- Generic boundary-tracking scanner: try the position matcher `f` at every
word-boundary position of the text, returning the first payload produced.
Realises a regex search for a pattern beginning with \b. -/
def scanFor {α : Type} (f : Str → Option α) : Str → Bool → Option α
| [], bnd => if bnd then f [] else none
| t@(c :: rest), bnd => (if bnd then f t else none) <|> scanFor f rest (!isWordChar c)

/-- First index (in the scanned text) at which the position test `f` fires at
a word boundary. -/
def firstIdxFrom (f : Str → Bool) : Str → Bool → Nat → Option Nat
| [], bnd, i => if bnd && f [] then some i else none
| t@(c :: rest), bnd, i =>
  if bnd && f t then some i else firstIdxFrom f rest (!isWordChar c) (i + 1)

/- Table-cell values of the upstream table model: string, number or null.
Numbers that reach the embedded code are integral. -/
inductive Cell where
| str (s : Str)
| num (i : Int)
| null
deriving DecidableEq

inductive Half where
| top
| bottom
deriving DecidableEq

inductive TeamSide where
| away
| home
deriving DecidableEq

def halfToChars : Half → Str
| Half.top => str "top"
| Half.bottom => str "bottom"

def sideToChars : TeamSide → Str
| TeamSide.away => str "away"
| TeamSide.home => str "home"

/-- toStringValue from the scorekeeping part of src/utils/text.ts, on a
nullable string. -/
def toStringValueS : Option Str → Option Str
| none => none
| some s =>
  let t := trimStr s
  if t.isEmpty || t = ['-'] then none else some t

/-- toStringValue on a table cell (String(number) renders decimally). -/
def toStringValueC : Cell → Option Str
| Cell.null => none
| Cell.str s => toStringValueS (some s)
| Cell.num i => toStringValueS (some (intToChars i))

/-- parseInteger from the scorekeeping part of src/utils/text.ts. -/
def parseIntegerSK : Cell → Option Int
| Cell.null => none
| Cell.num i => some i
| Cell.str s =>
  let t := trimStr s
  if t.isEmpty || t = ['-'] then none
  else if matchSignedDigits t then some (parseSignedInt t) else none

/-- replace(/\s+/g, " ").trim() as applied by the display-name helpers. -/
def collapseWsTrim (s : Str) : Str := trimStr (collapseRuns isWsChar ' ' s)

/-- normalizePlayerDisplayName from src/utils/text.ts. -/
def normalizePlayerDisplayName (value : Option Str) : Option Str :=
match toStringValueS value with
| none => none
| some clean =>
  if !clean.contains ',' then some (collapseWsTrim clean)
  else
    let commaIndex := clean.indexOf ','
    let lastName := trimStr (clean.take commaIndex)
    let firstName := trimStr (clean.drop (commaIndex + 1))
    if firstName.isEmpty || lastName.isEmpty then some (collapseWsTrim clean)
    else some (collapseWsTrim (firstName ++ [' '] ++ lastName))

/-- Lower-case, collapse non-word-character runs to spaces, collapse
whitespace, trim: the shared tail of normalizeName and normalizePlayText. -/
def normalizeLoose (s : Str) : Str :=
trimStr (collapseRuns isWsChar ' ' (collapseRuns (fun c => !isWordChar c) ' ' (lowerStr s)))

/-- normalizeName from src/utils/text.ts. -/
def normalizeName (value : Option Str) : Str :=
normalizeLoose ((normalizePlayerDisplayName value).getD (value.getD []))

/-- normalizePlayText from src/utils/text.ts. -/
def normalizePlayText (value : Option Str) : Str :=
normalizeLoose (value.getD [])

/-- normalizeTeamToken from src/utils/text.ts (returns the empty string in
place of an empty normalization, which is the identity on lists). -/
def normalizeTeamToken (value : Option Str) : Str := normalizeName value

/-- slugForId from src/utils/text.ts. -/
def slugForId (value : Str) : Str :=
let slug :=
  trimWith (fun c => c = '-')
    (collapseRuns (fun c => !(isAsciiLower c || isAsciiDigit c)) '-' (lowerStr value))
if slug.isEmpty then str "unknown" else slug

/-- countRunsScored from src/utils/text.ts. -/
def countRunsScored (text : Str) : Nat :=
let normalized := lowerStr text
countWordPhrase (str "scored") normalized + countWordPhrase (str "scores") normalized +
  (if containsWordPhrase (str "homered") normalized ||
      containsWordPhrase (str "home run") normalized then 1 else 0)

structure HalfInning where
  half : Option Half
  inning : Option Int
deriving DecidableEq

/-- Position matcher for the pattern (top|bot|bottom)\s*(\d+) on lower-cased
text, trying the alternatives in the source's order. -/
def halfInningAt (t : Str) : Option (Half × Int) :=
let tryAlt : Str → Half → Option (Half × Int) := fun alt h =>
  match matchLit alt t with
  | none => none
  | some rest =>
    let ds := (rest.dropWhile isWsChar).takeWhile isAsciiDigit
    if ds.isEmpty then none else some (h, (digitsToNat ds : Int))
tryAlt (str "top") Half.top <|> tryAlt (str "bot") Half.bottom <|>
  tryAlt (str "bottom") Half.bottom

/-- parseHalfInning from src/utils/text.ts (regex \b(top|bot|bottom)\s*(\d+)
with the i flag). -/
def parseHalfInning (value : Option Str) : HalfInning :=
match value with
| none => ⟨none, none⟩
| some v =>
  if v.isEmpty then ⟨none, none⟩
  else
    match scanFor halfInningAt (lowerStr v) true with
    | none => ⟨none, none⟩
    | some (h, n) => ⟨some h, some n⟩

inductive Outcome where
| single
| double
| triple
| home_run
| walk
| intentional_walk
| hit_by_pitch
| strikeout
| ground_out
| fly_out
| line_out
| foul_out
| sacrifice
| fielder_choice
| reached_on_error
| stolen_base
| caught_stealing
| pickoff
| wild_pitch
| passed_ball
| balk
| other
deriving DecidableEq

/-- Set-like tag insertion (JavaScript Set.add preserving insertion order). -/
def addTag (tags : List Str) (tag : Str) : List Str :=
if tags.contains tag then tags else tags ++ [tag]

/-- The independent tag-detection block of parsePlayDescription. -/
def detectedTags (lower : Str) : List Str :=
let t0 : List Str := []
let t1 := if containsWordPhrase (str "double play") lower then addTag t0 (str "double_play") else t0
let t2 := if containsWordPhrase (str "triple play") lower then addTag t1 (str "triple_play") else t1
let t3 := if containsWordPhrase (str "scored") lower ||
             containsWordPhrase (str "scores") lower then addTag t2 (str "run_scored") else t2
if containsWordPhrase (str "rbi") lower then addTag t3 (str "rbi") else t3

/-- The ordered outcome matchers of parsePlayDescription, in source order;
each entry carries the outcome, the compiled test of its regex, and the tag
string added on match. -/
def orderedMatchers : List (Outcome × (Str → Bool) × Str) :=
[ (Outcome.home_run,
    fun l => containsWordPhrase (str "homered") l || containsWordPhrase (str "home run") l,
    str "home_run"),
  (Outcome.triple,
    fun l => containsWordPhrase (str "tripled") l ||
      containsWordNotFollowed (str "triple") (str "play") l,
    str "triple"),
  (Outcome.double,
    fun l => containsWordPhrase (str "doubled") l ||
      containsWordNotFollowed (str "double") (str "play") l,
    str "double"),
  (Outcome.single,
    fun l => containsWordPhrase (str "singled") l || containsWordPhrase (str "single") l,
    str "single"),
  (Outcome.intentional_walk,
    fun l => containsWordPhrase (str "intentionally walked") l,
    str "intentional_walk"),
  (Outcome.walk,
    fun l => containsWordPhrase (str "walked") l || containsWordPhrase (str "walk") l,
    str "walk"),
  (Outcome.hit_by_pitch,
    fun l => containsWordPhrase (str "hit by pitch") l || containsWordPhrase (str "hbp") l,
    str "hit_by_pitch"),
  (Outcome.caught_stealing,
    fun l => containsWordPhrase (str "caught stealing") l,
    str "caught_stealing"),
  (Outcome.pickoff,
    fun l => containsWordPhrase (str "picked off") l || containsWordPhrase (str "pickoff") l,
    str "pickoff"),
  (Outcome.stolen_base,
    fun l => containsWordPhrase (str "stole") l || containsWordPhrase (str "stolen base") l,
    str "stolen_base"),
  (Outcome.strikeout,
    fun l => containsWordPhrase (str "struck out") l || containsWordPhrase (str "strikeout") l,
    str "strikeout"),
  (Outcome.ground_out,
    fun l => containsWordPhrase (str "grounded out") l ||
      containsWordPhrase (str "ground out") l || containsWordPhrase (str "groundout") l,
    str "ground_out"),
  (Outcome.fly_out,
    fun l => containsWordPhrase (str "flied out") l ||
      containsWordPhrase (str "fly out") l || containsWordPhrase (str "popped out") l,
    str "fly_out"),
  (Outcome.line_out,
    fun l => containsWordPhrase (str "lined out") l || containsWordPhrase (str "line out") l,
    str "line_out"),
  (Outcome.foul_out,
    fun l => containsWordPhrase (str "fouled out") l || containsWordPhrase (str "foul out") l,
    str "foul_out"),
  (Outcome.sacrifice,
    fun l => containsWordPhrase (str "sacrifice") l ||
      containsWordPhrase (str "sac fly") l || containsWordPhrase (str "sac bunt") l,
    str "sacrifice"),
  (Outcome.fielder_choice,
    fun l => containsWordPhrase (str "fielder" ++ [apos] ++ str "s choice") l ||
      containsWordPhrase (str "fielders choice") l,
    str "fielder_choice"),
  (Outcome.reached_on_error,
    fun l => containsWordPhrase (str "reached on an error") l ||
      containsWordPhrase (str "reached on a throwing error") l ||
      containsWordPhrase (str "reached on error") l,
    str "error"),
  (Outcome.wild_pitch,
    fun l => containsWordPhrase (str "wild pitch") l,
    str "wild_pitch"),
  (Outcome.passed_ball,
    fun l => containsWordPhrase (str "passed ball") l,
    str "passed_ball"),
  (Outcome.balk,
    fun l => containsWordPhrase (str "balk") l,
    str "balk") ]

def firstMatch : List (Outcome × (Str → Bool) × Str) → Str → Option (Outcome × Str)
| [], _ => none
| (o, p, tag) :: rest, l => if p l then some (o, tag) else firstMatch rest l

/-- parsePlayDescription from src/utils/text.ts. -/
def parsePlayDescription (text : Str) : Outcome × List Str :=
let lower := lowerStr text
let tags := detectedTags lower
match firstMatch orderedMatchers lower with
| some (o, tag) => (o, addTag tags tag)
| none => (Outcome.other, tags)

inductive PitchDescription where
| ball
| called_strike
| swinging_strike
| foul
| in_play
| hit_by_pitch
| intentional_ball
| pitchout_ball
| pitchout_strike
| unknown
deriving DecidableEq

structure PitchToken where
  pitchNumber : Nat
  code : Char
  description : PitchDescription
deriving DecidableEq

structure PitchContext where
  finalCount : Option (Nat × Nat)
  rawSequence : Option Str
  pitches : List PitchToken
deriving DecidableEq

/-- mapPitchCode from src/utils/text.ts. -/
def mapPitchCode (code : Char) : PitchDescription :=
let c := toUpperChar code
if c = 'B' then PitchDescription.ball
else if c = 'I' then PitchDescription.intentional_ball
else if c = 'P' then PitchDescription.pitchout_ball
else if c = 'Q' then PitchDescription.pitchout_strike
else if c = 'K' || c = 'C' then PitchDescription.called_strike
else if c = 'S' || c = 'M' then PitchDescription.swinging_strike
else if c = 'F' || c = 'L' || c = 'T' then PitchDescription.foul
else if c = 'X' then PitchDescription.in_play
else if c = 'H' then PitchDescription.hit_by_pitch
else PitchDescription.unknown

/-- Position matcher for one occurrence of the pattern
\((\d)\s*-\s*(\d)(?:\s+([A-Z]+))?\). -/
def pitchParenAt : Str → Option (Char × Char × Option Str)
| '(' :: d1 :: r1 =>
  if isAsciiDigit d1 then
    match r1.dropWhile isWsChar with
    | '-' :: r3 =>
      match r3.dropWhile isWsChar with
      | d2 :: r5 =>
        if isAsciiDigit d2 then
          match r5 with
          | ')' :: _ => some (d1, d2, none)
          | c :: rest =>
            if isWsChar c then
              let r6 := rest.dropWhile isWsChar
              let seq := r6.takeWhile isAsciiUpper
              if !seq.isEmpty then
                match r6.dropWhile isAsciiUpper with
                | ')' :: _ => some (d1, d2, some seq)
                | _ => none
              else none
            else none
          | [] => none
        else none
      | [] => none
    | _ => none
  else none
| _ => none

/-- All matches of the pitch-count pattern, scanning every position.  A match
span contains no opening parenthesis after its first character, so no match
can begin strictly inside another and position scanning agrees with the
JavaScript matchAll iteration. -/
def collectPitchMatches : Str → List (Char × Char × Option Str)
| [] => []
| t@(_ :: rest) =>
  (match pitchParenAt t with | some m => [m] | none => []) ++ collectPitchMatches rest

/-- parsePitchContextFromText from src/utils/text.ts (preferring the last
match). -/
def parsePitchContextFromText (text : Str) : Option PitchContext :=
match (collectPitchMatches text).getLast? with
| none => none
| some (d1, d2, seqOpt) =>
  let balls := digitVal d1
  let strikes := digitVal d2
  let rawSequence := seqOpt.map (fun s => upperStr (trimStr s))
  let pitches :=
    match rawSequence with
    | none => []
    | some s => s.enum.map (fun p => ⟨p.1 + 1, p.2, mapPitchCode p.2⟩)
  some ⟨some (balls, strikes), rawSequence, pitches⟩

inductive LocSource where
| text
| scorecard
| nosource
deriving DecidableEq

structure FieldLocation where
  code : Int
  abbreviation : Str
  name : Str
deriving DecidableEq

structure ScoringDecisionContext where
  playCode : Option Str
  fielderCodes : List Int
  fieldLocations : List FieldLocation
  rbi : Option Int
  locationSource : LocSource
  locationConfidence : Rat
deriving DecidableEq

/-- mapFielderCodeToLocation from src/utils/text.ts. -/
def mapFielderCodeToLocation (code : Int) : FieldLocation :=
if code = 1 then ⟨code, str "P", str "pitcher"⟩
else if code = 2 then ⟨code, str "C", str "catcher"⟩
else if code = 3 then ⟨code, str "1B", str "first base"⟩
else if code = 4 then ⟨code, str "2B", str "second base"⟩
else if code = 5 then ⟨code, str "3B", str "third base"⟩
else if code = 6 then ⟨code, str "SS", str "shortstop"⟩
else if code = 7 then ⟨code, str "LF", str "left field"⟩
else if code = 8 then ⟨code, str "CF", str "center field"⟩
else if code = 9 then ⟨code, str "RF", str "right field"⟩
else ⟨code, str "UNK", str "unknown"⟩

/-- Test of the anchored pattern [A-Z0-9]+. -/
def isUpperAlnum (s : Str) : Bool :=
!s.isEmpty && s.all (fun c => isAsciiUpper c || isAsciiDigit c)

/-- Test of the anchored pattern \d+RBI. -/
def isDigitsRbi (s : Str) : Bool :=
let ds := s.takeWhile isAsciiDigit
!ds.isEmpty && s.drop ds.length = str "RBI"

/-- First match of the pattern (\d+)\s*RBI\b, returning the captured count.
The regex engine scans positions left to right; a match can only begin at a
digit, and maximal-munch of the digit run and whitespace run is complete
because the following atoms begin with non-digit, non-whitespace characters. -/
def findRbiCount : Str → Option Nat
| [] => none
| t@(c :: rest) =>
  (if isAsciiDigit c then
    let ds := t.takeWhile isAsciiDigit
    let r2 := (t.dropWhile isAsciiDigit).dropWhile isWsChar
    match matchLit (str "RBI") r2 with
    | some rest2 => if boundaryAfter rest2 then some (digitsToNat ds) else none
    | none => none
  else none) <|> findRbiCount rest

/-- parseScoringDecisionContext from src/utils/text.ts. -/
def parseScoringDecisionContext (scoringDecision : Option Str) : Option ScoringDecisionContext :=
match toStringValueS scoringDecision with
| none => none
| some clean =>
  let normalized := upperStr clean
  let parts := splitWsParts normalized
  match parts with
  | [] => none
  | playCodeCandidate :: _ =>
    let playCode :=
      if isUpperAlnum playCodeCandidate && !isDigitsRbi playCodeCandidate
      then some playCodeCandidate else none
    let locationToken := parts.find? isAllDigits
    let fielderCodes :=
      match locationToken with
      | some tk => tk.map (fun d => (digitVal d : Int))
      | none => []
    let validFielderCodes := fielderCodes.filter (fun c => 1 ≤ c && c ≤ 9)
    let fieldLocations := validFielderCodes.map mapFielderCodeToLocation
    let rbi : Option Int :=
      match findRbiCount normalized with
      | some n => some (n : Int)
      | none => if containsWordPhrase (str "RBI") normalized then some 1 else none
    some
      { playCode := playCode
        fielderCodes := validFielderCodes
        fieldLocations := fieldLocations
        rbi := rbi
        locationSource := if !validFielderCodes.isEmpty then LocSource.scorecard else LocSource.nosource
        locationConfidence := if !validFielderCodes.isEmpty then (9 : Rat)/10 else 0 }

def wsRun1 : Str → Option Str
| [] => none
| c :: rest => if isWsChar c then some (rest.dropWhile isWsChar) else none

def tryLocAlts (locs : List Str) (r : Str) : Bool :=
locs.any fun loc =>
  match matchLit loc r with
  | some rest => boundaryAfter rest
  | none => false

/-- Position matcher for \b(prep alternatives)\s+(deep\s+)?(loc alternatives)\b
(the deep alternative only for the outfield patterns). -/
def locPatternAt (preps locs : List Str) (allowDeep : Bool) (t : Str) : Bool :=
preps.any fun prep =>
  match matchLit prep t with
  | none => false
  | some r1 =>
    match wsRun1 r1 with
    | none => false
    | some r2 =>
      tryLocAlts locs r2 ||
        (allowDeep &&
          (match matchLit (str "deep") r2 with
           | some r3 =>
             match wsRun1 r3 with
             | some r4 => tryLocAlts locs r4
             | none => false
           | none => false))

def outfieldPreps : List Str :=
[str "to", str "into", str "toward", str "towards", str "down"]

def infieldPreps : List Str := [str "to", str "toward", str "towards"]

/-- The location patterns of parseFieldLocationsFromText in source order,
each paired with its fielder code; the second component computes the first
match index in the lower-cased play text. -/
def fieldLocPatterns : List (Int × (Str → Option Nat)) :=
[ (9, fun t => firstIdxFrom (locPatternAt outfieldPreps [str "right field", str "rf"] true) t true 0),
  (8, fun t => firstIdxFrom (locPatternAt outfieldPreps [str "center field", str "cf"] true) t true 0),
  (7, fun t => firstIdxFrom (locPatternAt outfieldPreps [str "left field", str "lf"] true) t true 0),
  (1, fun t => firstIdxFrom (locPatternAt infieldPreps [str "pitcher", str "p"] false) t true 0),
  (2, fun t => firstIdxFrom (locPatternAt infieldPreps [str "catcher", str "c"] false) t true 0),
  (3, fun t => firstIdxFrom (locPatternAt infieldPreps [str "first base", str "1b"] false) t true 0),
  (4, fun t => firstIdxFrom (locPatternAt infieldPreps [str "second base", str "2b"] false) t true 0),
  (5, fun t => firstIdxFrom (locPatternAt infieldPreps [str "third base", str "3b"] false) t true 0),
  (6, fun t => firstIdxFrom (locPatternAt infieldPreps [str "shortstop", str "ss"] false) t true 0) ]

/-- Smallest-index entry of the match list, keeping the earliest-listed
pattern on ties (the stable sort of the source). -/
def pickEarliest (l : List (Int × Nat)) : Option Int :=
(l.foldl
  (fun best e =>
    match best with
    | none => some e
    | some b => if e.2 < b.2 then some e else some b)
  none).map (fun e => e.1)

/-- parseFieldLocationsFromText from src/utils/text.ts. -/
def parseFieldLocationsFromText (playText : Str) : List FieldLocation :=
let lower := lowerStr playText
let found := fieldLocPatterns.filterMap (fun e => (e.2 lower).map (fun i => (e.1, i)))
match pickEarliest found with
| none => []
| some code => [mapFielderCodeToLocation code]

/-- resolveScoringDecisionContext from src/utils/text.ts: play-text locations
are authoritative over the scorecard shorthand. -/
def resolveScoringDecisionContext (scoringDecision : Option Str) (playText : Str) :
    Option ScoringDecisionContext :=
let base := parseScoringDecisionContext scoringDecision
let textLocations := parseFieldLocationsFromText playText
if !textLocations.isEmpty then
  let fielderCodes := textLocations.map (fun loc => loc.code)
  match base with
  | some b =>
    some { b with
      fielderCodes := fielderCodes
      fieldLocations := textLocations
      locationSource := LocSource.text
      locationConfidence := 1 }
  | none =>
    some
      { playCode := none
        fielderCodes := fielderCodes
        fieldLocations := textLocations
        rbi := none
        locationSource := LocSource.text
        locationConfidence := 1 }
else base

/- ===== Live play feed (src/pipelines/live-play-feed.ts) ===== -/

/-- parseInteger from the first section of src/utils/text.ts (used by the
live feed via toOptionalNumber). -/
def parseIntegerU (value : Option Str) : Option Int :=
match value with
| none => none
| some s =>
  if s.isEmpty then none
  else
    let clean := (cleanText s).filter (fun c => c ≠ ',')
    if matchSignedDigits clean then some (parseSignedInt clean) else none

structure LivePlayEvent where
  key : Str
  order : Nat
  inning : Option Int
  half : Option Half
  isSubstitution : Bool
  text : Str
  scoringDecision : Option Str
  batter : Option Str
  pitcher : Option Str
  outs : Option Int
  sectionTitle : Str
deriving DecidableEq

/- StatsTableRow also carries a header-keyed value map upstream; the live
feed reads cells positionally through alignCellsToHeaders only, so the map is
not modelled. -/
structure StatsTableRow where
  cells : List Cell
deriving DecidableEq

structure StatsTable where
  headers : List Str
  rows : List StatsTableRow
deriving DecidableEq

structure StatsSection where
  title : Str
  tables : List StatsTable
deriving DecidableEq

/- Of StatBroadcastLiveStats only the sections are consumed by the play-row
extractor. -/
structure LiveStats where
  sections : List StatsSection
deriving DecidableEq

structure LivePitcher where
  name : Option Str
  pitchCount : Option Int
deriving DecidableEq

/- Of LiveSituation the embedded functions use the outs count and the current
pitcher. -/
structure LiveSituation where
  outs : Option Int
  pitcher : LivePitcher
deriving DecidableEq

/- Of StatBroadcastLiveSummary the embedded functions use the status text,
team names, scores and situation. -/
structure LiveSummary where
  statusText : Option Str
  visitorTeam : Str
  homeTeam : Str
  visitorScore : Option Int
  homeScore : Option Int
  situation : Option LiveSituation
deriving DecidableEq

/-- toOptionalString from src/pipelines/live-play-feed.ts. -/
def toOptionalString (value : Cell) : Option Str :=
match value with
| Cell.null => none
| Cell.str s => let t := cleanText s; if t.isEmpty then none else some t
| Cell.num i => let t := cleanText (intToChars i); if t.isEmpty then none else some t

/-- toOptionalNumber from src/pipelines/live-play-feed.ts. -/
def toOptionalNumber (value : Cell) : Option Int :=
match value with
| Cell.num i => some i
| Cell.null => none
| Cell.str s => parseIntegerU (some s)

/-- alignCellsToHeaders from src/pipelines/live-play-feed.ts. -/
def alignCellsToHeaders (headers : List Str) (cells : List Cell) : List Cell :=
if headers.length = cells.length then cells
else if headers.length = cells.length + 1 && (cleanText (headers.headD [])).isEmpty then
  Cell.null :: cells
else if headers.length = cells.length + 1 && (cleanText (headers.getLastD [])).isEmpty then
  cells ++ [Cell.null]
else cells

def hdrPlay (h : Str) : Bool := eqCI (str "play") (cleanText h)

def hdrScoringDec (h : Str) : Bool :=
let c := lowerStr (cleanText h)
c = str "scoring dec" || c = str "scoring dec."

def hdrBatter (h : Str) : Bool := eqCI (str "batter") (cleanText h)

def hdrPitcher (h : Str) : Bool := eqCI (str "pitcher") (cleanText h)

def hdrOuts (h : Str) : Bool := eqCI (str "outs") (cleanText h)

/-- readTableCellByHeader from src/pipelines/live-play-feed.ts (a missing
header and a missing cell both yield null). -/
def readTableCellByHeader (table : StatsTable) (row : StatsTableRow) (pat : Str → Bool) : Cell :=
match table.headers.findIdx? pat with
| none => Cell.null
| some index => (alignCellsToHeaders table.headers row.cells).getD index Cell.null

/-- isHeaderPlaceholderRow from src/pipelines/live-play-feed.ts. -/
def isHeaderPlaceholderRow (table : StatsTable) (row : StatsTableRow) : Bool :=
toOptionalString (readTableCellByHeader table row hdrPlay) == some (str "Play") &&
toOptionalString (readTableCellByHeader table row hdrScoringDec) == some (str "Scoring Dec.") &&
toOptionalString (readTableCellByHeader table row hdrBatter) == some (str "Batter") &&
toOptionalString (readTableCellByHeader table row hdrPitcher) == some (str "Pitcher") &&
toOptionalString (readTableCellByHeader table row hdrOuts) == some (str "Outs")

/-- isLikelyActionCode from src/pipelines/live-play-feed.ts. -/
def isLikelyActionCode (value : Str) : Bool :=
let text := cleanText value
if text.isEmpty then false
else if text.contains ' ' then false
else decide (1 ≤ text.length) && decide (text.length ≤ 4) &&
  text.all (fun c => isAsciiUpper c || isAsciiDigit c)

/-- isLikelyPlayText from src/pipelines/live-play-feed.ts. -/
def isLikelyPlayText (value : Str) : Bool :=
let text := cleanText value
if text.isEmpty then false
else if isLikelyActionCode text then false
else text.any isWsChar || text.any (fun c => c = '.' || c = '(' || c = ')' || c = ';')

/-- isLikelyPlayerName from src/pipelines/live-play-feed.ts. -/
def isLikelyPlayerName (value : Str) : Bool :=
let text := cleanText value
if text.isEmpty then false
else if isAllDigits text then false
else if isLikelyActionCode text then false
else
  match text with
  | [] => false
  | c :: rest =>
    isAsciiAlpha c &&
      rest.all (fun ch => isAsciiAlpha ch || ch = apos || ch = '.' || ch = ' ' || ch = '-')

/-- Plain position-by-position scan (for regexes without a leading word
boundary). -/
def scanAll {α : Type} (f : Str → Option α) : Str → Option α
| [] => f []
| t@(_ :: rest) => f t <|> scanAll f rest

/-- Position matcher for (top|bottom|bot)\s+of\s+the\s+(\d+) on lower-cased
text, trying the alternatives in the source's order. -/
def halfInningLFAt (t : Str) : Option (Half × Int) :=
let tryAlt : Str → Half → Option (Half × Int) := fun alt h =>
  match matchLit alt t with
  | none => none
  | some r1 =>
    match wsRun1 r1 with
    | none => none
    | some r2 =>
      match matchLit (str "of") r2 with
      | none => none
      | some r3 =>
        match wsRun1 r3 with
        | none => none
        | some r4 =>
          match matchLit (str "the") r4 with
          | none => none
          | some r5 =>
            match wsRun1 r5 with
            | none => none
            | some r6 =>
              let ds := r6.takeWhile isAsciiDigit
              if ds.isEmpty then none else some (h, (digitsToNat ds : Int))
tryAlt (str "top") Half.top <|> tryAlt (str "bottom") Half.bottom <|>
  tryAlt (str "bot") Half.bottom

/-- parseHalfAndInning from src/pipelines/live-play-feed.ts. -/
def parseHalfAndInningLF (value : Str) : Option (Half × Int) :=
scanAll halfInningLFAt (lowerStr (cleanText value))

/-- Position matcher for (\d+)(?:st|nd|rd|th)?\s+inning on lower-cased text. -/
def inningTitleAt (t : Str) : Option Int :=
let ds := t.takeWhile isAsciiDigit
if ds.isEmpty then none
else
  let r := t.dropWhile isAsciiDigit
  let tail :=
    ([str "st", str "nd", str "rd", str "th"].any fun sfx =>
      match matchLit sfx r with
      | some r2 => wsThenLit (str "inning") r2
      | none => false) ||
    wsThenLit (str "inning") r
  if tail then some (digitsToNat ds : Int) else none

/-- parseInningFromTitle from src/pipelines/live-play-feed.ts. -/
def parseInningFromTitle (title : Str) : Option Int :=
scanAll inningTitleAt (lowerStr (cleanText title))

/-- Position matcher for pinch\s+(?:ran|runner|hit)\s+for\b. -/
def subPat1At (t : Str) : Bool :=
match matchLit (str "pinch") t with
| none => false
| some r1 =>
  match wsRun1 r1 with
  | none => false
  | some r2 =>
    [str "ran", str "runner", str "hit"].any fun alt =>
      match matchLit alt r2 with
      | none => false
      | some r3 =>
        match wsRun1 r3 with
        | none => false
        | some r4 => phraseAt (str "for") r4

/-- Position matcher for to\s+(?:p|c|1b|2b|3b|ss|lf|cf|rf|dh|ph|pr)\s+for\b. -/
def subPat2At (t : Str) : Bool :=
match matchLit (str "to") t with
| none => false
| some r1 =>
  match wsRun1 r1 with
  | none => false
  | some r2 =>
    [str "p", str "c", str "1b", str "2b", str "3b", str "ss", str "lf", str "cf",
      str "rf", str "dh", str "ph", str "pr"].any fun alt =>
      match matchLit alt r2 with
      | none => false
      | some r3 =>
        match wsRun1 r3 with
        | none => false
        | some r4 => phraseAt (str "for") r4

/-- Position matcher for sub(?:stitution)?\b. -/
def subPat3At (t : Str) : Bool :=
match matchLit (str "sub") t with
| none => false
| some r1 =>
  (match matchLit (str "stitution") r1 with
   | some r2 => boundaryAfter r2
   | none => false) || boundaryAfter r1

def containsBoundaryPat (f : Str → Bool) (t : Str) : Bool :=
(firstIdxFrom f t true 0).isSome

/-- isSubstitutionText from src/pipelines/live-play-feed.ts. -/
def isSubstitutionText (value : Str) : Bool :=
let text := cleanText value
if text.isEmpty then false
else
  let lt := lowerStr text
  containsBoundaryPat subPat1At lt || containsBoundaryPat subPat2At lt ||
    containsBoundaryPat subPat3At lt

structure FallbackPlayFields where
  play : Option Str
  scoringDecision : Option Str
  batter : Option Str
  pitcher : Option Str
  outs : Option Int
deriving DecidableEq

/-- inferPlayRowFields from src/pipelines/live-play-feed.ts (the
malformed-table fallback path). -/
def inferPlayRowFields (cells : List Cell) : FallbackPlayFields :=
let values0 := cells.filterMap toOptionalString
if values0.isEmpty then ⟨none, none, none, none, none⟩
else
  let lastV := values0.getLastD []
  let stripLast := lastV.length = 1 && lastV.all isAsciiDigit &&
    0 ≤ (digitsToNat lastV : Int) && (digitsToNat lastV : Int) ≤ 3
  let outs : Option Int := if stripLast then some (digitsToNat lastV : Int) else none
  let values1 := if stripLast then values0.dropLast else values0
  if values1.isEmpty then ⟨none, none, none, none, outs⟩
  else
    let values2 :=
      if values1.length ≥ 2 && isLikelyActionCode (values1.headD []) &&
         isLikelyPlayText (values1.getD 1 [])
      then values1.tail else values1
    let play := values2.head?
    let remainder := values2.tail
    let triple :=
      if remainder.length ≥ 2 && isLikelyPlayerName (remainder.getLastD []) then
        let maybePitcher := remainder.getLastD []
        let maybeBatter := remainder.getD (remainder.length - 2) []
        if isLikelyPlayerName maybeBatter then
          let scoringParts := (remainder.dropLast.dropLast).filter (fun e => !isLikelyActionCode e)
          ((if scoringParts.isEmpty then none
            else some (List.intercalate [' '] scoringParts)),
            some maybeBatter, some maybePitcher)
        else (none, none, none)
      else (none, none, none)
    let scoringDecision :=
      match triple.1 with
      | some s => some s
      | none =>
        match remainder.head? with
        | some candidate => if !isLikelyPlayerName candidate then some candidate else none
        | none => none
    ⟨play, scoringDecision, triple.2.1, triple.2.2, outs⟩

/-- isInvalidParsedPlay from src/pipelines/live-play-feed.ts. -/
def isInvalidParsedPlay (play : Option Str) (firstCell : Option Str) (batter : Option Str)
    (pitcher : Option Str) (outs : Option Int) : Bool :=
match play with
| none => true
| some p =>
  isAllDigits p ||
  (match batter with | some b => isAllDigits b | none => false) ||
  (match firstCell with
   | some fc => batter == some p && fc.length > p.length + 6
   | none => false) ||
  (match firstCell with
   | some fc => p ≠ fc && isLikelyPlayText fc && !isLikelyPlayText p
   | none => false) ||
  (!p.contains ' ' && pitcher == none && outs == none &&
    (match firstCell with | some fc => isLikelyPlayText fc | none => false))

/-- JavaScript a ?? b ?? null over cell lookups. -/
def cellCoalesce (a b : Option Cell) : Cell :=
match a with
| some c => if c == Cell.null then (match b with | some c2 => c2 | none => Cell.null) else c
| none => match b with | some c2 => c2 | none => Cell.null

inductive ParsedRow where
| halfRow (h : Half)
| playRow (inning : Option Int) (half : Option Half) (text : Str) (isSub : Bool)
    (scoringDecision : Option Str) (batter : Option Str) (pitcher : Option Str)
    (outs : Option Int)
deriving DecidableEq

/-- parsePlayRow from src/pipelines/live-play-feed.ts. -/
def parsePlayRow (table : StatsTable) (row : StatsTableRow) : Option ParsedRow :=
if isHeaderPlaceholderRow table row then none
else
  let aligned := alignCellsToHeaders table.headers row.cells
  let firstCell := toOptionalString (cellCoalesce aligned.head? row.cells.head?)
  let fallback := inferPlayRowFields row.cells
  let play0 := toOptionalString (readTableCellByHeader table row hdrPlay)
  let sd0 := toOptionalString (readTableCellByHeader table row hdrScoringDec)
  let batter0 := toOptionalString (readTableCellByHeader table row hdrBatter)
  let pitcher0 := toOptionalString (readTableCellByHeader table row hdrPitcher)
  let outs0 := toOptionalNumber (readTableCellByHeader table row hdrOuts)
  let invalid := isInvalidParsedPlay play0 firstCell batter0 pitcher0 outs0
  let play := if invalid then fallback.play <|> play0 else play0
  let scoringDecision := if invalid then fallback.scoringDecision <|> sd0 else sd0
  let batter := if invalid then fallback.batter <|> batter0 else batter0
  let pitcher := if invalid then fallback.pitcher <|> pitcher0 else pitcher0
  let outs := if invalid then fallback.outs <|> outs0 else outs0
  match firstCell with
  | some fc =>
    if startsWithCI (str "top of the") fc || startsWithCI (str "bottom of the") fc then
      some (ParsedRow.halfRow (if startsWithCI (str "top") fc then Half.top else Half.bottom))
    else if containsLitCI (str "inning summary:") fc then none
    else
      match play with
      | none => none
      | some p =>
        if lowerStr p = str "play" then none
        else if isAllDigits p then none
        else
          let hi := parseHalfAndInningLF fc
          some (ParsedRow.playRow (hi.map (fun e => e.2)) (hi.map (fun e => e.1)) p
            (isSubstitutionText p) scoringDecision batter pitcher outs)
  | none =>
    match play with
    | none => none
    | some p =>
      if lowerStr p = str "play" then none
      else if isAllDigits p then none
      else
        some (ParsedRow.playRow none none p (isSubstitutionText p) scoringDecision batter
          pitcher outs)

/-- normalizeSignatureValue from src/pipelines/live-play-feed.ts. -/
def normalizeSignatureValue (value : Option Str) : Str :=
match value with
| none => []
| some s => lowerStr (cleanText s)

def bar : Char := '|'

/- Association-list model of a JavaScript Map: set updates an existing entry
in place and appends otherwise; get returns the first (only) entry. -/
def alUpdate {β : Type} : List (Str × β) → Str → β → List (Str × β)
| [], k, v => [(k, v)]
| e :: rest, k, v => if e.1 = k then (k, v) :: rest else e :: alUpdate rest k v

def alGet {β : Type} (m : List (Str × β)) (k : Str) : Option β :=
(m.find? (fun e => e.1 = k)).map (fun e => e.2)

structure ExtractState where
  occ : List (Str × Nat)
  order : Nat
  acc : List ((Str × Nat) × LivePlayEvent)

/-- One row of the extraction loop of extractLivePlayEvents.  Each emitted
event is stored together with its signature and occurrence count (the string
the key digest is computed from); the event list of the source is the
projection onto the second components. -/
def processPlayRow (digest : Str → Str) (sectionTitle : Str) (inningFromTitle : Option Int)
    (table : StatsTable) (st : ExtractState × Option Half) (row : StatsTableRow) :
    ExtractState × Option Half :=
let s := st.1
let currentHalf := st.2
match parsePlayRow table row with
| none => (s, currentHalf)
| some (ParsedRow.halfRow h) => (s, some h)
| some (ParsedRow.playRow pInning pHalf text isSub sd batter pitcher outs) =>
  let inning := pInning <|> inningFromTitle
  let half := pHalf <|> currentHalf
  let signature :=
    normalizeSignatureValue (inning.map intToChars) ++ [bar] ++
    normalizeSignatureValue (half.map halfToChars) ++ [bar] ++
    normalizeSignatureValue (some text) ++ [bar] ++
    normalizeSignatureValue batter ++ [bar] ++
    normalizeSignatureValue pitcher ++ [bar] ++
    normalizeSignatureValue (outs.map intToChars) ++ [bar] ++
    normalizeSignatureValue sd
  let occurrence := (alGet s.occ signature).getD 0 + 1
  let ev : LivePlayEvent :=
    { key := digest (signature ++ bar :: natToChars occurrence)
      order := s.order + 1
      inning := inning
      half := half
      isSubstitution := isSub
      text := text
      scoringDecision := sd
      batter := batter
      pitcher := pitcher
      outs := outs
      sectionTitle := sectionTitle }
  ({ occ := alUpdate s.occ signature occurrence
     order := s.order + 1
     acc := s.acc ++ [((signature, occurrence), ev)] }, currentHalf)

def processTable (digest : Str → Str) (sectionTitle : Str) (inningFromTitle : Option Int)
    (s : ExtractState) (table : StatsTable) : ExtractState :=
(table.rows.foldl (processPlayRow digest sectionTitle inningFromTitle table) (s, none)).1

def processSection (digest : Str → Str) (s : ExtractState) (sec : StatsSection) : ExtractState :=
if containsLitCI (str "play-by-play") sec.title then
  sec.tables.foldl (processTable digest sec.title (parseInningFromTitle sec.title)) s
else s

def extractLivePlayEventsAux (digest : Str → Str) (liveStats : LiveStats) : ExtractState :=
liveStats.sections.foldl (processSection digest) ⟨[], 0, []⟩

/-- extractLivePlayEvents from src/pipelines/live-play-feed.ts, parameterised
by the sha1-hex digest primitive. -/
def extractLivePlayEvents (digest : Str → Str) (liveStats : LiveStats) : List LivePlayEvent :=
(extractLivePlayEventsAux digest liveStats).acc.map (fun e => e.2)

structure DerivedPlayState where
  awayScore : Option Int
  homeScore : Option Int
  outsAfterPlay : Option Int
deriving DecidableEq

abbrev StatesMap := List (Str × DerivedPlayState)

/-- clampOuts from src/pipelines/live-play-feed.ts (floor is the identity on
integers). -/
def clampOuts (value : Int) : Int := max 0 (min 3 value)

/-- First match of (\d+)\s*RBI with the i flag (no trailing boundary), on
lower-cased text. -/
def findRbiCountLF : Str → Option Nat
| [] => none
| t@(c :: rest) =>
  (if isAsciiDigit c then
    let ds := t.takeWhile isAsciiDigit
    let r2 := (t.dropWhile isAsciiDigit).dropWhile isWsChar
    if (matchLit (str "rbi") r2).isSome then some (digitsToNat ds) else none
  else none) <|> findRbiCountLF rest

/-- parseRbiCount from src/pipelines/live-play-feed.ts. -/
def parseRbiCount (value : Option Str) : Option Nat :=
match value with
| none => none
| some v =>
  if v.isEmpty then none
  else
    let text := cleanText v
    match findRbiCountLF (lowerStr text) with
    | some n => some n
    | none => if containsWordPhrase (str "rbi") (lowerStr text) then some 1 else none

/-- estimateRunsScoredOnPlay from src/pipelines/live-play-feed.ts. -/
def estimateRunsScoredOnPlay (play : LivePlayEvent) : Nat :=
if play.isSubstitution then 0
else
  let text := cleanText play.text
  let scoredMentions := countWordPhrase (str "scored") (lowerStr text)
  let rbiFromDecision := (parseRbiCount play.scoringDecision).getD 0
  let rbiFromText := (parseRbiCount (some text)).getD 0
  let runs := max scoredMentions (max rbiFromDecision rbiFromText)
  if runs = 0 &&
     (containsWordPhrase (str "homered") (lowerStr text) ||
      containsWordPhrase (str "home run") (lowerStr text)) then 1
  else runs

/-- inferBattingSide from src/pipelines/live-play-feed.ts. -/
def inferBattingSide (play : LivePlayEvent) : Option TeamSide :=
match play.half with
| some Half.top => some TeamSide.away
| some Half.bottom => some TeamSide.home
| none => none

/-- isSameHalfInning from src/pipelines/live-play-feed.ts. -/
def isSameHalfInning (a b : LivePlayEvent) : Bool :=
a.inning.isSome && b.inning.isSome && a.inning == b.inning && a.half.isSome && a.half == b.half

/-- estimateOutsRecordedOnPlay from src/pipelines/live-play-feed.ts. -/
def estimateOutsRecordedOnPlay (text : Str) : Nat :=
let normalized := cleanText text
if normalized.isEmpty then 0
else
  let lower := lowerStr normalized
  if containsWordPhrase (str "triple play") lower then 3
  else if containsWordPhrase (str "double play") lower then 2
  else
    let outAtMentions :=
      countWordPhrase (str "out at") lower + countWordPhrase (str "out on the play") lower
    if outAtMentions > 0 then outAtMentions
    else if containsWordPhrase (str "struck out") lower ||
            containsWordPhrase (str "lined out") lower ||
            containsWordPhrase (str "grounded out") lower ||
            containsWordPhrase (str "flied out") lower ||
            containsWordPhrase (str "fouled out") lower ||
            containsWordPhrase (str "popped out") lower ||
            containsWordPhrase (str "out") lower then 1
    else 0

/-- The initialisation loop of deriveLivePlayStates: every play key is seeded
with the current summary scores and the play's own outs. -/
def initStates (plays : List LivePlayEvent) (summary : LiveSummary) : StatesMap :=
plays.foldl (fun m p => alUpdate m p.key (⟨summary.visitorScore, summary.homeScore, p.outs⟩ : DerivedPlayState)) []

/-- One step of the backward score pass of deriveLivePlayStates (the source
iterates indices from last to first, i.e. folds over the reversed list). -/
def backwardStep (st : StatesMap × Option Int × Option Int) (play : LivePlayEvent) :
    StatesMap × Option Int × Option Int :=
let m := st.1
let awayScore := st.2.1
let homeScore := st.2.2
match alGet m play.key with
| none => (m, awayScore, homeScore)
| some state =>
  let m2 := alUpdate m play.key { state with awayScore := awayScore, homeScore := homeScore }
  let runsScored := estimateRunsScoredOnPlay play
  if runsScored > 0 then
    match inferBattingSide play with
    | some TeamSide.away => (m2, awayScore.map (fun a => max 0 (a - (runsScored : Int))), homeScore)
    | some TeamSide.home => (m2, awayScore, homeScore.map (fun h => max 0 (h - (runsScored : Int))))
    | none => (m2, awayScore, homeScore)
  else (m2, awayScore, homeScore)

/-- The forward outs pass of deriveLivePlayStates. -/
def forwardPass (m : StatesMap) : List LivePlayEvent → StatesMap
| [] => m
| play :: rest =>
  match alGet m play.key with
  | none => forwardPass m rest
  | some state =>
    match rest.head? with
    | some np =>
      if isSameHalfInning play np && np.outs.isSome then
        forwardPass
          (alUpdate m play.key { state with outsAfterPlay := some (clampOuts (np.outs.getD 0)) })
          rest
      else if !isSameHalfInning play np then
        forwardPass (alUpdate m play.key { state with outsAfterPlay := some 3 }) rest
      else
        match play.outs with
        | some o =>
          forwardPass
            (alUpdate m play.key
              { state with
                outsAfterPlay := some (clampOuts (o + (estimateOutsRecordedOnPlay play.text : Int))) })
            rest
        | none => forwardPass (alUpdate m play.key { state with outsAfterPlay := none }) rest
    | none =>
      match play.outs with
      | some o =>
        forwardPass
          (alUpdate m play.key
            { state with
              outsAfterPlay := some (clampOuts (o + (estimateOutsRecordedOnPlay play.text : Int))) })
          rest
      | none => forwardPass (alUpdate m play.key { state with outsAfterPlay := none }) rest

/-- deriveLivePlayStates from src/pipelines/live-play-feed.ts. -/
def deriveLivePlayStates (plays : List LivePlayEvent) (summary : LiveSummary) : StatesMap :=
let states0 := initStates plays summary
let bw := (plays.reverse).foldl backwardStep (states0, summary.visitorScore, summary.homeScore)
forwardPass bw.1 plays

/- ===== Tweet-text formatting (src/pipelines/live-play-feed.ts) ===== -/

/-- capitalize from src/pipelines/live-play-feed.ts. -/
def capitalize (value : Str) : Str :=
match value with
| [] => []
| c :: rest => toUpperChar c :: lowerStr rest

/-- ordinal from src/pipelines/live-play-feed.ts (JavaScript % is the
truncated remainder). -/
def ordinal (value : Int) : Str :=
let mod10 := Int.tmod value 10
let mod100 := Int.tmod value 100
if mod10 = 1 && mod100 ≠ 11 then intToChars value ++ str "st"
else if mod10 = 2 && mod100 ≠ 12 then intToChars value ++ str "nd"
else if mod10 = 3 && mod100 ≠ 13 then intToChars value ++ str "rd"
else intToChars value ++ str "th"

/-- buildInningLabel from src/pipelines/live-play-feed.ts. -/
def buildInningLabel (play : LivePlayEvent) (outsAfterPlay : Option Int) (summary : LiveSummary) : Str :=
match play.inning, play.half with
| some n, some h =>
  if outsAfterPlay == some 3 && !play.isSubstitution then
    (if h == Half.top then str "Mid " else str "End ") ++ ordinal n
  else capitalize (halfToChars h) ++ [' '] ++ ordinal n
| some n, none => str "Inning " ++ ordinal n
| none, _ =>
  let status := cleanTextOpt summary.statusText
  if status.isEmpty then str "Live" else status

/-- formatScore from src/pipelines/live-play-feed.ts. -/
def formatScore (value : Option Int) : Str :=
match value with
| none => ['?']
| some v => intToChars v

/-- formatOutsLabel from src/pipelines/live-play-feed.ts. -/
def formatOutsLabel (value : Option Int) : Str :=
match value with
| none => str "Outs ?"
| some v => intToChars v ++ [' '] ++ (if v = 1 then str "Out" else str "Outs")

/-- Test of the anchored pattern (Mid|End)\b. -/
def startsWithMidOrEnd (label : Str) : Bool :=
phraseAt (str "Mid") label || phraseAt (str "End") label

/-- formatHeaderLine from src/pipelines/live-play-feed.ts. -/
def formatHeaderLine (inningLabel : Str) (outs : Option Int) : Str :=
if startsWithMidOrEnd inningLabel then inningLabel
else inningLabel ++ str " | " ++ formatOutsLabel outs

/-- clampTweetLength from src/pipelines/live-play-feed.ts. -/
def clampTweetLength (input : Int) : Int := max 20 (min 280 input)

/-- trimToTweetLength from src/pipelines/live-play-feed.ts. -/
def trimToTweetLength (text : Str) (maxLength : Int) : Str :=
if (text.length : Int) ≤ maxLength then text
else trimEndStr (text.take (max 0 (maxLength - 3)).toNat) ++ str "..."

/-- Character class [-'`] of the token splitter of formatNameToken. -/
def isSepChar (c : Char) : Bool := c = '-' || c = apos || c = btick

/-- JavaScript split(/([-'`])/): split at each separator character, keeping
the separators as their own (single-character) segments. -/
def splitKeepSeps : Str → List Str
| [] => [[]]
| c :: rest =>
  if isSepChar c then [] :: [c] :: splitKeepSeps rest
  else
    match splitKeepSeps rest with
    | [] => [[c]]
    | seg :: segs => (c :: seg) :: segs

/-- formatNameToken from src/pipelines/live-play-feed.ts. -/
def formatNameToken (token : Str) : Str :=
if (match token with | [c, d] => isAsciiAlpha c && d = '.' | _ => false) then upperStr token
else if [str "jr", str "sr", str "ii", str "iii", str "iv", str "v"].contains (lowerStr token) then
  upperStr token
else
  ((splitKeepSeps token).map (fun seg =>
    if seg.isEmpty || (match seg with | [c] => isSepChar c | _ => false) then seg
    else
      let lower := lowerStr seg
      if (matchLit (str "mc") lower).isSome && lower.length > 2 then
        str "Mc" ++ capitalize (lower.drop 2)
      else capitalize lower)).flatten

/-- toTitleCasePersonName from src/pipelines/live-play-feed.ts (split on
whitespace runs of the cleaned text). -/
def toTitleCasePersonName (value : Str) : Str :=
trimStr (List.intercalate [' '] (((cleanText value).splitOnP isWsChar).map formatNameToken))

/-- Character class [A-Za-z'.-] of the name regexes. -/
def nameClassChar (c : Char) : Bool := isAsciiAlpha c || c = apos || c = '.' || c = '-'

/-- A word boundary holds between a character and the following remainder. -/
def boundaryBetween (lastC : Char) (rest : Str) : Bool :=
isWordChar lastC != (match rest with | [] => false | c :: _ => isWordChar c)

/-- Greedy backtracking for a trailing \b after a character-class run: pop
characters from the end of the run (given reversed) until the boundary holds,
keeping the longest prefix (regex maximal-munch with backtracking). -/
def shrinkToBoundary : Str → Str → Option (Str × Str)
| [], _ => none
| lastC :: revInit, rest =>
  if boundaryBetween lastC rest then some ((lastC :: revInit).reverse, rest)
  else shrinkToBoundary revInit (lastC :: rest)

/-- The anchored matcher of normalizeDisplayName,
^([A-Za-z][A-Za-z'.-]+),\s*([A-Za-z][A-Za-z'.-]+)$ (returns (last, first)). -/
def lastFirstAnchored (text : Str) : Option (Str × Str) :=
match text with
| [] => none
| c :: rest =>
  if isAsciiAlpha c then
    let tail1 := rest.takeWhile nameClassChar
    if tail1.isEmpty then none
    else
      match rest.drop tail1.length with
      | ',' :: r2 =>
        let r3 := r2.dropWhile isWsChar
        match r3 with
        | c2 :: rest2 =>
          if isAsciiAlpha c2 && !rest2.isEmpty && rest2.all nameClassChar then
            some (c :: tail1, c2 :: rest2)
          else none
        | [] => none
      | _ => none
  else none

/-- normalizeDisplayName from src/pipelines/live-play-feed.ts. -/
def normalizeDisplayName (value : Str) : Str :=
let text := cleanText value
match lastFirstAnchored text with
| some lf => toTitleCasePersonName lf.2 ++ [' '] ++ toTitleCasePersonName lf.1
| none => toTitleCasePersonName text

/-- A boundary-anchored global replace: `matchAt` yields, at a position, the
replacement text, the last character of the matched span (so the boundary
state for the continuation is taken from the source string, as the regex
engine does), and the remainder.  The fuel is at least the text length and
every match consumes at least one character. -/
def replaceScan (matchAt : Str → Option (Str × Char × Str)) : Nat → Str → Bool → Str
| _, [], _ => []
| 0, t, _ => t
| fuel + 1, t@(c :: rest), bnd =>
  match (if bnd then matchAt t else none) with
  | some m => m.1 ++ replaceScan matchAt fuel m.2.2 (!isWordChar m.2.1)
  | none => c :: replaceScan matchAt fuel rest (!isWordChar c)

/-- Position matcher of \b([A-Za-z][A-Za-z'.-]+),\s*([A-Za-z][A-Za-z'.-]+)\b
with the Last,First replacement. -/
def nameCommaMatchAt (t : Str) : Option (Str × Char × Str) :=
match t with
| [] => none
| c :: rest =>
  if isAsciiAlpha c then
    let tail1 := rest.takeWhile nameClassChar
    if tail1.isEmpty then none
    else
      match rest.drop tail1.length with
      | ',' :: r2 =>
        let r3 := r2.dropWhile isWsChar
        match r3 with
        | c2 :: rest2 =>
          if isAsciiAlpha c2 then
            let run := rest2.takeWhile nameClassChar
            if run.isEmpty then none
            else
              match shrinkToBoundary run.reverse (rest2.drop run.length) with
              | some p =>
                let g1 := c :: tail1
                let g2 := c2 :: p.1
                some (toTitleCasePersonName g2 ++ [' '] ++ toTitleCasePersonName g1,
                  g2.getLastD c2, p.2)
              | none => none
          else none
        | [] => none
      | _ => none
  else none

/-- Position matcher of \b([A-Za-z]\.)\s+([A-Za-z][A-Za-z'.-]+)\b with the
initial-plus-surname replacement. -/
def initialLastMatchAt (t : Str) : Option (Str × Char × Str) :=
match t with
| c :: '.' :: r1 =>
  if isAsciiAlpha c then
    match wsRun1 r1 with
    | none => none
    | some r2 =>
      match r2 with
      | c2 :: rest2 =>
        if isAsciiAlpha c2 then
          let run := rest2.takeWhile nameClassChar
          if run.isEmpty then none
          else
            match shrinkToBoundary run.reverse (rest2.drop run.length) with
            | some p =>
              let g2 := c2 :: p.1
              some (upperStr [c, '.'] ++ [' '] ++ toTitleCasePersonName g2,
                g2.getLastD c2, p.2)
            | none => none
        else none
      | [] => none
  else none
| _ => none

def nameUppercaseExclusions : List Str :=
[str "RBI", str "RISP", str "OPS", str "ERA", str "WHIP", str "BABIP", str "HBP",
  str "LOB", str "AB", str "BB", str "SO", str "IP", str "HR", str "SB", str "CS",
  str "DP", str "TP", str "K", str "KKFK"]

/-- Test of NAME_ACTION_HINT_PATTERN (anchored, case-insensitive). -/
def actionHintTest (s : Str) : Bool :=
let ls := lowerStr s
[str "struck", str "grounded", str "flied", str "lined", str "popped", str "fouled",
  str "walked", str "singled", str "doubled", str "tripled", str "homered",
  str "reached", str "advanced", str "stole", str "to", str "pinch", str "out"].any
  (fun w => phraseAt w ls)

/-- The previous-token lookup of normalizeUppercaseSurnameContext:
before.match(/([A-Za-z.]+)\s*$/), computed on the reversed prefix. -/
def prevTokenOf (revBefore : Str) : Str :=
lowerStr ((revBefore.dropWhile isWsChar).takeWhile
  (fun c => isAsciiAlpha c || c = '.')).reverse

/-- The replacement callback of normalizeUppercaseSurnameContext. -/
def surnameReplacement (revBefore : Str) (word : Str) (after0 : Str) : Str :=
if nameUppercaseExclusions.contains word then word
else
  let afterT := trimStartStr after0
  let previousToken := prevTokenOf revBefore
  if previousToken = str "for" || previousToken = str "to" || previousToken = str "by" then
    toTitleCasePersonName word
  else if actionHintTest afterT then toTitleCasePersonName word
  else word

/-- Position matcher of \b([A-Z][A-Z'.-]{3,})\b (class restricted to upper
case), with the context-sensitive replacement. -/
def upperSurnameAt (revBefore : Str) (t : Str) : Option (Str × Str × Str) :=
match t with
| [] => none
| c0 :: rest0 =>
  if isAsciiUpper c0 then
    let run := rest0.takeWhile (fun c => isAsciiUpper c || c = apos || c = '.' || c = '-')
    if run.isEmpty then none
    else
      match shrinkToBoundary run.reverse (rest0.drop run.length) with
      | some p =>
        if p.1.length ≥ 3 then
          let word := c0 :: p.1
          some (surnameReplacement revBefore word p.2, word, p.2)
        else none
      | none => none
  else none

/-- The global replace of normalizeUppercaseSurnameContext; the reversed
already-scanned source prefix is carried for the callback's context checks. -/
def upperSurnameScan : Nat → Str → Str → Str
| _, _, [] => []
| 0, _, t => t
| fuel + 1, revBefore, t@(c :: rest) =>
  let bnd := match revBefore with | [] => true | pc :: _ => !isWordChar pc
  match (if bnd then upperSurnameAt revBefore t else none) with
  | some m => m.1 ++ upperSurnameScan fuel (m.2.1.reverse ++ revBefore) m.2.2
  | none => c :: upperSurnameScan fuel (c :: revBefore) rest

/-- normalizeUppercaseSurnameContext from src/pipelines/live-play-feed.ts. -/
def normalizeUppercaseSurnameContext (text : Str) : Str :=
upperSurnameScan (text.length + 1) [] text

def isAlnumChar (c : Char) : Bool := isAsciiAlpha c || isAsciiDigit c

/-- Match the escaped variant (whitespace runs generalised to \s+) against the
text, returning the remainder. -/
def matchVariantCore : Nat → Str → Str → Option Str
| 0, v, t => if v.isEmpty then some t else none
| _ + 1, [], t => some t
| fuel + 1, vc :: vrest, t =>
  if isWsChar vc then
    match t with
    | c :: trest =>
      if isWsChar c then
        matchVariantCore fuel (vrest.dropWhile isWsChar) (trest.dropWhile isWsChar)
      else none
    | [] => none
  else
    match t with
    | c :: trest => if c = vc then matchVariantCore fuel vrest trest else none
    | [] => none

/-- Match the variant at a position together with the trailing lookahead
(?=[^A-Za-z0-9]|$). -/
def variantAt (variant : Str) (t : Str) : Option Str :=
match matchVariantCore (variant.length + 1) variant t with
| some rest =>
  if (match rest with | [] => true | c :: _ => !isAlnumChar c) then some rest else none
| none => none

/-- The global replace of replaceNameVariant after the leading-context group
(^|[^A-Za-z0-9]) has been resolved for the head position. -/
def replaceVariantScan (variant normalized : Str) : Nat → Bool → Str → Str
| _, _, [] => []
| 0, _, t => t
| fuel + 1, first, t@(c :: rest) =>
  match (if first then variantAt variant t else none) with
  | some after => normalized ++ replaceVariantScan variant normalized fuel false after
  | none =>
    if !isAlnumChar c then
      match variantAt variant rest with
      | some after => c :: (normalized ++ replaceVariantScan variant normalized fuel false after)
      | none => c :: replaceVariantScan variant normalized fuel false rest
    else c :: replaceVariantScan variant normalized fuel false rest

/-- replaceNameVariant from src/pipelines/live-play-feed.ts. -/
def replaceNameVariant (text : Str) (variant normalized : Str) : Str :=
replaceVariantScan variant normalized (text.length + 1) true text

/-- The replacements map construction of normalizeNamesInText. -/
def buildReplacements (explicitNames : List (Option Str)) : List (Str × Str) :=
explicitNames.foldl
  (fun m rawName =>
    let raw := cleanText (rawName.getD [])
    if raw.isEmpty then m
    else
      let normalized := normalizeDisplayName raw
      if normalized.isEmpty then m
      else
        alUpdate
          (alUpdate (alUpdate (alUpdate (alUpdate m raw normalized) (upperStr raw) normalized)
            (lowerStr raw) normalized) normalized normalized)
          (upperStr normalized) normalized)
  []

/-- Stable insertion for a sort by descending key length (the JavaScript
comparator b.length - a.length with a stable sort). -/
def insertByLenDesc (e : Str × Str) : List (Str × Str) → List (Str × Str)
| [] => [e]
| x :: rest => if x.1.length < e.1.length then e :: x :: rest else x :: insertByLenDesc e rest

def sortByLenDesc (l : List (Str × Str)) : List (Str × Str) :=
l.foldl (fun acc e => insertByLenDesc e acc) []

/-- normalizeNamesInText from src/pipelines/live-play-feed.ts. -/
def normalizeNamesInText (value : Str) (explicitNames : List (Option Str)) : Str :=
let t1 := replaceScan nameCommaMatchAt (value.length + 1) value true
let t2 := replaceScan initialLastMatchAt (t1.length + 1) t1 true
let t3 := normalizeUppercaseSurnameContext t2
let variants := sortByLenDesc (buildReplacements explicitNames)
variants.foldl
  (fun text e =>
    if e.1.isEmpty || e.1 = e.2 then text
    else replaceNameVariant text e.1 e.2)
  t3

structure BuildPlayTweetTextInput where
  play : LivePlayEvent
  summary : LiveSummary
  stateAfterPlay : Option DerivedPlayState
  maxLength : Option Int
  appendTag : Option Str

structure PitcherDecisionNames where
  winning : Option Str
  save : Option Str
  losing : Option Str

structure BuildFinalTweetTextInput where
  summary : LiveSummary
  pitcherDecisions : Option PitcherDecisionNames
  maxLength : Option Int
  appendTag : Option Str

/-- buildPlayTweetText from src/pipelines/live-play-feed.ts. -/
def buildPlayTweetText (input : BuildPlayTweetTextInput) : Str :=
let maxLength := clampTweetLength (input.maxLength.getD 280)
let outs := (input.stateAfterPlay.bind (fun s => s.outsAfterPlay)) <|> input.play.outs <|>
  (input.summary.situation.bind (fun s => s.outs))
let inningLabel := buildInningLabel input.play outs input.summary
let pitcherName := normalizeDisplayName
  (cleanText ((input.play.pitcher <|> (input.summary.situation.bind (fun s => s.pitcher.name))).getD []))
let pitchCount := input.summary.situation.bind (fun s => s.pitcher.pitchCount)
let awayScore := (input.stateAfterPlay.bind (fun s => s.awayScore)) <|> input.summary.visitorScore
let homeScore := (input.stateAfterPlay.bind (fun s => s.homeScore)) <|> input.summary.homeScore
let blocks : List Str :=
  [formatHeaderLine inningLabel outs,
   cleanText input.summary.visitorTeam ++ str " - " ++ formatScore awayScore ++ ['\n'] ++
     cleanText input.summary.homeTeam ++ str " - " ++ formatScore homeScore,
   normalizeNamesInText (cleanText input.play.text) [input.play.batter, input.play.pitcher]]
let blocks2 := blocks ++
  (if !pitcherName.isEmpty && pitchCount.isSome then
    [str "Pitching | " ++ pitcherName ++ str " - P " ++ intToChars (pitchCount.getD 0)]
  else [])
let blocks3 := blocks2 ++
  (match input.appendTag with
   | some tag => if tag.isEmpty then [] else [trimStr tag]
   | none => [])
trimToTweetLength (List.intercalate (str "\n\n") (blocks3.filter (fun b => !b.isEmpty))) maxLength

/-- toOptionalFinalPitcherName from src/pipelines/live-play-feed.ts. -/
def toOptionalFinalPitcherName (value : Option Str) : Option Str :=
let normalized := normalizeDisplayName (cleanText (value.getD []))
if normalized.isEmpty then none else some normalized

/-- buildFinalTweetText from src/pipelines/live-play-feed.ts. -/
def buildFinalTweetText (input : BuildFinalTweetTextInput) : Str :=
let maxLength := clampTweetLength (input.maxLength.getD 280)
let away := cleanText input.summary.visitorTeam
let home := cleanText input.summary.homeTeam
let awayScore := formatScore input.summary.visitorScore
let homeScore := formatScore input.summary.homeScore
let winning := toOptionalFinalPitcherName (input.pitcherDecisions.bind (fun d => d.winning))
let save := toOptionalFinalPitcherName (input.pitcherDecisions.bind (fun d => d.save))
let losing := toOptionalFinalPitcherName (input.pitcherDecisions.bind (fun d => d.losing))
let lines := [str "Final", away ++ str " - " ++ awayScore, home ++ str " - " ++ homeScore]
let decisionLines :=
  (match winning with | some w => [str "W - " ++ w] | none => []) ++
  (match save with | some s => [str "S - " ++ s] | none => []) ++
  (match losing with | some l => [str "L - " ++ l] | none => [])
let lines2 := if decisionLines.length > 0 then lines ++ [[]] ++ decisionLines else lines
let lines3 := lines2 ++
  (match input.appendTag with
   | some tag => if tag.isEmpty then [] else [trimStr tag]
   | none => [])
trimToTweetLength (List.intercalate ['\n'] lines3) maxLength

/- ===== Player registry and scorekeeping unifier (src/utils/text.ts) ===== -/

structure BaseballPlayer where
  playerId : Str
  name : Str
  normalizedName : Str
  sides : List TeamSide
  jerseyNumbers : List Int
  positions : List Str
deriving DecidableEq

structure Registry where
  playersById : List (Str × BaseballPlayer)
  idBySideAndName : List (Str × Str)
deriving DecidableEq

def emptyRegistry : Registry := ⟨[], []⟩

def hasKey {β : Type} (m : List (Str × β)) (k : Str) : Bool :=
m.any (fun e => e.1 = k)

def mkSuffixId (baseId : Str) (i : Nat) : Str := baseId ++ ':' :: natToChars i

/-- The while loop of uniqueId; the fuel (one more than the map size at the
call site) guarantees that an absent key is reached. -/
def uniqueIdAux {β : Type} (m : List (Str × β)) (baseId : Str) : Nat → Nat → Str
| 0, i => mkSuffixId baseId i
| fuel + 1, i =>
  if hasKey m (mkSuffixId baseId i) then uniqueIdAux m baseId fuel (i + 1)
  else mkSuffixId baseId i

/-- uniqueId from src/utils/text.ts. -/
def uniqueId {β : Type} (baseId : Str) (m : List (Str × β)) : Str :=
if !hasKey m baseId then baseId
else uniqueIdAux m baseId (m.length + 1) 2

def sideNameKey (side : TeamSide) (normalizedName : Str) : Str :=
sideToChars side ++ [bar] ++ normalizedName

/-- register from createPlayerRegistry in src/utils/text.ts, with the mutable
maps threaded as explicit state. -/
def registerPlayer (reg : Registry) (side : TeamSide) (name : Str) (jersey : Option Int)
    (position : Option Str) : Str × Registry :=
let displayName := (normalizePlayerDisplayName (some name)).getD name
let normalizedName := normalizeName (some name)
let key := sideNameKey side normalizedName
match alGet reg.idBySideAndName key with
| some existingByName =>
  match alGet reg.playersById existingByName with
  | some existing =>
    let e1 :=
      match jersey with
      | some j =>
        if !existing.jerseyNumbers.contains j then
          { existing with jerseyNumbers := existing.jerseyNumbers ++ [j] }
        else existing
      | none => existing
    let e2 :=
      match position with
      | some p =>
        if !p.isEmpty && !e1.positions.contains p then
          { e1 with positions := e1.positions ++ [p] }
        else e1
      | none => e1
    let e3 := if !e2.sides.contains side then { e2 with sides := e2.sides ++ [side] } else e2
    (existingByName, { reg with playersById := alUpdate reg.playersById existingByName e3 })
  | none => (existingByName, reg)
| none =>
  let jerseyPart := match jersey with | none => str "na" | some j => intToChars j
  let baseId := sideToChars side ++ ':' :: (jerseyPart ++ ':' :: slugForId displayName)
  let playerId := uniqueId baseId reg.playersById
  let player : BaseballPlayer :=
    { playerId := playerId
      name := displayName
      normalizedName := normalizedName
      sides := [side]
      jerseyNumbers := match jersey with | none => [] | some j => [j]
      positions := match position with
        | some p => if p.isEmpty then [] else [p]
        | none => [] }
  (playerId,
    { playersById := alUpdate reg.playersById playerId player
      idBySideAndName := alUpdate reg.idBySideAndName key playerId })

structure FinalScoringPlay where
  team : Option Str
  inning : Option Str
  scoringDecision : Option Str
  play : Str
  batter : Option Str
  pitcher : Option Str
  outs : Option Int
deriving DecidableEq

structure BaseballScoringEvent where
  inningNumber : Option Int
  half : Option Half
  battingTeam : Option Str
  batter : Option Str
  pitcher : Option Str
  outs : Option Int
  text : Str
  scoringDecision : Option Str
  scoringDecisionContext : Option ScoringDecisionContext
  outcome : Outcome
  tags : List Str
  pitchContext : Option PitchContext
  runsScoredOnPlay : Nat
deriving DecidableEq

/-- parseScoringEvent from src/utils/text.ts. -/
def parseScoringEvent (play : FinalScoringPlay) : BaseballScoringEvent :=
let inning := parseHalfInning play.inning
let parsed := parsePlayDescription play.play
{ inningNumber := inning.inning
  half := inning.half
  battingTeam := play.team
  batter := normalizePlayerDisplayName play.batter
  pitcher := normalizePlayerDisplayName play.pitcher
  outs := play.outs
  text := play.play
  scoringDecision := play.scoringDecision
  scoringDecisionContext := resolveScoringDecisionContext play.scoringDecision play.play
  outcome := parsed.1
  tags := parsed.2
  pitchContext := parsePitchContextFromText play.play
  runsScoredOnPlay := countRunsScored play.play }

inductive PbpEventType where
| halfMarker
| playEvent
| summaryRow
| noteRow
deriving DecidableEq

structure FinalPlayByPlayEvent where
  type : PbpEventType
  half : Option Half
  text : Str
  action : Option Str
  scoringDecision : Option Str
  batter : Option Str
  pitcher : Option Str
  outs : Option Int
deriving DecidableEq

structure FinalInningPlayByPlay where
  inning : Int
  title : Str
  events : List FinalPlayByPlayEvent
deriving DecidableEq

/- Of StatBroadcastFinalGame, buildUnifiedPlays reads the per-inning
play-by-play blocks and the final-score team names. -/
structure FinalGameLite where
  visitorTeam : Str
  homeTeam : Str
  playByPlayByInning : List FinalInningPlayByPlay
deriving DecidableEq

structure PlayParticipants where
  batterId : Option Str
  batterName : Option Str
  pitcherId : Option Str
  pitcherName : Option Str
deriving DecidableEq

structure PlayResult where
  outcome : Outcome
  tags : List Str
  runsScored : Nat
  isScoringPlay : Bool
  outsAfterPlay : Option Int
deriving DecidableEq

structure PlayScoring where
  decisionRaw : Option Str
  decisionContext : Option ScoringDecisionContext
deriving DecidableEq

structure BattedBall where
  fielderCodes : List Int
  fieldLocations : List FieldLocation
  locationSource : LocSource
  locationConfidence : Rat
deriving DecidableEq

inductive PlaySource where
| play_by_play
| scoring_summary
deriving DecidableEq

structure BaseballUnifiedPlay where
  playId : Str
  source : PlaySource
  inning : Option Int
  half : Option Half
  order : Option Nat
  battingSide : Option TeamSide
  battingTeam : Option Str
  text : Str
  participants : PlayParticipants
  pitchContext : Option PitchContext
  result : PlayResult
  scoring : PlayScoring
  battedBall : BattedBall
deriving DecidableEq

def findIdxFromAux {α : Type} (p : Nat → α → Bool) : List α → Nat → Option Nat
| [], _ => none
| x :: rest, i => if p i x then some i else findIdxFromAux p rest (i + 1)

/-- The tier-1 candidate test of findMatchingScoringEventIndex: unconsumed,
same inning and half, exact normalized play-text match. -/
def tier1Test (usedScoring : List Nat) (inning : Int) (half : Option Half) (eventText : Str)
    (i : Nat) (scoring : BaseballScoringEvent) : Bool :=
!usedScoring.contains i && scoring.inningNumber == some inning && scoring.half == half &&
  normalizePlayText (some scoring.text) == eventText

/-- The tier-2 candidate test: unconsumed, same inning and half, matching
normalized batter and pitcher names and runs-scored count. -/
def tier2Test (usedScoring : List Nat) (inning : Int) (half : Option Half)
    (eventBatter eventPitcher : Str) (eventRuns : Nat) (i : Nat)
    (scoring : BaseballScoringEvent) : Bool :=
!usedScoring.contains i && scoring.inningNumber == some inning && scoring.half == half &&
  normalizeName scoring.batter == eventBatter && normalizeName scoring.pitcher == eventPitcher &&
  scoring.runsScoredOnPlay == eventRuns

/-- findMatchingScoringEventIndex from src/utils/text.ts. -/
def findMatchingScoringEventIndex (scoringTimeline : List BaseballScoringEvent)
    (usedScoring : List Nat) (inning : Int) (half : Option Half)
    (event : FinalPlayByPlayEvent) : Option Nat :=
let eventText := normalizePlayText (some event.text)
let eventBatter := normalizeName event.batter
let eventPitcher := normalizeName event.pitcher
let eventRuns := countRunsScored event.text
match findIdxFromAux (tier1Test usedScoring inning half eventText) scoringTimeline 0 with
| some i => some i
| none =>
  findIdxFromAux (tier2Test usedScoring inning half eventBatter eventPitcher eventRuns)
    scoringTimeline 0

abbrev TeamTokenLookup := List (Str × TeamSide)

/-- resolveSideFromTeamToken from src/utils/text.ts. -/
def resolveSideFromTeamToken (token : Option Str) (lookup : TeamTokenLookup) : Option TeamSide :=
let normalized := normalizeTeamToken token
if normalized.isEmpty then none else alGet lookup normalized

/-- JavaScript Set.add. -/
def setAdd (s : List Nat) (i : Nat) : List Nat := if s.contains i then s else s ++ [i]

structure UnifyState where
  used : List Nat
  reg : Registry
  acc : List (Option Nat × BaseballUnifiedPlay)

/-- One event of the play-by-play phase of buildUnifiedPlays.  Each emitted
play is stored together with the index of the scoring-summary entry merged
into it, if any (ghost data; the play list of the source is the projection
onto the second components). -/
def processPbpEvent (fg : FinalGameLite) (timeline : List BaseballScoringEvent)
    (inningBlock : FinalInningPlayByPlay) (st : UnifyState × Option Half × Nat)
    (event : FinalPlayByPlayEvent) : UnifyState × Option Half × Nat :=
let s := st.1
let currentHalf := if event.type == PbpEventType.halfMarker then event.half else st.2.1
if event.type != PbpEventType.playEvent then (s, currentHalf, st.2.2)
else
  let order := st.2.2 + 1
  let battingSide : Option TeamSide :=
    match currentHalf with
    | some Half.top => some TeamSide.away
    | some Half.bottom => some TeamSide.home
    | none => none
  let battingTeam :=
    match battingSide with
    | some TeamSide.away => some fg.visitorTeam
    | some TeamSide.home => some fg.homeTeam
    | none => none
  let pitchingSide : Option TeamSide :=
    match battingSide with
    | some TeamSide.away => some TeamSide.home
    | some TeamSide.home => some TeamSide.away
    | none => none
  let stepB :=
    match event.batter, battingSide with
    | some b, some bs =>
      if b.isEmpty then ((none : Option Str), s.reg)
      else
        let r := registerPlayer s.reg bs b none none
        (some r.1, r.2)
    | _, _ => (none, s.reg)
  let stepP :=
    match event.pitcher, pitchingSide with
    | some pch, some ps =>
      if pch.isEmpty then ((none : Option Str), stepB.2)
      else
        let r := registerPlayer stepB.2 ps pch none (some (str "p"))
        (some r.1, r.2)
    | _, _ => (none, stepB.2)
  let parsed := parsePlayDescription event.text
  let runsScored := countRunsScored event.text
  let scoringMatchIndex :=
    findMatchingScoringEventIndex timeline s.used inningBlock.inning currentHalf event
  let scoringMatch := scoringMatchIndex.bind (fun i => timeline.get? i)
  let used2 :=
    match scoringMatchIndex with
    | some i => setAdd s.used i
    | none => s.used
  let scoringDecisionRaw := scoringMatch.bind (fun m => m.scoringDecision)
  let scoringDecisionContext :=
    match scoringMatch.bind (fun m => m.scoringDecisionContext) with
    | some c => some c
    | none => resolveScoringDecisionContext none event.text
  let play : BaseballUnifiedPlay :=
    { playId := str "P-" ++ intToChars inningBlock.inning ++ ['-'] ++
        (match currentHalf with | some h => halfToChars h | none => str "u") ++ ['-'] ++
        natToChars order
      source := PlaySource.play_by_play
      inning := some inningBlock.inning
      half := currentHalf
      order := some order
      battingSide := battingSide
      battingTeam := battingTeam
      text := event.text
      participants :=
        { batterId := stepB.1
          batterName := normalizePlayerDisplayName event.batter
          pitcherId := stepP.1
          pitcherName := normalizePlayerDisplayName event.pitcher }
      pitchContext := parsePitchContextFromText event.text
      result :=
        { outcome := parsed.1
          tags := parsed.2
          runsScored := runsScored
          isScoringPlay := scoringMatch.isSome || runsScored > 0
          outsAfterPlay := event.outs }
      scoring := { decisionRaw := scoringDecisionRaw, decisionContext := scoringDecisionContext }
      battedBall :=
        { fielderCodes := (scoringDecisionContext.map (fun c => c.fielderCodes)).getD []
          fieldLocations := (scoringDecisionContext.map (fun c => c.fieldLocations)).getD []
          locationSource := (scoringDecisionContext.map (fun c => c.locationSource)).getD LocSource.nosource
          locationConfidence := (scoringDecisionContext.map (fun c => c.locationConfidence)).getD 0 } }
  ({ used := used2, reg := stepP.2, acc := s.acc ++ [(scoringMatchIndex, play)] },
    currentHalf, order)

def processInningBlock (fg : FinalGameLite) (timeline : List BaseballScoringEvent)
    (s : UnifyState) (inningBlock : FinalInningPlayByPlay) : UnifyState :=
(inningBlock.events.foldl (processPbpEvent fg timeline inningBlock) (s, none, 0)).1

/-- Position matcher of (?:to|into|toward)\s+[a-z0-9]+ on lower-cased text. -/
def locLanguageAt (t : Str) : Bool :=
[str "to", str "into", str "toward"].any fun prep =>
  match matchLit prep t with
  | none => false
  | some r1 =>
    match wsRun1 r1 with
    | none => false
    | some r2 =>
      match r2 with
      | c :: _ => isAsciiLower c || isAsciiDigit c
      | [] => false

def orphanHasLocLanguage (text : Str) : Bool :=
(scanAll (fun t => if locLanguageAt t then some () else none) (lowerStr text)).isSome

def orphanWarning (index : Nat) (text : Str) : Str :=
str "Scoring summary play " ++ natToChars (index + 1) ++
  str " had textual location but no parsed location: " ++ ['"'] ++ text ++ ['"']

/-- The scoring-summary phase of buildUnifiedPlays: every scoring-timeline
entry not consumed by the play-by-play phase is emitted as a standalone
scoring_summary play. -/
def processOrphans (lookup : TeamTokenLookup) (used : List Nat) :
    Nat → List BaseballScoringEvent → Registry → List Str →
    List BaseballUnifiedPlay × Registry × List Str
| _, [], reg, warn => ([], reg, warn)
| i, sp :: rest, reg, warn =>
  if used.contains i then processOrphans lookup used (i + 1) rest reg warn
  else
    let battingSide := resolveSideFromTeamToken sp.battingTeam lookup
    let pitchingSide : Option TeamSide :=
      match battingSide with
      | some TeamSide.away => some TeamSide.home
      | some TeamSide.home => some TeamSide.away
      | none => none
    let stepB :=
      match sp.batter, battingSide with
      | some b, some bs =>
        if b.isEmpty then ((none : Option Str), reg)
        else
          let r := registerPlayer reg bs b none none
          (some r.1, r.2)
      | _, _ => (none, reg)
    let stepP :=
      match sp.pitcher, pitchingSide with
      | some pch, some ps =>
        if pch.isEmpty then ((none : Option Str), stepB.2)
        else
          let r := registerPlayer stepB.2 ps pch none (some (str "p"))
          (some r.1, r.2)
      | _, _ => (none, stepB.2)
    let warn2 :=
      if !((sp.scoringDecisionContext.map (fun c => !c.fieldLocations.isEmpty)).getD false) &&
         orphanHasLocLanguage sp.text
      then warn ++ [orphanWarning i sp.text] else warn
    let play : BaseballUnifiedPlay :=
      { playId := str "S-" ++ natToChars (i + 1)
        source := PlaySource.scoring_summary
        inning := sp.inningNumber
        half := sp.half
        order := none
        battingSide := battingSide
        battingTeam := sp.battingTeam
        text := sp.text
        participants :=
          { batterId := stepB.1
            batterName := normalizePlayerDisplayName sp.batter
            pitcherId := stepP.1
            pitcherName := normalizePlayerDisplayName sp.pitcher }
        pitchContext := sp.pitchContext
        result :=
          { outcome := sp.outcome
            tags := sp.tags
            runsScored := sp.runsScoredOnPlay
            isScoringPlay := true
            outsAfterPlay := sp.outs }
        scoring := { decisionRaw := sp.scoringDecision, decisionContext := sp.scoringDecisionContext }
        battedBall :=
          { fielderCodes := (sp.scoringDecisionContext.map (fun c => c.fielderCodes)).getD []
            fieldLocations := (sp.scoringDecisionContext.map (fun c => c.fieldLocations)).getD []
            locationSource := (sp.scoringDecisionContext.map (fun c => c.locationSource)).getD LocSource.nosource
            locationConfidence := (sp.scoringDecisionContext.map (fun c => c.locationConfidence)).getD 0 } }
    let restResult := processOrphans lookup used (i + 1) rest stepP.2 warn2
    (play :: restResult.1, restResult.2)

/-- buildUnifiedPlays from src/utils/text.ts, with the ghost matched-index
annotations of the play-by-play phase retained in the first component. -/
def buildUnifiedPlaysAux (fg : FinalGameLite) (timeline : List BaseballScoringEvent)
    (reg0 : Registry) (lookup : TeamTokenLookup) (warn0 : List Str) :
    UnifyState × List BaseballUnifiedPlay × Registry × List Str :=
let s1 := fg.playByPlayByInning.foldl (processInningBlock fg timeline) ⟨[], reg0, []⟩
(s1, processOrphans lookup s1.used 0 timeline s1.reg warn0)

/-- buildUnifiedPlays from src/utils/text.ts (plays, registry, warnings). -/
def buildUnifiedPlays (fg : FinalGameLite) (timeline : List BaseballScoringEvent)
    (reg0 : Registry) (lookup : TeamTokenLookup) (warn0 : List Str) :
    List BaseballUnifiedPlay × Registry × List Str :=
let r := buildUnifiedPlaysAux fg timeline reg0 lookup warn0
(r.1.acc.map (fun e => e.2) ++ r.2.1, r.2.2)

/- ===== Association-map lemmas ===== -/

theorem alGet_nil {β : Type} (k : Str) : alGet ([] : List (Str × β)) k = none := rfl

theorem alGet_cons {β : Type} (e : Str × β) (rest : List (Str × β)) (k : Str) :
    alGet (e :: rest) k = if e.1 = k then some e.2 else alGet rest k := by
  by_cases h : e.1 = k
  · simp [alGet, List.find?, h]
  · simp [alGet, List.find?, h]

theorem alGet_update_self {β : Type} (m : List (Str × β)) (k : Str) (v : β) :
    alGet (alUpdate m k v) k = some v := by
  induction m with
  | nil => simp [alUpdate, alGet_cons]
  | cons e rest ih =>
    by_cases h : e.1 = k
    · rw [alUpdate, if_pos h, alGet_cons, if_pos rfl]
    · rw [alUpdate, if_neg h, alGet_cons, if_neg h]
      exact ih

theorem alGet_update_other {β : Type} (m : List (Str × β)) (k k' : Str) (v : β)
    (hne : k' ≠ k) : alGet (alUpdate m k v) k' = alGet m k' := by
  induction m with
  | nil =>
    show alGet [(k, v)] k' = alGet [] k'
    rw [alGet_cons, if_neg (Ne.symm hne)]
  | cons e rest ih =>
    by_cases h : e.1 = k
    · rw [alUpdate, if_pos h, alGet_cons, alGet_cons]
      have h1 : ¬ ((k, v).1 = k') := Ne.symm hne
      have h2 : ¬ (e.1 = k') := h ▸ Ne.symm hne
      rw [if_neg h1, if_neg h2]
    · rw [alUpdate, if_neg h, alGet_cons, alGet_cons]
      by_cases h2 : e.1 = k'
      · rw [if_pos h2, if_pos h2]
      · rw [if_neg h2, if_neg h2]
        exact ih

theorem alGet_update_cases {β : Type} (m : List (Str × β)) (k k' : Str) (v : β) :
    alGet (alUpdate m k v) k' = if k' = k then some v else alGet m k' := by
  by_cases h : k' = k
  · subst h
    simp [alGet_update_self]
  · simp [h, alGet_update_other m k k' v h]

/-- Values of a map whose entries all satisfy P keep satisfying P after an
update with a P-value. -/
theorem alGet_all_update {β : Type} (P : β → Prop) (m : List (Str × β)) (k : Str) (v : β)
    (h : ∀ k' s, alGet m k' = some s → P s) (hv : P v) :
    ∀ k' s, alGet (alUpdate m k v) k' = some s → P s := by
  intro k' s hs
  rcases eq_or_ne k' k with rfl | hne
  · rw [alGet_update_self] at hs
    cases hs
    exact hv
  · rw [alGet_update_other m k k' v hne] at hs
    exact h k' s hs

/-- Generic fold invariant. -/
theorem foldl_inv {σ α : Type} (Inv : σ → Prop) (f : σ → α → σ) (l : List α) (s0 : σ)
    (h0 : Inv s0) (hstep : ∀ s a, a ∈ l → Inv s → Inv (f s a)) : Inv (l.foldl f s0) := by
  induction l generalizing s0 with
  | nil => exact h0
  | cons a rest ih =>
    exact ih (f s0 a) (hstep s0 a (List.mem_cons_self a rest) h0)
      (fun s b hb hs => hstep s b (List.mem_cons_of_mem a hb) hs)

/- ===== Derived play state invariants (claims C3, C4, C10) ===== -/

/-- An outs-after value in the sense of the range invariant: null or between
0 and 3. -/
def goodOuts (o : Option Int) : Prop := o = none ∨ ∃ x, o = some x ∧ 0 ≤ x ∧ x ≤ 3

theorem clampOuts_nonneg (x : Int) : 0 ≤ clampOuts x := le_max_left 0 (min 3 x)

theorem clampOuts_le_three (x : Int) : clampOuts x ≤ 3 :=
max_le (by norm_num) (min_le_left 3 x)

theorem goodOuts_clamp (x : Int) : goodOuts (some (clampOuts x)) :=
Or.inr ⟨clampOuts x, rfl, clampOuts_nonneg x, clampOuts_le_three x⟩

theorem goodOuts_three : goodOuts (some 3) := Or.inr ⟨3, rfl, by norm_num, le_refl 3⟩

theorem forwardPass_cons_none (m : StatesMap) (play : LivePlayEvent)
    (rest : List LivePlayEvent) (hg : alGet m play.key = none) :
    forwardPass m (play :: rest) = forwardPass m rest := by
  simp [forwardPass, hg]

/-- Every write of the forward pass stores a play state with the same scores
and an outs value that is null or clamped into the range. -/
theorem forwardPass_cons_some (m : StatesMap) (play : LivePlayEvent)
    (rest : List LivePlayEvent) (state : DerivedPlayState)
    (hg : alGet m play.key = some state) :
    ∃ o, goodOuts o ∧
      forwardPass m (play :: rest) =
        forwardPass (alUpdate m play.key { state with outsAfterPlay := o }) rest := by
  simp only [forwardPass, hg]
  cases hr : rest.head? with
  | some np =>
    by_cases h1 : isSameHalfInning play np && np.outs.isSome
    · exact ⟨some (clampOuts (np.outs.getD 0)), goodOuts_clamp _, by simp [h1]⟩
    · by_cases h2 : isSameHalfInning play np
      · have hno : np.outs = none := by
          cases ho : np.outs with
          | none => rfl
          | some o => exact absurd (by simp [h2, ho]) h1
        cases ho : play.outs with
        | some o =>
          exact ⟨some (clampOuts (o + (estimateOutsRecordedOnPlay play.text : Int))),
            goodOuts_clamp _, by simp [h2, hno, ho]⟩
        | none => exact ⟨none, Or.inl rfl, by simp [h2, hno, ho]⟩
      · exact ⟨some 3, goodOuts_three, by simp [h1, h2]⟩
  | none =>
    cases ho : play.outs with
    | some o =>
      exact ⟨some (clampOuts (o + (estimateOutsRecordedOnPlay play.text : Int))),
        goodOuts_clamp _, by simp [ho]⟩
    | none => exact ⟨none, Or.inl rfl, by simp [ho]⟩

/-- The forward pass leaves keys of plays outside the processed list
untouched. -/
theorem fwd_untouched (l : List LivePlayEvent) (m : StatesMap) (k : Str)
    (h : ∀ p ∈ l, p.key ≠ k) : alGet (forwardPass m l) k = alGet m k := by
  induction l generalizing m with
  | nil => rfl
  | cons play rest ih =>
    have hplay : play.key ≠ k := h play (List.mem_cons_self play rest)
    have hrest : ∀ p ∈ rest, p.key ≠ k := fun p hp => h p (List.mem_cons_of_mem play hp)
    cases hg : alGet m play.key with
    | none => rw [forwardPass_cons_none m play rest hg]; exact ih m hrest
    | some state =>
      obtain ⟨o, _, heq⟩ := forwardPass_cons_some m play rest state hg
      rw [heq, ih _ hrest, alGet_update_other _ _ _ _ (Ne.symm hplay)]

/-- The forward pass never changes the recorded scores of any entry. -/
theorem fwd_scores (l : List LivePlayEvent) (m : StatesMap) (k : Str) :
    (alGet (forwardPass m l) k).map (fun s => (s.awayScore, s.homeScore)) =
      (alGet m k).map (fun s => (s.awayScore, s.homeScore)) := by
  induction l generalizing m with
  | nil => rfl
  | cons play rest ih =>
    cases hg : alGet m play.key with
    | none => rw [forwardPass_cons_none m play rest hg]; exact ih m
    | some state =>
      obtain ⟨o, _, heq⟩ := forwardPass_cons_some m play rest state hg
      rw [heq, ih]
      rcases eq_or_ne k play.key with rfl | hne
      · rw [alGet_update_self, hg]
        rfl
      · rw [alGet_update_other _ _ _ _ hne]

/-- After the forward pass, every entry keyed by some processed play has an
outs-after value in range (or null). -/
theorem fwd_outs_good (l : List LivePlayEvent) (m : StatesMap) (k : Str) (s : DerivedPlayState)
    (hmem : ∃ p ∈ l, p.key = k) (hget : alGet (forwardPass m l) k = some s) :
    goodOuts s.outsAfterPlay := by
  induction l generalizing m with
  | nil => simp at hmem
  | cons play rest ih =>
    by_cases hrestmem : ∃ p ∈ rest, p.key = k
    · cases hg : alGet m play.key with
      | none =>
        rw [forwardPass_cons_none m play rest hg] at hget
        exact ih m hrestmem hget
      | some state =>
        obtain ⟨o, _, heq⟩ := forwardPass_cons_some m play rest state hg
        rw [heq] at hget
        exact ih _ hrestmem hget
    · have hpk : play.key = k := by
        obtain ⟨p, hp, hpk⟩ := hmem
        rcases List.mem_cons.mp hp with rfl | hp2
        · exact hpk
        · exact absurd ⟨p, hp2, hpk⟩ hrestmem
      have hrest : ∀ p ∈ rest, p.key ≠ k := by
        intro p hp hpk2
        exact hrestmem ⟨p, hp, hpk2⟩
      cases hg : alGet m play.key with
      | none =>
        rw [forwardPass_cons_none m play rest hg, fwd_untouched rest m k hrest] at hget
        rw [hpk] at hg
        rw [hg] at hget
        cases hget
      | some state =>
        obtain ⟨o, ho, heq⟩ := forwardPass_cons_some m play rest state hg
        rw [heq, fwd_untouched rest _ k hrest] at hget
        rw [hpk, alGet_update_self] at hget
        cases hget
        exact ho

/-- A nullable running score bounded by the live total. -/
def scoreBounded (v : Int) (a : Option Int) : Prop := ∃ x, a = some x ∧ 0 ≤ x ∧ x ≤ v

theorem scoreBounded_sub (v : Int) (a : Option Int) (r : Nat) (h : scoreBounded v a) :
    scoreBounded v (a.map (fun x => max 0 (x - (r : Int)))) := by
  obtain ⟨x, rfl, hx0, hxv⟩ := h
  refine ⟨max 0 (x - (r : Int)), rfl, le_max_left _ _, ?_⟩
  have h1 : x - (r : Int) ≤ x := sub_le_self x (Int.natCast_nonneg r)
  exact le_trans (max_le hx0 h1) hxv

/-- The backward pass keeps every recorded away score bounded by the live
visitor total. -/
theorem bwd_away_inv (v : Int) (l : List LivePlayEvent) (m0 : StatesMap) (a0 h0 : Option Int)
    (hm : ∀ k s, alGet m0 k = some s → scoreBounded v s.awayScore)
    (ha : scoreBounded v a0) :
    (∀ k s, alGet (l.foldl backwardStep (m0, a0, h0)).1 k = some s →
      scoreBounded v s.awayScore) ∧
      scoreBounded v (l.foldl backwardStep (m0, a0, h0)).2.1 := by
  refine foldl_inv
    (fun t => (∀ k s, alGet t.1 k = some s → scoreBounded v s.awayScore) ∧ scoreBounded v t.2.1)
    backwardStep l (m0, a0, h0) ⟨hm, ha⟩ ?_
  rintro ⟨m, a, h⟩ play _ ⟨hIm, hIa⟩
  cases hg : alGet m play.key with
  | none => simpa [backwardStep, hg] using ⟨hIm, hIa⟩
  | some state =>
    simp only [backwardStep, hg]
    have hupd : ∀ k s,
        alGet (alUpdate m play.key { state with awayScore := a, homeScore := h }) k = some s →
        scoreBounded v s.awayScore :=
      alGet_all_update _ m play.key _ hIm hIa
    by_cases hr : estimateRunsScoredOnPlay play > 0
    · cases hside : inferBattingSide play with
      | none => simpa [hr, hside] using ⟨hupd, hIa⟩
      | some side =>
        cases side with
        | away => simpa [hr, hside] using ⟨hupd, scoreBounded_sub v a _ hIa⟩
        | home => simpa [hr, hside] using ⟨hupd, hIa⟩
    · simpa [hr] using ⟨hupd, hIa⟩

/-- The backward pass keeps every recorded home score bounded by the live
home total. -/
theorem bwd_home_inv (v : Int) (l : List LivePlayEvent) (m0 : StatesMap) (a0 h0 : Option Int)
    (hm : ∀ k s, alGet m0 k = some s → scoreBounded v s.homeScore)
    (hh : scoreBounded v h0) :
    (∀ k s, alGet (l.foldl backwardStep (m0, a0, h0)).1 k = some s →
      scoreBounded v s.homeScore) ∧
      scoreBounded v (l.foldl backwardStep (m0, a0, h0)).2.2 := by
  refine foldl_inv
    (fun t => (∀ k s, alGet t.1 k = some s → scoreBounded v s.homeScore) ∧ scoreBounded v t.2.2)
    backwardStep l (m0, a0, h0) ⟨hm, hh⟩ ?_
  rintro ⟨m, a, h⟩ play _ ⟨hIm, hIh⟩
  cases hg : alGet m play.key with
  | none => simpa [backwardStep, hg] using ⟨hIm, hIh⟩
  | some state =>
    simp only [backwardStep, hg]
    have hupd : ∀ k s,
        alGet (alUpdate m play.key { state with awayScore := a, homeScore := h }) k = some s →
        scoreBounded v s.homeScore :=
      alGet_all_update _ m play.key _ hIm hIh
    by_cases hr : estimateRunsScoredOnPlay play > 0
    · cases hside : inferBattingSide play with
      | none => simpa [hr, hside] using ⟨hupd, hIh⟩
      | some side =>
        cases side with
        | away => simpa [hr, hside] using ⟨hupd, hIh⟩
        | home => simpa [hr, hside] using ⟨hupd, scoreBounded_sub v h _ hIh⟩
    · simpa [hr] using ⟨hupd, hIh⟩

theorem initStates_away (plays : List LivePlayEvent) (summary : LiveSummary) (v : Int)
    (hva : summary.visitorScore = some v) (hv : 0 ≤ v) :
    ∀ k s, alGet (initStates plays summary) k = some s → scoreBounded v s.awayScore := by
  rw [show initStates plays summary = plays.foldl
    (fun m p => alUpdate m p.key (⟨summary.visitorScore, summary.homeScore, p.outs⟩ : DerivedPlayState)) [] from rfl]
  refine foldl_inv (fun m => ∀ k s, alGet m k = some s → scoreBounded v s.awayScore)
    (fun m p => alUpdate m p.key (⟨summary.visitorScore, summary.homeScore, p.outs⟩ : DerivedPlayState)) plays []
    (by intro k s h; rw [alGet_nil] at h; cases h) ?_
  intro m p _ hI
  exact alGet_all_update _ m p.key _ hI ⟨v, by simp [hva], hv, le_refl v⟩

theorem initStates_home (plays : List LivePlayEvent) (summary : LiveSummary) (v : Int)
    (hva : summary.homeScore = some v) (hv : 0 ≤ v) :
    ∀ k s, alGet (initStates plays summary) k = some s → scoreBounded v s.homeScore := by
  rw [show initStates plays summary = plays.foldl
    (fun m p => alUpdate m p.key (⟨summary.visitorScore, summary.homeScore, p.outs⟩ : DerivedPlayState)) [] from rfl]
  refine foldl_inv (fun m => ∀ k s, alGet m k = some s → scoreBounded v s.homeScore)
    (fun m p => alUpdate m p.key (⟨summary.visitorScore, summary.homeScore, p.outs⟩ : DerivedPlayState)) plays []
    (by intro k s h; rw [alGet_nil] at h; cases h) ?_
  intro m p _ hI
  exact alGet_all_update _ m p.key _ hI ⟨v, by simp [hva], hv, le_refl v⟩

theorem initStates_domain (plays : List LivePlayEvent) (summary : LiveSummary) (k : Str) :
    alGet (initStates plays summary) k ≠ none → ∃ p ∈ plays, p.key = k := by
  rw [show initStates plays summary = plays.foldl
    (fun m p => alUpdate m p.key (⟨summary.visitorScore, summary.homeScore, p.outs⟩ : DerivedPlayState)) [] from rfl]
  refine foldl_inv (fun m => alGet m k ≠ none → ∃ p ∈ plays, p.key = k)
    (fun m p => alUpdate m p.key (⟨summary.visitorScore, summary.homeScore, p.outs⟩ : DerivedPlayState)) plays []
    (fun h => absurd (alGet_nil k) h) ?_
  intro m p hp hI hne
  rcases eq_or_ne k p.key with rfl | hkne
  · exact ⟨p, hp, rfl⟩
  · rw [alGet_update_other _ _ _ _ hkne] at hne
    exact hI hne

theorem bwd_domain (l : List LivePlayEvent) (m0 : StatesMap) (a0 h0 : Option Int) (k : Str)
    (h : alGet m0 k = none) : alGet (l.foldl backwardStep (m0, a0, h0)).1 k = none := by
  refine foldl_inv (fun t => alGet t.1 k = none) backwardStep l (m0, a0, h0) h ?_
  rintro ⟨m, a, hsc⟩ play _ hI
  cases hg : alGet m play.key with
  | none => simpa [backwardStep, hg] using hI
  | some state =>
    have hkne : k ≠ play.key := by
      intro hke
      rw [hke, hg] at hI
      cases hI
    simp only [backwardStep, hg]
    by_cases hr : estimateRunsScoredOnPlay play > 0
    · cases hside : inferBattingSide play with
      | none => simpa [hr, hside, alGet_update_other _ _ _ _ hkne] using hI
      | some side =>
        cases side with
        | away => simpa [hr, hside, alGet_update_other _ _ _ _ hkne] using hI
        | home => simpa [hr, hside, alGet_update_other _ _ _ _ hkne] using hI
    · simpa [hr, alGet_update_other _ _ _ _ hkne] using hI

/-- C10: the derived play states of deriveLivePlayStates respect the implicit
range invariants: the outs-after value is null or an integer in the range 0
to 3, and whenever the live summary carries a non-negative visitor (resp.
home) score, every recorded away (resp. home) score is a number between 0 and
that total, the backward walk never pushing the running total below zero nor
above the live score. -/
theorem claim_C10_derived_state_ranges (plays : List LivePlayEvent) (summary : LiveSummary)
    (k : Str) (s : DerivedPlayState)
    (hget : alGet (deriveLivePlayStates plays summary) k = some s) :
    (s.outsAfterPlay = none ∨ ∃ o, s.outsAfterPlay = some o ∧ 0 ≤ o ∧ o ≤ 3) ∧
    (∀ v, summary.visitorScore = some v → 0 ≤ v →
      ∃ a, s.awayScore = some a ∧ 0 ≤ a ∧ a ≤ v) ∧
    (∀ v, summary.homeScore = some v → 0 ≤ v →
      ∃ a, s.homeScore = some a ∧ 0 ≤ a ∧ a ≤ v) := by
  have hderive : deriveLivePlayStates plays summary =
      forwardPass ((plays.reverse).foldl backwardStep
        (initStates plays summary, summary.visitorScore, summary.homeScore)).1 plays := rfl
  rw [hderive] at hget
  set bw := (plays.reverse).foldl backwardStep
    (initStates plays summary, summary.visitorScore, summary.homeScore) with hbw
  have hbw1 : (alGet (forwardPass bw.1 plays) k).map (fun s => (s.awayScore, s.homeScore)) =
      (alGet bw.1 k).map (fun s => (s.awayScore, s.homeScore)) := fwd_scores plays bw.1 k
  rw [hget] at hbw1
  cases hbwk : alGet bw.1 k with
  | none => rw [hbwk] at hbw1; cases hbw1
  | some s1 =>
    rw [hbwk] at hbw1
    have hscores : s.awayScore = s1.awayScore ∧ s.homeScore = s1.homeScore := by
      have := hbw1
      simp only [Option.map_some] at this
      exact ⟨congrArg Prod.fst (Option.some.inj this), congrArg Prod.snd (Option.some.inj this)⟩
    have hdom0 : alGet (initStates plays summary) k ≠ none := by
      intro h0
      rw [bwd_domain plays.reverse _ _ _ k h0] at hbwk
      cases hbwk
    have hmem : ∃ p ∈ plays, p.key = k := initStates_domain plays summary k hdom0
    refine ⟨fwd_outs_good plays bw.1 k s hmem hget, ?_, ?_⟩
    · intro v hva hv
      have hinv := bwd_away_inv v plays.reverse (initStates plays summary)
        summary.visitorScore summary.homeScore (initStates_away plays summary v hva hv)
        ⟨v, by simp [hva], hv, le_refl v⟩
      have := hinv.1 k s1 hbwk
      obtain ⟨x, hx, hx0, hxv⟩ := this
      exact ⟨x, by rw [hscores.1, hx], hx0, hxv⟩
    · intro v hva hv
      have hinv := bwd_home_inv v plays.reverse (initStates plays summary)
        summary.visitorScore summary.homeScore (initStates_home plays summary v hva hv)
        ⟨v, by simp [hva], hv, le_refl v⟩
      have := hinv.1 k s1 hbwk
      obtain ⟨x, hx, hx0, hxv⟩ := this
      exact ⟨x, by rw [hscores.2, hx], hx0, hxv⟩

def c10Play1 : LivePlayEvent :=
{ key := str "k1", order := 1, inning := some 1, half := some Half.top,
  isSubstitution := false, text := str "Doe,John singled to left field.",
  scoringDecision := none, batter := some (str "Doe,John"), pitcher := none,
  outs := some 0, sectionTitle := str "s" }

def c10Play2 : LivePlayEvent :=
{ key := str "k2", order := 2, inning := some 1, half := some Half.top,
  isSubstitution := false, text := str "Roe,Rick homered, 2 RBI; Doe,John scored.",
  scoringDecision := none, batter := some (str "Roe,Rick"), pitcher := none,
  outs := some 1, sectionTitle := str "s" }

def c10Summary : LiveSummary :=
{ statusText := none, visitorTeam := str "A", homeTeam := str "B",
  visitorScore := some 3, homeScore := some 1, situation := none }

/-- Witness for C10: the range invariant evaluated on a concrete two-play
top-half stream against a 3-1 live score. -/
theorem claim_C10_witness :
    ((⟨some 1, some 1, some 1⟩ : DerivedPlayState).outsAfterPlay = none ∨
      ∃ o, (⟨some 1, some 1, some 1⟩ : DerivedPlayState).outsAfterPlay = some o ∧ 0 ≤ o ∧ o ≤ 3) ∧
    (∀ v, c10Summary.visitorScore = some v → 0 ≤ v →
      ∃ a, (⟨some 1, some 1, some 1⟩ : DerivedPlayState).awayScore = some a ∧ 0 ≤ a ∧ a ≤ v) ∧
    (∀ v, c10Summary.homeScore = some v → 0 ≤ v →
      ∃ a, (⟨some 1, some 1, some 1⟩ : DerivedPlayState).homeScore = some a ∧ 0 ≤ a ∧ a ≤ v) :=
claim_C10_derived_state_ranges [c10Play1, c10Play2] c10Summary (str "k1")
  ⟨some 1, some 1, some 1⟩ (by decide)

/- ===== Claim C9: inning labelling ===== -/

/-- C9: for a play with known inning and half, the tweet inning label is
"Mid n" when the half is top, the outs-after value is 3 and the play is not a
substitution; "End n" in the bottom-half counterpart; and "Top n" or
"Bottom n" otherwise — and the header line omits the outs suffix exactly when
the label is Mid/End, including it otherwise. -/
theorem claim_C9_inning_label (play : LivePlayEvent) (outs : Option Int) (summary : LiveSummary)
    (n : Int) (h : Half) (hin : play.inning = some n) (hh : play.half = some h) :
    (h = Half.top → outs = some 3 → play.isSubstitution = false →
      buildInningLabel play outs summary = str "Mid " ++ ordinal n ∧
      formatHeaderLine (buildInningLabel play outs summary) outs =
        buildInningLabel play outs summary) ∧
    (h = Half.bottom → outs = some 3 → play.isSubstitution = false →
      buildInningLabel play outs summary = str "End " ++ ordinal n ∧
      formatHeaderLine (buildInningLabel play outs summary) outs =
        buildInningLabel play outs summary) ∧
    ((outs ≠ some 3 ∨ play.isSubstitution = true) →
      buildInningLabel play outs summary = capitalize (halfToChars h) ++ [' '] ++ ordinal n ∧
      formatHeaderLine (buildInningLabel play outs summary) outs =
        buildInningLabel play outs summary ++ str " | " ++ formatOutsLabel outs) := by
  have hlabel : buildInningLabel play outs summary =
      (if outs == some 3 && !play.isSubstitution then
        (if h == Half.top then str "Mid " else str "End ") ++ ordinal n
      else capitalize (halfToChars h) ++ [' '] ++ ordinal n) := by
    simp only [buildInningLabel, hin, hh]
  refine ⟨?_, ?_, ?_⟩
  · intro ht ho hsub
    subst ht
    subst ho
    have hl : buildInningLabel play (some 3) summary = str "Mid " ++ ordinal n := by
      rw [hlabel]
      simp [hsub]
    refine ⟨hl, ?_⟩
    rw [hl]
    have hs : startsWithMidOrEnd (str "Mid " ++ ordinal n) = true := rfl
    simp [formatHeaderLine, hs]
  · intro ht ho hsub
    subst ht
    subst ho
    have hl : buildInningLabel play (some 3) summary = str "End " ++ ordinal n := by
      rw [hlabel]
      simp [hsub]
    refine ⟨hl, ?_⟩
    rw [hl]
    have hs : startsWithMidOrEnd (str "End " ++ ordinal n) = true := rfl
    simp [formatHeaderLine, hs]
  · intro hyp
    have hcond : (outs == some 3 && !play.isSubstitution) = false := by
      rcases hyp with hne | hs
      · simp [hne]
      · simp [hs]
    have hl : buildInningLabel play outs summary =
        capitalize (halfToChars h) ++ [' '] ++ ordinal n := by
      rw [hlabel, hcond]
      simp
    refine ⟨hl, ?_⟩
    rw [hl]
    cases h with
    | top =>
      have hs : startsWithMidOrEnd (capitalize (halfToChars Half.top) ++ ' ' :: ordinal n) =
          false := rfl
      simp [formatHeaderLine, hs]
    | bottom =>
      have hs : startsWithMidOrEnd (capitalize (halfToChars Half.bottom) ++ ' ' :: ordinal n) =
          false := rfl
      simp [formatHeaderLine, hs]

/-- Witness for C9: the third out of the top of the first inning yields the
label Mid 1st and a header line without an outs suffix. -/
theorem claim_C9_witness :
    buildInningLabel c10Play2 (some 3) c10Summary = str "Mid " ++ ordinal 1 ∧
    formatHeaderLine (buildInningLabel c10Play2 (some 3) c10Summary) (some 3) =
      buildInningLabel c10Play2 (some 3) c10Summary :=
(claim_C9_inning_label c10Play2 (some 3) c10Summary 1 Half.top rfl rfl).1 rfl rfl rfl

/- ===== Claim C2: text-over-scorecard location precedence ===== -/

/-- The location source and confidence of a parsed scorecard shorthand are
scorecard/0.9 when the shorthand yielded valid fielder digits and none/0
otherwise. -/
theorem sdc_record_fields (pc : Option Str) (vfc : List Int) (fl : List FieldLocation)
    (rb : Option Int) :
    ((⟨pc, vfc, fl, rb,
        if !vfc.isEmpty then LocSource.scorecard else LocSource.nosource,
        if !vfc.isEmpty then (9 : Rat)/10 else 0⟩ : ScoringDecisionContext).locationSource =
      (if (⟨pc, vfc, fl, rb,
        if !vfc.isEmpty then LocSource.scorecard else LocSource.nosource,
        if !vfc.isEmpty then (9 : Rat)/10 else 0⟩ : ScoringDecisionContext).fielderCodes.isEmpty
       then LocSource.nosource else LocSource.scorecard)) ∧
    ((⟨pc, vfc, fl, rb,
        if !vfc.isEmpty then LocSource.scorecard else LocSource.nosource,
        if !vfc.isEmpty then (9 : Rat)/10 else 0⟩ : ScoringDecisionContext).locationConfidence =
      (if (⟨pc, vfc, fl, rb,
        if !vfc.isEmpty then LocSource.scorecard else LocSource.nosource,
        if !vfc.isEmpty then (9 : Rat)/10 else 0⟩ : ScoringDecisionContext).fielderCodes.isEmpty
       then 0 else (9 : Rat)/10)) := by
  cases vfc with
  | nil => simp
  | cons a rest => simp

/-- The location source and confidence of a parsed scorecard shorthand are
scorecard/0.9 when the shorthand yielded valid fielder digits and none/0
otherwise. -/
theorem parseSDC_source (dec : Option Str) (ctx : ScoringDecisionContext)
    (h : parseScoringDecisionContext dec = some ctx) :
    ctx.locationSource =
      (if ctx.fielderCodes.isEmpty then LocSource.nosource else LocSource.scorecard) ∧
    ctx.locationConfidence = (if ctx.fielderCodes.isEmpty then 0 else (9 : Rat)/10) := by
  unfold parseScoringDecisionContext at h
  split at h
  · cases h
  · dsimp only at h
    split at h
    · cases h
    · injection h with h2
      subst h2
      exact sdc_record_fields _ _ _ _

/-- C2: the resolved scoring-decision context prefers play-text locations
(source text, confidence 1, replacing any shorthand codes); with no text
location it is exactly the shorthand parse, whose source/confidence are
scorecard/0.9 when the shorthand has fielder digits 1-9 and none/0 otherwise;
and the shorthand HR 9 with a homered-to-center-field text resolves to
fielder code 8 (center field), not 9. -/
theorem claim_C2_text_over_scorecard :
    (∀ dec text, parseFieldLocationsFromText text ≠ [] →
      ∃ ctx, resolveScoringDecisionContext dec text = some ctx ∧
        ctx.fieldLocations = parseFieldLocationsFromText text ∧
        ctx.fielderCodes = (parseFieldLocationsFromText text).map (fun loc => loc.code) ∧
        ctx.locationSource = LocSource.text ∧ ctx.locationConfidence = 1) ∧
    (∀ dec text, parseFieldLocationsFromText text = [] →
      resolveScoringDecisionContext dec text = parseScoringDecisionContext dec) ∧
    (∀ dec ctx, parseScoringDecisionContext dec = some ctx →
      (ctx.fielderCodes ≠ [] →
        ctx.locationSource = LocSource.scorecard ∧ ctx.locationConfidence = (9 : Rat)/10) ∧
      (ctx.fielderCodes = [] →
        ctx.locationSource = LocSource.nosource ∧ ctx.locationConfidence = 0)) ∧
    (∃ ctx, resolveScoringDecisionContext (some (str "HR 9 1RBI"))
        (str "Barrett,Drey homered to center field, RBI (2-1 BKB).") = some ctx ∧
      ctx.fielderCodes = [8] ∧ ctx.fieldLocations = [mapFielderCodeToLocation 8] ∧
      (mapFielderCodeToLocation 8).name = str "center field" ∧
      ctx.locationSource = LocSource.text ∧ ctx.locationConfidence = 1 ∧ ctx.rbi = some 1) := by
  refine ⟨?_, ?_, ?_, ?_⟩
  · intro dec text h
    have hb : (parseFieldLocationsFromText text).isEmpty = false := by
      cases hx : parseFieldLocationsFromText text with
      | nil => exact absurd hx h
      | cons a rest => rfl
    cases hbase : parseScoringDecisionContext dec with
    | none =>
      refine ⟨⟨none, (parseFieldLocationsFromText text).map (fun loc => loc.code),
        parseFieldLocationsFromText text, none, LocSource.text, 1⟩, ?_, rfl, rfl, rfl, rfl⟩
      simp [resolveScoringDecisionContext, hb, hbase]
    | some b =>
      refine ⟨{ b with
        fielderCodes := (parseFieldLocationsFromText text).map (fun loc => loc.code)
        fieldLocations := parseFieldLocationsFromText text
        locationSource := LocSource.text
        locationConfidence := 1 }, ?_, rfl, rfl, rfl, rfl⟩
      simp [resolveScoringDecisionContext, hb, hbase]
  · intro dec text h
    simp [resolveScoringDecisionContext, h]
  · intro dec ctx h
    have hsrc := parseSDC_source dec ctx h
    constructor
    · intro hne
      have hb : ctx.fielderCodes.isEmpty = false := by
        cases hx : ctx.fielderCodes with
        | nil => exact absurd hx hne
        | cons a rest => rfl
      rw [hb] at hsrc
      simpa using hsrc
    · intro hnil
      have hb : ctx.fielderCodes.isEmpty = true := by rw [hnil]; rfl
      rw [hb] at hsrc
      simpa using hsrc
  · exact ⟨⟨some (str "HR"), [8], [mapFielderCodeToLocation 8], some 1, LocSource.text, 1⟩,
      by decide, rfl, rfl, by decide, rfl, rfl, rfl⟩

/-- Witness for C2: the text-location branch applied to the concrete example
(the text location list is non-empty there). -/
theorem claim_C2_witness :
    ∃ ctx, resolveScoringDecisionContext (some (str "HR 9 1RBI"))
        (str "Barrett,Drey homered to center field, RBI (2-1 BKB).") = some ctx ∧
      ctx.fieldLocations = parseFieldLocationsFromText
        (str "Barrett,Drey homered to center field, RBI (2-1 BKB).") ∧
      ctx.fielderCodes = (parseFieldLocationsFromText
        (str "Barrett,Drey homered to center field, RBI (2-1 BKB).")).map (fun loc => loc.code) ∧
      ctx.locationSource = LocSource.text ∧ ctx.locationConfidence = 1 :=
claim_C2_text_over_scorecard.1 (some (str "HR 9 1RBI"))
  (str "Barrett,Drey homered to center field, RBI (2-1 BKB).") (by decide)

/- ===== Claim C6: ordered outcome matching ===== -/

theorem addTag_mem_of_mem (l : List Str) (a b : Str) (h : a ∈ l) : a ∈ addTag l b := by
  unfold addTag
  split
  · exact h
  · exact List.mem_append_left _ h

theorem addTag_self_mem (l : List Str) (b : Str) : b ∈ addTag l b := by
  unfold addTag
  split
  · next h => simpa using h
  · exact List.mem_append_right _ (List.mem_singleton.mpr rfl)

theorem firstMatch_eq_none_iff (l : List (Outcome × (Str → Bool) × Str)) (t : Str) :
    firstMatch l t = none ↔ ∀ m ∈ l, m.2.1 t = false := by
  induction l with
  | nil => simp [firstMatch]
  | cons hd rest ih =>
    rcases hd with ⟨o, p, tag⟩
    by_cases hp : p t
    · simp [firstMatch, hp]
    · simp only [firstMatch, if_neg hp, ih, List.mem_cons]
      constructor
      · intro hall m hm
        rcases hm with rfl | hm
        · simpa using hp
        · exact hall m hm
      · intro hall m hm
        exact hall m (Or.inr hm)

theorem firstMatch_eq_some (l : List (Outcome × (Str → Bool) × Str)) (t : Str)
    (o : Outcome) (tag : Str) (h : firstMatch l t = some (o, tag)) :
    ∃ pre m post, l = pre ++ m :: post ∧ m.2.1 t = true ∧ m.1 = o ∧ m.2.2 = tag ∧
      ∀ m2 ∈ pre, m2.2.1 t = false := by
  induction l with
  | nil => cases h
  | cons hd rest ih =>
    rcases hd with ⟨o1, p1, tag1⟩
    by_cases hp : p1 t
    · rw [firstMatch, if_pos hp] at h
      injection h with h2
      injection h2 with h3 h4
      exact ⟨[], (o1, p1, tag1), rest, rfl, by simpa using hp, h3, h4, by simp⟩
    · rw [firstMatch, if_neg hp] at h
      obtain ⟨pre, m, post, hsplit, hfire, ho, htag, hpre⟩ := ih h
      refine ⟨(o1, p1, tag1) :: pre, m, post, by simp [hsplit], hfire, ho, htag, ?_⟩
      intro m2 hm2
      rcases List.mem_cons.mp hm2 with rfl | hm2
      · simpa using hp
      · exact hpre m2 hm2

theorem orderedMatchers_no_other : ∀ m ∈ orderedMatchers, m.1 ≠ Outcome.other := by
  intro m hm
  fin_cases hm <;> simp

/-- C6: parsePlayDescription applies its outcome matchers in the fixed source
order and returns the first match; the independent tag detection is always a
subset of the returned tags; with no matcher firing the outcome is other and
the tags are exactly the detected ones; and the homered-with-RBI example
classifies as home_run with tags containing home_run and rbi. -/
theorem claim_C6_ordered_outcome_matchers :
    (∀ t tag, tag ∈ detectedTags (lowerStr t) → tag ∈ (parsePlayDescription t).2) ∧
    (∀ t : Str, (parsePlayDescription t).1 = Outcome.other ↔
      ∀ m ∈ orderedMatchers, m.2.1 (lowerStr t) = false) ∧
    (∀ t : Str, (parsePlayDescription t).1 = Outcome.other →
      (parsePlayDescription t).2 = detectedTags (lowerStr t)) ∧
    (∀ t : Str, (parsePlayDescription t).1 ≠ Outcome.other →
      ∃ pre m post, orderedMatchers = pre ++ m :: post ∧ m.2.1 (lowerStr t) = true ∧
        (parsePlayDescription t).1 = m.1 ∧ m.2.2 ∈ (parsePlayDescription t).2 ∧
        ∀ m2 ∈ pre, m2.2.1 (lowerStr t) = false) ∧
    ((parsePlayDescription (str "Barrett,Drey homered to left field, RBI (2-1 BKB).")).1 =
        Outcome.home_run ∧
      str "home_run" ∈
        (parsePlayDescription (str "Barrett,Drey homered to left field, RBI (2-1 BKB).")).2 ∧
      str "rbi" ∈
        (parsePlayDescription (str "Barrett,Drey homered to left field, RBI (2-1 BKB).")).2) := by
  have hpp : ∀ t : Str, parsePlayDescription t =
      (match firstMatch orderedMatchers (lowerStr t) with
        | some (o, tag) => (o, addTag (detectedTags (lowerStr t)) tag)
        | none => (Outcome.other, detectedTags (lowerStr t))) := fun t => rfl
  refine ⟨?_, ?_, ?_, ?_, by decide, by decide, by decide⟩
  · intro t tag hmem
    rw [hpp t]
    cases hfm : firstMatch orderedMatchers (lowerStr t) with
    | none => simpa using hmem
    | some ot =>
      rcases ot with ⟨o, tg⟩
      simpa using addTag_mem_of_mem _ tag tg hmem
  · intro t
    rw [hpp t]
    cases hfm : firstMatch orderedMatchers (lowerStr t) with
    | none =>
      simpa using (firstMatch_eq_none_iff orderedMatchers (lowerStr t)).mp hfm
    | some ot =>
      rcases ot with ⟨o, tg⟩
      simp only
      constructor
      · intro ho
        obtain ⟨pre, m, post, hsplit, hfire, hmo, _, _⟩ :=
          firstMatch_eq_some orderedMatchers (lowerStr t) o tg hfm
        exact absurd (hmo.trans ho) (orderedMatchers_no_other m (by rw [hsplit]; simp))
      · intro hall
        have hnone := (firstMatch_eq_none_iff orderedMatchers (lowerStr t)).mpr
          (by intro m hm; exact hall m hm)
        rw [hfm] at hnone
        cases hnone
  · intro t ho
    rw [hpp t] at ho ⊢
    cases hfm : firstMatch orderedMatchers (lowerStr t) with
    | none => simp
    | some ot =>
      rcases ot with ⟨o, tg⟩
      rw [hfm] at ho
      simp only at ho
      obtain ⟨pre, m, post, hsplit, hfire, hmo, _, _⟩ :=
        firstMatch_eq_some orderedMatchers (lowerStr t) o tg hfm
      exact absurd (hmo.trans ho) (orderedMatchers_no_other m (by rw [hsplit]; simp))
  · intro t ho
    rw [hpp t] at ho ⊢
    cases hfm : firstMatch orderedMatchers (lowerStr t) with
    | none =>
      rw [hfm] at ho
      simp at ho
    | some ot =>
      rcases ot with ⟨o, tg⟩
      obtain ⟨pre, m, post, hsplit, hfire, hmo, htag, hpre⟩ :=
        firstMatch_eq_some orderedMatchers (lowerStr t) o tg hfm
      refine ⟨pre, m, post, hsplit, hfire, ?_, ?_, hpre⟩
      · simp only
        exact hmo.symm
      · simp only
        rw [htag]
        exact addTag_self_mem _ tg

/-- Witness for C6: instantiating the first-match characterization at the
concrete home-run example. -/
theorem claim_C6_witness :
    ∃ pre m post, orderedMatchers = pre ++ m :: post ∧
      m.2.1 (lowerStr (str "Barrett,Drey homered to left field, RBI (2-1 BKB).")) = true ∧
      (parsePlayDescription (str "Barrett,Drey homered to left field, RBI (2-1 BKB).")).1 = m.1 ∧
      m.2.2 ∈ (parsePlayDescription (str "Barrett,Drey homered to left field, RBI (2-1 BKB).")).2 ∧
      ∀ m2 ∈ pre,
        m2.2.1 (lowerStr (str "Barrett,Drey homered to left field, RBI (2-1 BKB).")) = false :=
claim_C6_ordered_outcome_matchers.2.2.2.1
  (str "Barrett,Drey homered to left field, RBI (2-1 BKB).") (by decide)

/- ===== Claim C8: tweet length bound ===== -/

theorem trimEndStr_length_le (s : Str) : (trimEndStr s).length ≤ s.length := by
  unfold trimEndStr
  rw [List.length_reverse]
  calc (s.reverse.dropWhile isWsChar).length ≤ s.reverse.length :=
        (List.dropWhile_sublist isWsChar).length_le
    _ = s.length := List.length_reverse s

theorem trimToTweetLength_length (text : Str) (m : Int) (hm : 3 ≤ m) :
    ((trimToTweetLength text m).length : Int) ≤ m := by
  unfold trimToTweetLength
  split
  · next h => exact h
  · next h =>
    rw [List.length_append]
    have h1 : (trimEndStr (text.take (max 0 (m - 3)).toNat)).length ≤ (max 0 (m - 3)).toNat :=
      le_trans (trimEndStr_length_le _) (by rw [List.length_take]; exact min_le_left _ _)
    have h2 : ((max 0 (m - 3)).toNat : Int) = m - 3 := by
      have : max 0 (m - 3) = m - 3 := max_eq_right (by omega)
      rw [this]
      omega
    have h3 : (str "...").length = 3 := rfl
    rw [h3]
    push_cast
    omega

theorem clampTweetLength_ge (x : Int) : 20 ≤ clampTweetLength x := le_max_left _ _

/-- C8 (amended): the generated play and final tweets are bounded by the
maximum length clamped into the range 20 to 280 — hence by maxLength itself
whenever maxLength is at least 20 (the original bound fails below 20, see the
counterexample). -/
theorem claim_C8_length_bound :
    (∀ input : BuildPlayTweetTextInput,
      ((buildPlayTweetText input).length : Int) ≤ clampTweetLength (input.maxLength.getD 280)) ∧
    (∀ input : BuildFinalTweetTextInput,
      ((buildFinalTweetText input).length : Int) ≤ clampTweetLength (input.maxLength.getD 280)) ∧
    (∀ input : BuildPlayTweetTextInput, ∀ m : Int, input.maxLength = some m → 20 ≤ m →
      ((buildPlayTweetText input).length : Int) ≤ m) ∧
    (∀ input : BuildFinalTweetTextInput, ∀ m : Int, input.maxLength = some m → 20 ≤ m →
      ((buildFinalTweetText input).length : Int) ≤ m) := by
  have hclamp3 : ∀ x : Int, 3 ≤ clampTweetLength x :=
    fun x => le_trans (by norm_num) (clampTweetLength_ge x)
  have hclamp_le : ∀ m : Int, 20 ≤ m → clampTweetLength m ≤ m :=
    fun m hm => max_le hm (min_le_right 280 m)
  have hplay : ∀ input : BuildPlayTweetTextInput,
      ((buildPlayTweetText input).length : Int) ≤ clampTweetLength (input.maxLength.getD 280) :=
    fun input => trimToTweetLength_length _ _ (hclamp3 _)
  have hfinal : ∀ input : BuildFinalTweetTextInput,
      ((buildFinalTweetText input).length : Int) ≤ clampTweetLength (input.maxLength.getD 280) :=
    fun input => trimToTweetLength_length _ _ (hclamp3 _)
  refine ⟨hplay, hfinal, ?_, ?_⟩
  · intro input m hsome hm
    have := hplay input
    rw [hsome] at this
    exact le_trans this (hclamp_le m hm)
  · intro input m hsome hm
    have := hfinal input
    rw [hsome] at this
    exact le_trans this (hclamp_le m hm)

def c8Play : LivePlayEvent :=
{ key := str "k", order := 1, inning := none, half := none, isSubstitution := false,
  text := str "hello world hello world", scoringDecision := none, batter := none,
  pitcher := none, outs := none, sectionTitle := str "t" }

def c8Summary : LiveSummary :=
{ statusText := none, visitorTeam := str "AAAA", homeTeam := str "BBBB",
  visitorScore := some 1, homeScore := some 2, situation := none }

def c8Input : BuildPlayTweetTextInput :=
{ play := c8Play, summary := c8Summary, stateAfterPlay := none, maxLength := some 5,
  appendTag := none }

/-- Counterexample for C8 as stated: with maxLength 5 the generated play
tweet has length 20 (the limit is first clamped up to 20), exceeding the
given maximum. -/
theorem claim_C8_counterexample :
    c8Input.maxLength = some 5 ∧ (buildPlayTweetText c8Input).length = 20 ∧
      ¬ (((buildPlayTweetText c8Input).length : Int) ≤ 5) := by
  refine ⟨rfl, by decide, ?_⟩
  rw [show (buildPlayTweetText c8Input).length = 20 from by decide]
  norm_num

def c8Input30 : BuildPlayTweetTextInput :=
{ play := c8Play, summary := c8Summary, stateAfterPlay := none, maxLength := some 30,
  appendTag := none }

/-- Witness for C8 (amended): the clamped bound applied at a concrete input
whose maxLength 30 is at least 20. -/
theorem claim_C8_witness : ((buildPlayTweetText c8Input30).length : Int) ≤ 30 :=
claim_C8_length_bound.2.2.1 c8Input30 30 rfl (by norm_num)

/- ===== Positional characterization of the outs/score passes (C3, C4) ===== -/

theorem alGet_update_ne_none {β : Type} (m : List (Str × β)) (k k' : Str) (v : β)
    (h : alGet m k ≠ none) : alGet (alUpdate m k' v) k ≠ none := by
  rcases eq_or_ne k k' with rfl | hne
  · rw [alGet_update_self]
    exact Option.some_ne_none v
  · rw [alGet_update_other _ _ _ _ hne]
    exact h

/-- Folding initialisation updates over plays whose keys all differ from k
leaves the entry at k unchanged. -/
theorem initStates_foldl_untouched (summary : LiveSummary) (l : List LivePlayEvent) (k : Str)
    (hk : ∀ q ∈ l, q.key ≠ k) (m : StatesMap) :
    alGet (l.foldl (fun m p =>
      alUpdate m p.key (⟨summary.visitorScore, summary.homeScore, p.outs⟩ : DerivedPlayState)) m)
      k = alGet m k := by
  induction l generalizing m with
  | nil => rfl
  | cons q qs ihq =>
    rw [List.foldl_cons, ihq (fun r hr => hk r (List.mem_cons_of_mem q hr)),
      alGet_update_other _ _ _ _ (Ne.symm (hk q (List.mem_cons_self q qs)))]

/-- Under distinct keys, the initialisation map holds, for each play, the
summary scores and that play's own outs. -/
theorem initStates_get_nodup (plays : List LivePlayEvent) (summary : LiveSummary)
    (hnd : (plays.map (fun p => p.key)).Nodup) (p : LivePlayEvent) (hp : p ∈ plays) :
    alGet (initStates plays summary) p.key =
      some ⟨summary.visitorScore, summary.homeScore, p.outs⟩ := by
  have main : ∀ (l : List LivePlayEvent) (m : StatesMap),
      (l.map (fun p => p.key)).Nodup → ∀ p ∈ l,
      alGet (l.foldl (fun m p =>
        alUpdate m p.key (⟨summary.visitorScore, summary.homeScore, p.outs⟩ : DerivedPlayState)) m)
        p.key = some ⟨summary.visitorScore, summary.homeScore, p.outs⟩ := by
    intro l
    induction l with
    | nil => intro m _ p hp; cases hp
    | cons hd rest ih =>
      intro m hnd p hp
      have hndr : (rest.map (fun p => p.key)).Nodup := (List.nodup_cons.mp hnd).2
      rcases List.mem_cons.mp hp with rfl | hp2
      · have hk : ∀ q ∈ rest, q.key ≠ p.key := by
          intro q hq hqe
          exact (List.nodup_cons.mp hnd).1 (List.mem_map.mpr ⟨q, hq, hqe⟩)
        rw [List.foldl_cons, initStates_foldl_untouched summary rest p.key hk, alGet_update_self]
      · rw [List.foldl_cons]
        exact ih _ hndr p hp2
  exact main plays [] hnd p hp

/-- The outs-after value the forward pass writes for a play, given the
following play (null when no explicit outs count is available anywhere). -/
def fwdOutsValue (play : LivePlayEvent) (next : Option LivePlayEvent) : Option Int :=
match next with
| some np =>
  if isSameHalfInning play np && np.outs.isSome then some (clampOuts (np.outs.getD 0))
  else if !isSameHalfInning play np then some 3
  else
    match play.outs with
    | some o => some (clampOuts (o + (estimateOutsRecordedOnPlay play.text : Int)))
    | none => none
| none =>
  match play.outs with
  | some o => some (clampOuts (o + (estimateOutsRecordedOnPlay play.text : Int)))
  | none => none

theorem forwardPass_cons_eq (m : StatesMap) (play : LivePlayEvent)
    (rest : List LivePlayEvent) (state : DerivedPlayState)
    (hg : alGet m play.key = some state) :
    forwardPass m (play :: rest) =
      forwardPass
        (alUpdate m play.key { state with outsAfterPlay := fwdOutsValue play rest.head? })
        rest := by
  simp only [forwardPass, hg]
  cases hr : rest.head? with
  | some np =>
    by_cases h1 : isSameHalfInning play np && np.outs.isSome
    · simp [fwdOutsValue, h1]
    · by_cases h2 : isSameHalfInning play np
      · have hno : np.outs = none := by
          cases ho : np.outs with
          | none => rfl
          | some o => exact absurd (by simp [h2, ho]) h1
        cases ho : play.outs with
        | some o => simp [fwdOutsValue, h1, h2, hno, ho]
        | none => simp [fwdOutsValue, h1, h2, hno, ho]
      · simp [fwdOutsValue, h1, h2]
  | none =>
    cases ho : play.outs with
    | some o => simp [fwdOutsValue, ho]
    | none => simp [fwdOutsValue, ho]

/-- Positional forward-pass characterization: with pairwise-distinct keys the
entry of the i-th play ends with its scores unchanged and the outs-after
value determined by the play and its successor. -/
theorem fwd_get_nodup (l : List LivePlayEvent) (m : StatesMap) (i : Nat) (hi : i < l.length)
    (hnd : (l.map (fun p => p.key)).Nodup) :
    alGet (forwardPass m l) ((l.get ⟨i, hi⟩).key) =
      (alGet m ((l.get ⟨i, hi⟩).key)).map
        (fun st => { st with outsAfterPlay := fwdOutsValue (l.get ⟨i, hi⟩) l[i + 1]? }) := by
  induction l generalizing m i with
  | nil => cases hi
  | cons play rest ih =>
    have hndr : (rest.map (fun p => p.key)).Nodup := (List.nodup_cons.mp hnd).2
    cases i with
    | zero =>
      have h0 : (play :: rest).get ⟨0, hi⟩ = play := rfl
      have hhead : (play :: rest)[0 + 1]? = rest.head? := by
        cases rest <;> simp
      rw [h0, hhead]
      have hk : ∀ q ∈ rest, q.key ≠ play.key := by
        intro q hq hqe
        exact (List.nodup_cons.mp hnd).1 (List.mem_map.mpr ⟨q, hq, hqe⟩)
      cases hg : alGet m play.key with
      | none =>
        rw [forwardPass_cons_none m play rest hg]
        rw [fwd_untouched rest m play.key hk]
        simp [hg]
      | some state =>
        rw [forwardPass_cons_eq m play rest state hg]
        rw [fwd_untouched rest _ play.key hk, alGet_update_self]
        simp [hg]
    | succ j =>
      have hj : j < rest.length := Nat.lt_of_succ_lt_succ hi
      have hget : (play :: rest).get ⟨j + 1, hi⟩ = rest.get ⟨j, hj⟩ := rfl
      have hnext : (play :: rest)[j + 1 + 1]? = rest[j + 1]? := by
        simp
      rw [hget, hnext]
      have hkj : (rest.get ⟨j, hj⟩).key ≠ play.key := by
        intro hqe
        exact (List.nodup_cons.mp hnd).1
          (List.mem_map.mpr ⟨rest.get ⟨j, hj⟩, List.get_mem rest j hj, hqe⟩)
      cases hg : alGet m play.key with
      | none =>
        rw [forwardPass_cons_none m play rest hg]
        exact ih m j hj hndr
      | some state =>
        rw [forwardPass_cons_eq m play rest state hg]
        rw [ih _ j hj hndr, alGet_update_other _ _ _ _ hkj]

/- ===== Claim C4: the forward outs pass ===== -/

/-- A backward step either leaves the states map unchanged or updates the
entry at the processed play's key. -/
theorem backwardStep_fst (st : StatesMap × Option Int × Option Int) (p : LivePlayEvent) :
    (backwardStep st p).1 = st.1 ∨ ∃ v, (backwardStep st p).1 = alUpdate st.1 p.key v := by
  have hb : backwardStep st p = (match alGet st.1 p.key with
    | none => (st.1, st.2.1, st.2.2)
    | some state =>
      let m2 := alUpdate st.1 p.key { state with awayScore := st.2.1, homeScore := st.2.2 }
      let runsScored := estimateRunsScoredOnPlay p
      if runsScored > 0 then
        match inferBattingSide p with
        | some TeamSide.away =>
          (m2, st.2.1.map (fun a => max 0 (a - (runsScored : Int))), st.2.2)
        | some TeamSide.home =>
          (m2, st.2.1, st.2.2.map (fun h => max 0 (h - (runsScored : Int))))
        | none => (m2, st.2.1, st.2.2)
      else (m2, st.2.1, st.2.2)) := rfl
  rw [hb]
  cases hg : alGet st.1 p.key with
  | none => left; rfl
  | some state =>
    right
    refine ⟨{ state with awayScore := st.2.1, homeScore := st.2.2 }, ?_⟩
    dsimp only
    by_cases hr : estimateRunsScoredOnPlay p > 0
    · rw [if_pos hr]
      cases inferBattingSide p with
      | none => rfl
      | some side => cases side <;> rfl
    · rw [if_neg hr]

/-- The backward fold never deletes a key from the states map. -/
theorem bwd_fold_ne_none (lr : List LivePlayEvent) (st : StatesMap × Option Int × Option Int)
    (k : Str) (h : alGet st.1 k ≠ none) :
    alGet (lr.foldl backwardStep st).1 k ≠ none := by
  induction lr generalizing st with
  | nil => exact h
  | cons p ps ih =>
    rw [List.foldl_cons]
    apply ih
    rcases backwardStep_fst st p with he | ⟨v, he⟩
    · rw [he]; exact h
    · rw [he]; exact alGet_update_ne_none _ _ _ _ h

/-- Claim C4: in the forward outs pass of deriveLivePlayStates, with pairwise
distinct play keys, the i-th play's recorded outsAfterPlay is: the next play's
outs clamped to [0, 3] when the next play is in the same half-inning with an
explicit outs count; 3 when the next play is not in the same half-inning;
otherwise the play's own explicit outs count plus the text-based estimate of
outs recorded on the play, clamped to [0, 3], and null when the play carries
no explicit outs count (the same rule applies to the final play, which has no
successor). -/
theorem claim_C4_forward_outs (plays : List LivePlayEvent) (summary : LiveSummary)
    (hnd : (plays.map (fun p => p.key)).Nodup) (i : Nat) (hi : i < plays.length) :
    ∃ st, alGet (deriveLivePlayStates plays summary) ((plays.get ⟨i, hi⟩).key) = some st ∧
      (∀ np, plays[i + 1]? = some np →
        (isSameHalfInning (plays.get ⟨i, hi⟩) np = true → np.outs.isSome = true →
          st.outsAfterPlay = some (clampOuts (np.outs.getD 0))) ∧
        (isSameHalfInning (plays.get ⟨i, hi⟩) np = false → st.outsAfterPlay = some 3) ∧
        (isSameHalfInning (plays.get ⟨i, hi⟩) np = true → np.outs = none →
          st.outsAfterPlay = (plays.get ⟨i, hi⟩).outs.map (fun o =>
            clampOuts (o + (estimateOutsRecordedOnPlay (plays.get ⟨i, hi⟩).text : Int))))) ∧
      (plays[i + 1]? = none →
        st.outsAfterPlay = (plays.get ⟨i, hi⟩).outs.map (fun o =>
          clampOuts (o + (estimateOutsRecordedOnPlay (plays.get ⟨i, hi⟩).text : Int)))) := by
  have hmem : plays.get ⟨i, hi⟩ ∈ plays := List.get_mem plays i hi
  have hinit := initStates_get_nodup plays summary hnd _ hmem
  have hne0 : alGet (initStates plays summary) (plays.get ⟨i, hi⟩).key ≠ none := by
    rw [hinit]; exact Option.some_ne_none _
  have hne : alGet ((plays.reverse).foldl backwardStep
      (initStates plays summary, summary.visitorScore, summary.homeScore)).1
      (plays.get ⟨i, hi⟩).key ≠ none :=
    bwd_fold_ne_none _ _ _ hne0
  obtain ⟨st1, hst1⟩ := Option.ne_none_iff_exists'.mp hne
  have hfwd := fwd_get_nodup plays
    ((plays.reverse).foldl backwardStep
      (initStates plays summary, summary.visitorScore, summary.homeScore)).1 i hi hnd
  rw [hst1] at hfwd
  refine ⟨{ st1 with outsAfterPlay := fwdOutsValue (plays.get ⟨i, hi⟩) plays[i + 1]? },
    hfwd, ?_, ?_⟩
  · intro np hnp
    refine ⟨?_, ?_, ?_⟩
    · intro h1 h2
      rw [List.get_eq_getElem] at h1
      simp [hnp, fwdOutsValue, h1, h2]
    · intro h1
      rw [List.get_eq_getElem] at h1
      simp [hnp, fwdOutsValue, h1]
    · intro h1 h2
      rw [List.get_eq_getElem] at h1
      cases ho : plays[i].outs <;>
        simp [hnp, fwdOutsValue, h1, h2, ho]
  · intro hnone
    cases ho : plays[i].outs <;>
      simp [hnone, fwdOutsValue, ho]

def c4Play1 : LivePlayEvent :=
{ key := str "ka", order := 1, inning := some 5, half := some Half.top,
  isSubstitution := false, text := str "Poe,Pat walked.", scoringDecision := none,
  batter := some (str "Poe,Pat"), pitcher := none, outs := some 1, sectionTitle := str "s" }

def c4Play2 : LivePlayEvent :=
{ key := str "kb", order := 2, inning := some 5, half := some Half.top,
  isSubstitution := false, text := str "Moe,Max singled.", scoringDecision := none,
  batter := some (str "Moe,Max"), pitcher := none, outs := some 4, sectionTitle := str "s" }

def c4Summary : LiveSummary :=
{ statusText := none, visitorTeam := str "A", homeTeam := str "B",
  visitorScore := some 0, homeScore := some 0, situation := none }

/-- Counterexample to C4 as stated: the next play is in the same half-inning
and carries the explicit outs count 4, yet the recorded outsAfterPlay is 3,
not that next play's outs — the source clamps the copied value into [0, 3]. -/
theorem claim_C4_counterexample :
    isSameHalfInning c4Play1 c4Play2 = true ∧ c4Play2.outs = some 4 ∧
    ∃ st, alGet (deriveLivePlayStates [c4Play1, c4Play2] c4Summary) (str "ka") = some st ∧
      st.outsAfterPlay = some 3 ∧ st.outsAfterPlay ≠ c4Play2.outs := by
  refine ⟨by decide, by decide, ⟨some 0, some 0, some 3⟩, by decide, by decide, by decide⟩

/-- Witness for C4: the amended per-play characterization evaluated on a
concrete two-play half-inning whose second play carries outs = 4. -/
theorem claim_C4_witness :
    ∃ st, alGet (deriveLivePlayStates [c4Play1, c4Play2] c4Summary)
        (([c4Play1, c4Play2].get ⟨0, by decide⟩).key) = some st ∧
      (∀ np, [c4Play1, c4Play2][0 + 1]? = some np →
        (isSameHalfInning ([c4Play1, c4Play2].get ⟨0, by decide⟩) np = true →
            np.outs.isSome = true →
          st.outsAfterPlay = some (clampOuts (np.outs.getD 0))) ∧
        (isSameHalfInning ([c4Play1, c4Play2].get ⟨0, by decide⟩) np = false →
          st.outsAfterPlay = some 3) ∧
        (isSameHalfInning ([c4Play1, c4Play2].get ⟨0, by decide⟩) np = true → np.outs = none →
          st.outsAfterPlay = ([c4Play1, c4Play2].get ⟨0, by decide⟩).outs.map (fun o =>
            clampOuts (o +
              (estimateOutsRecordedOnPlay ([c4Play1, c4Play2].get ⟨0, by decide⟩).text : Int))))) ∧
      ([c4Play1, c4Play2][0 + 1]? = none →
        st.outsAfterPlay = ([c4Play1, c4Play2].get ⟨0, by decide⟩).outs.map (fun o =>
          clampOuts (o +
            (estimateOutsRecordedOnPlay ([c4Play1, c4Play2].get ⟨0, by decide⟩).text : Int)))) :=
claim_C4_forward_outs [c4Play1, c4Play2] c4Summary (by decide) 0 (by decide)

/- ===== Claim C3: the backward score pass ===== -/

/-- The running-score update one backward step applies after recording a play
(the source subtracts the estimated run count from the batting side's total,
flooring at zero). -/
def scoreStep (p : LivePlayEvent) (s : Option Int × Option Int) : Option Int × Option Int :=
if estimateRunsScoredOnPlay p > 0 then
  match inferBattingSide p with
  | some TeamSide.away =>
    (s.1.map (fun a => max 0 (a - (estimateRunsScoredOnPlay p : Int))), s.2)
  | some TeamSide.home =>
    (s.1, s.2.map (fun h => max 0 (h - (estimateRunsScoredOnPlay p : Int))))
  | none => s
else s

/-- The running score after the backward walk has processed every play of the
given list (later plays are processed first, so the head's step is applied
last). -/
def scoreAfter : List LivePlayEvent → Option Int × Option Int → Option Int × Option Int
| [], s => s
| q :: l, s => scoreStep q (scoreAfter l s)

/-- Left-folding the step over a reversed list computes the backward walk. -/
theorem scoreAfter_eq_foldl (l : List LivePlayEvent) (s : Option Int × Option Int) :
    l.reverse.foldl (fun s q => scoreStep q s) s = scoreAfter l s := by
  induction l with
  | nil => rfl
  | cons q l ih =>
    rw [List.reverse_cons, List.foldl_append, ih]
    rfl

/-- Full equation for one backward step when the play's key is present: the
entry is overwritten with the current running scores and the running pair
advances by the score step. -/
theorem backwardStep_eq (st : StatesMap × Option Int × Option Int) (p : LivePlayEvent)
    (state : DerivedPlayState) (hg : alGet st.1 p.key = some state) :
    backwardStep st p =
      (alUpdate st.1 p.key { state with awayScore := st.2.1, homeScore := st.2.2 },
       scoreStep p st.2) := by
  have hb : backwardStep st p = (match alGet st.1 p.key with
    | none => (st.1, st.2.1, st.2.2)
    | some state =>
      let m2 := alUpdate st.1 p.key { state with awayScore := st.2.1, homeScore := st.2.2 }
      let runsScored := estimateRunsScoredOnPlay p
      if runsScored > 0 then
        match inferBattingSide p with
        | some TeamSide.away =>
          (m2, st.2.1.map (fun a => max 0 (a - (runsScored : Int))), st.2.2)
        | some TeamSide.home =>
          (m2, st.2.1, st.2.2.map (fun h => max 0 (h - (runsScored : Int))))
        | none => (m2, st.2.1, st.2.2)
      else (m2, st.2.1, st.2.2)) := rfl
  rw [hb, hg]
  dsimp only
  unfold scoreStep
  by_cases hr : estimateRunsScoredOnPlay p > 0
  · rw [if_pos hr, if_pos hr]
    cases inferBattingSide p with
    | none => rfl
    | some side => cases side <;> rfl
  · rw [if_neg hr, if_neg hr]

/-- The backward fold leaves entries untouched when no processed play carries
their key. -/
theorem bwd_fold_untouched (l : List LivePlayEvent) (st : StatesMap × Option Int × Option Int)
    (k : Str) (hk : ∀ q ∈ l, q.key ≠ k) :
    alGet (l.foldl backwardStep st).1 k = alGet st.1 k := by
  induction l generalizing st with
  | nil => rfl
  | cons q qs ih =>
    rw [List.foldl_cons, ih _ (fun r hr => hk r (List.mem_cons_of_mem q hr))]
    rcases backwardStep_fst st q with he | ⟨v, he⟩
    · rw [he]
    · rw [he, alGet_update_other _ _ _ _ (Ne.symm (hk q (List.mem_cons_self q qs)))]

/-- Positional characterization of the backward fold: the play at a fixed
position ends with the running scores reached after the plays folded before
it, provided every key is present and the keys are pairwise distinct. -/
theorem bwd_fold_get (pre : List LivePlayEvent) :
    ∀ (post : List LivePlayEvent) (p : LivePlayEvent) (m : StatesMap)
      (s : Option Int × Option Int),
      (∀ q ∈ pre ++ p :: post, alGet m q.key ≠ none) →
      (((pre ++ p :: post).map (fun q => q.key)).Nodup) →
      ∃ st, alGet (((pre ++ p :: post).foldl backwardStep (m, s.1, s.2))).1 p.key = some st ∧
        st.awayScore = (pre.foldl (fun s q => scoreStep q s) s).1 ∧
        st.homeScore = (pre.foldl (fun s q => scoreStep q s) s).2 := by
  induction pre with
  | nil =>
    intro post p m s hpres hnd
    obtain ⟨state, hstate⟩ :=
      Option.ne_none_iff_exists'.mp (hpres p (List.mem_cons_self p post))
    rw [List.nil_append] at hnd ⊢
    rw [List.foldl_cons, backwardStep_eq (m, s.1, s.2) p state hstate]
    have hk : ∀ q ∈ post, q.key ≠ p.key := by
      intro q hq hqe
      exact (List.nodup_cons.mp hnd).1 (List.mem_map.mpr ⟨q, hq, hqe⟩)
    refine ⟨{ state with awayScore := s.1, homeScore := s.2 }, ?_, rfl, rfl⟩
    rw [bwd_fold_untouched post _ p.key hk]
    exact alGet_update_self _ _ _
  | cons q pre ih =>
    intro post p m s hpres hnd
    obtain ⟨stq, hstq⟩ :=
      Option.ne_none_iff_exists'.mp (hpres q (List.mem_cons_self q (pre ++ p :: post)))
    rw [List.cons_append, List.foldl_cons, backwardStep_eq (m, s.1, s.2) q stq hstq]
    have hpres2 : ∀ r ∈ pre ++ p :: post,
        alGet (alUpdate m q.key { stq with awayScore := s.1, homeScore := s.2 }) r.key ≠ none := by
      intro r hr
      exact alGet_update_ne_none _ _ _ _ (hpres r (List.mem_cons_of_mem q hr))
    have hnd2 : ((pre ++ p :: post).map (fun r => r.key)).Nodup := by
      rw [List.cons_append, List.map_cons] at hnd
      exact (List.nodup_cons.mp hnd).2
    obtain ⟨st, hst, ha, hh⟩ := ih post p
      (alUpdate m q.key { stq with awayScore := s.1, homeScore := s.2 }) (scoreStep q s)
      hpres2 hnd2
    exact ⟨st, hst, ha, hh⟩

/-- Claim C3: with pairwise-distinct play keys, each play's recorded
(awayScore, homeScore) is the running score of the last-to-first walk that
starts from the live summary's current score and, after recording a play,
subtracts the estimated run count (largest of scored-mentions, RBI count from
text or scoring decision, and 1 for an otherwise unannotated home run) from
the batting side's total, flooring the result at zero; plays flagged as
substitutions never trigger a subtraction. -/
theorem claim_C3_backward_scores (summary : LiveSummary) (pre post : List LivePlayEvent)
    (p : LivePlayEvent) (hnd : ((pre ++ p :: post).map (fun q => q.key)).Nodup) :
    (∀ q s, q.isSubstitution = true → scoreStep q s = s) ∧
    ∃ st, alGet (deriveLivePlayStates (pre ++ p :: post) summary) p.key = some st ∧
      st.awayScore = (scoreAfter post (summary.visitorScore, summary.homeScore)).1 ∧
      st.homeScore = (scoreAfter post (summary.visitorScore, summary.homeScore)).2 := by
  constructor
  · intro q s hq
    have h0 : estimateRunsScoredOnPlay q = 0 := by
      unfold estimateRunsScoredOnPlay
      rw [hq]
      rfl
    unfold scoreStep
    rw [h0]
    rfl
  · have hrev : (pre ++ p :: post).reverse = post.reverse ++ p :: pre.reverse := by
      simp
    have hpres : ∀ q ∈ post.reverse ++ p :: pre.reverse,
        alGet (initStates (pre ++ p :: post) summary) q.key ≠ none := by
      intro q hq
      rw [← hrev] at hq
      rw [initStates_get_nodup (pre ++ p :: post) summary hnd q (List.mem_reverse.mp hq)]
      exact Option.some_ne_none _
    have hndr : ((post.reverse ++ p :: pre.reverse).map (fun q => q.key)).Nodup := by
      rw [← hrev, List.map_reverse]
      exact List.nodup_reverse.mpr hnd
    obtain ⟨st, hst, ha, hh⟩ := bwd_fold_get post.reverse pre.reverse p
      (initStates (pre ++ p :: post) summary)
      (summary.visitorScore, summary.homeScore) hpres hndr
    rw [← hrev] at hst
    rw [scoreAfter_eq_foldl post (summary.visitorScore, summary.homeScore)] at ha hh
    have hfs := fwd_scores (pre ++ p :: post)
      ((pre ++ p :: post).reverse.foldl backwardStep
        (initStates (pre ++ p :: post) summary, summary.visitorScore, summary.homeScore)).1
      p.key
    rw [hst] at hfs
    obtain ⟨st2, hst2, hproj⟩ := Option.map_eq_some'.mp hfs
    refine ⟨st2, hst2, ?_, ?_⟩
    · have := congrArg Prod.fst hproj
      simp only at this
      rw [this, ha]
    · have := congrArg Prod.snd hproj
      simp only at this
      rw [this, hh]

/-- The per-play run count exactly as claim C3 words it (scored mentions,
explicit digit-RBI counts from the text or the scoring decision, home-run
fallback of 1), for comparison with the source-derived estimate. -/
def claimedRunsScored (p : LivePlayEvent) : Nat :=
if p.isSubstitution then 0
else
  let text := cleanText p.text
  let scoredMentions := countWordPhrase (str "scored") (lowerStr text)
  let rbiFromText := (findRbiCountLF (lowerStr text)).getD 0
  let rbiFromDecision := match p.scoringDecision with
    | some d => (findRbiCountLF (lowerStr (cleanText d))).getD 0
    | none => 0
  let runs := max scoredMentions (max rbiFromText rbiFromDecision)
  if runs = 0 && (containsWordPhrase (str "homered") (lowerStr text) ||
      containsWordPhrase (str "home run") (lowerStr text)) then 1
  else runs

/-- The walk step exactly as claim C3 words it: the run count is subtracted
from the batting side's total with no floor at zero. -/
def claimedScoreStep (p : LivePlayEvent) (s : Option Int × Option Int) :
    Option Int × Option Int :=
if claimedRunsScored p > 0 then
  match inferBattingSide p with
  | some TeamSide.away => (s.1.map (fun a => a - (claimedRunsScored p : Int)), s.2)
  | some TeamSide.home => (s.1, s.2.map (fun h => h - (claimedRunsScored p : Int)))
  | none => s
else s

/-- The claimed last-to-first walk (later plays processed first). -/
def claimedScoreAfter : List LivePlayEvent → Option Int × Option Int → Option Int × Option Int
| [], s => s
| q :: l, s => claimedScoreStep q (claimedScoreAfter l s)

def c3Play1 : LivePlayEvent :=
{ key := str "ka3", order := 1, inning := some 2, half := some Half.top,
  isSubstitution := false, text := str "Poe,Pat popped up.", scoringDecision := none,
  batter := some (str "Poe,Pat"), pitcher := none, outs := some 1, sectionTitle := str "s" }

def c3Play2 : LivePlayEvent :=
{ key := str "kb3", order := 2, inning := some 2, half := some Half.top,
  isSubstitution := false, text := str "Roe,Rick homered.", scoringDecision := none,
  batter := some (str "Roe,Rick"), pitcher := none, outs := some 2, sectionTitle := str "s" }

def c3Summary : LiveSummary :=
{ statusText := none, visitorTeam := str "A", homeTeam := str "B",
  visitorScore := some 0, homeScore := some 2, situation := none }

/-- Counterexample to C3 as stated: with the away side at 0 and a later
home-run play, the claimed walk reaches away = -1 for the earlier play while
the source records away = 0 — the subtraction is floored at zero. -/
theorem claim_C3_counterexample :
    (claimedScoreAfter [c3Play2] (c3Summary.visitorScore, c3Summary.homeScore)).1 = some (-1) ∧
    ∃ st, alGet (deriveLivePlayStates [c3Play1, c3Play2] c3Summary) (str "ka3") = some st ∧
      st.awayScore = some 0 ∧
      st.awayScore ≠
        (claimedScoreAfter [c3Play2] (c3Summary.visitorScore, c3Summary.homeScore)).1 := by
  refine ⟨by decide, ⟨some 0, some 2, some 2⟩, by decide, by decide, by decide⟩

/-- Witness for C3: the amended walk characterization evaluated on a concrete
two-play top-half stream whose later play homers with the away side at 0. -/
theorem claim_C3_witness :
    (∀ q s, q.isSubstitution = true → scoreStep q s = s) ∧
    ∃ st, alGet (deriveLivePlayStates ([] ++ c3Play1 :: [c3Play2]) c3Summary)
        c3Play1.key = some st ∧
      st.awayScore = (scoreAfter [c3Play2] (c3Summary.visitorScore, c3Summary.homeScore)).1 ∧
      st.homeScore = (scoreAfter [c3Play2] (c3Summary.visitorScore, c3Summary.homeScore)).2 :=
claim_C3_backward_scores c3Summary [] [c3Play2] c3Play1 (by decide)

/- ===== Claim C5: key determinism and uniqueness ===== -/

/-- The string the key digest is computed from: the normalized signature, a
pipe, and the decimal occurrence counter. -/
def encodePlaySignature (e : Str × Nat) : Str := e.1 ++ bar :: natToChars e.2

theorem digitChar_inj_lt : ∀ d1 < 10, ∀ d2 < 10, Nat.digitChar d1 = Nat.digitChar d2 →
    d1 = d2 := by decide

theorem digits_map_digitChar_inj (l1 : List Nat) :
    ∀ l2 : List Nat, (∀ x ∈ l1, x < 10) → (∀ x ∈ l2, x < 10) →
      l1.map Nat.digitChar = l2.map Nat.digitChar → l1 = l2 := by
  induction l1 with
  | nil =>
    intro l2 _ _ h
    cases l2 with
    | nil => rfl
    | cons b t => simp at h
  | cons a t1 ih =>
    intro l2 h1 h2 h
    cases l2 with
    | nil => simp at h
    | cons b t2 =>
      simp only [List.map_cons, List.cons.injEq] at h
      have ha := digitChar_inj_lt a (h1 a (List.mem_cons_self a t1))
        b (h2 b (List.mem_cons_self b t2)) h.1
      rw [ha, ih t2 (fun x hx => h1 x (List.mem_cons_of_mem a hx))
        (fun x hx => h2 x (List.mem_cons_of_mem b hx)) h.2]

theorem natToChars_inj : Function.Injective natToChars := by
  intro m n h
  unfold natToChars at h
  have hlt1 : ∀ x ∈ Nat.digits 10 m, x < 10 :=
    fun x hx => Nat.digits_lt_base (by norm_num) hx
  have hlt2 : ∀ x ∈ Nat.digits 10 n, x < 10 :=
    fun x hx => Nat.digits_lt_base (by norm_num) hx
  by_cases hm : m = 0 <;> by_cases hn : n = 0
  · rw [hm, hn]
  · exfalso
    rw [if_pos hm, if_neg hn] at h
    have h2 : (Nat.digits 10 n).map Nat.digitChar = ['0'] := by
      have h3 := congrArg List.reverse h
      simpa using h3.symm
    have h3 : Nat.digits 10 n = [0] :=
      digits_map_digitChar_inj _ [0] hlt2 (by decide) (by rw [h2]; rfl)
    have h4 := congrArg (Nat.ofDigits 10) h3
    rw [Nat.ofDigits_digits] at h4
    simp [Nat.ofDigits] at h4
    exact hn h4
  · exfalso
    rw [if_neg hm, if_pos hn] at h
    have h2 : (Nat.digits 10 m).map Nat.digitChar = ['0'] := by
      have h3 := congrArg List.reverse h
      simpa using h3
    have h3 : Nat.digits 10 m = [0] :=
      digits_map_digitChar_inj _ [0] hlt1 (by decide) (by rw [h2]; rfl)
    have h4 := congrArg (Nat.ofDigits 10) h3
    rw [Nat.ofDigits_digits] at h4
    simp [Nat.ofDigits] at h4
    exact hm h4
  · rw [if_neg hm, if_neg hn] at h
    have h2 : (Nat.digits 10 m).map Nat.digitChar = (Nat.digits 10 n).map Nat.digitChar := by
      have h3 := congrArg List.reverse h
      simpa using h3
    have h3 := digits_map_digitChar_inj _ _ hlt1 hlt2 h2
    have h4 := congrArg (Nat.ofDigits 10) h3
    rwa [Nat.ofDigits_digits, Nat.ofDigits_digits] at h4

theorem natToChars_no_bar (n : Nat) : ∀ c ∈ natToChars n, c ≠ bar := by
  intro c hc
  unfold natToChars at hc
  by_cases hn : n = 0
  · rw [if_pos hn] at hc
    simp at hc
    rw [hc]
    decide
  · rw [if_neg hn] at hc
    rw [List.mem_reverse] at hc
    obtain ⟨d, hd, hdc⟩ := List.mem_map.mp hc
    have hlt : d < 10 := Nat.digits_lt_base (by norm_num) hd
    have hall : ∀ d < 10, Nat.digitChar d ≠ bar := by decide
    rw [← hdc]
    exact hall d hlt

/-- A pipe-delimited suffix is located unambiguously when the leading part is
pipe-free. -/
theorem barfree_prefix_unique (u : List Char) :
    ∀ (v a b : List Char), (∀ c ∈ u, c ≠ bar) → (∀ c ∈ v, c ≠ bar) →
      u ++ bar :: a = v ++ bar :: b → u = v ∧ a = b := by
  induction u with
  | nil =>
    intro v a b _ hv h
    cases v with
    | nil =>
      rw [List.nil_append, List.nil_append] at h
      injection h with _ h2
      exact ⟨rfl, h2⟩
    | cons c t =>
      rw [List.nil_append, List.cons_append] at h
      injection h with h1 _
      exact absurd h1.symm (hv c (List.mem_cons_self c t))
  | cons c t ih =>
    intro v a b hu hv h
    cases v with
    | nil =>
      rw [List.cons_append, List.nil_append] at h
      injection h with h1 _
      exact absurd h1 (hu c (List.mem_cons_self c t))
    | cons d s =>
      rw [List.cons_append, List.cons_append] at h
      injection h with h1 h2
      obtain ⟨hts, hab⟩ := ih s a b (fun x hx => hu x (List.mem_cons_of_mem c hx))
        (fun x hx => hv x (List.mem_cons_of_mem d hx)) h2
      exact ⟨by rw [h1, hts], hab⟩

/-- The last pipe of the encoded string splits it back into signature and
counter, because the counter digits are pipe-free. -/
theorem encode_last_bar (a b x y : List Char)
    (hx : ∀ c ∈ x, c ≠ bar) (hy : ∀ c ∈ y, c ≠ bar)
    (h : a ++ bar :: x = b ++ bar :: y) : a = b ∧ x = y := by
  have hr := congrArg List.reverse h
  rw [List.reverse_append, List.reverse_append, List.reverse_cons, List.reverse_cons,
    List.append_assoc, List.append_assoc, List.singleton_append, List.singleton_append] at hr
  obtain ⟨h1, h2⟩ := barfree_prefix_unique x.reverse y.reverse a.reverse b.reverse
    (fun c hc => hx c (List.mem_reverse.mp hc))
    (fun c hc => hy c (List.mem_reverse.mp hc)) hr
  exact ⟨List.reverse_injective h2, List.reverse_injective h1⟩

theorem encodePlaySignature_inj : Function.Injective encodePlaySignature := by
  intro e1 e2 h
  obtain ⟨h1, h2⟩ := encode_last_bar e1.1 e2.1 (natToChars e1.2) (natToChars e2.2)
    (natToChars_no_bar e1.2) (natToChars_no_bar e2.2) h
  exact Prod.ext h1 (natToChars_inj h2)

/-- Invariant of the extraction fold: the ghost (signature, occurrence) pairs
are pairwise distinct, each occurrence is bounded by the counter map, and
every emitted key is the digest of its encoded pair. -/
def extractInv (digest : Str → Str) (s : ExtractState) : Prop :=
(s.acc.map (fun e => e.1)).Nodup ∧
(∀ e ∈ s.acc, ∃ c, alGet s.occ e.1.1 = some c ∧ e.1.2 ≤ c) ∧
(∀ e ∈ s.acc, e.2.key = digest (encodePlaySignature e.1))

theorem extractInv_push (digest : Str → Str) (s : ExtractState) (sig : Str)
    (ev : LivePlayEvent) (currentOrder : Nat) (h : extractInv digest s)
    (hkey : ev.key = digest (encodePlaySignature (sig, (alGet s.occ sig).getD 0 + 1))) :
    extractInv digest
      ⟨alUpdate s.occ sig ((alGet s.occ sig).getD 0 + 1), currentOrder,
        s.acc ++ [((sig, (alGet s.occ sig).getD 0 + 1), ev)]⟩ := by
  obtain ⟨hnd, hbound, hkeys⟩ := h
  refine ⟨?_, ?_, ?_⟩
  · rw [List.map_append]
    refine List.Nodup.append hnd (List.nodup_singleton _) ?_
    intro pr hpr hpr2
    simp only [List.map_cons, List.map_nil, List.mem_singleton] at hpr2
    subst hpr2
    obtain ⟨e, he, hefst⟩ := List.mem_map.mp hpr
    obtain ⟨c, hc, hle⟩ := hbound e he
    have hsig : e.1.1 = sig := by rw [hefst]
    have hocc : e.1.2 = (alGet s.occ sig).getD 0 + 1 := by rw [hefst]
    rw [hsig] at hc
    rw [hc] at hocc
    simp at hocc
    rw [hocc] at hle
    exact absurd hle (Nat.not_succ_le_self c)
  · intro e he
    rcases List.mem_append.mp he with hold | hnew
    · obtain ⟨c, hc, hle⟩ := hbound e hold
      by_cases hsig : e.1.1 = sig
      · rw [hsig] at hc ⊢
        rw [alGet_update_self]
        refine ⟨(alGet s.occ sig).getD 0 + 1, rfl, ?_⟩
        rw [hc]
        exact Nat.le_succ_of_le hle
      · rw [alGet_update_other s.occ sig e.1.1 _ hsig]
        exact ⟨c, hc, hle⟩
    · rw [List.mem_singleton] at hnew
      subst hnew
      exact ⟨(alGet s.occ sig).getD 0 + 1, alGet_update_self _ _ _, le_refl _⟩
  · intro e he
    rcases List.mem_append.mp he with hold | hnew
    · exact hkeys e hold
    · rw [List.mem_singleton] at hnew
      subst hnew
      exact hkey

theorem processPlayRow_inv (digest : Str → Str) (sectionTitle : Str)
    (inningFromTitle : Option Int) (table : StatsTable)
    (st : ExtractState × Option Half) (row : StatsTableRow)
    (h : extractInv digest st.1) :
    extractInv digest (processPlayRow digest sectionTitle inningFromTitle table st row).1 := by
  unfold processPlayRow
  dsimp only
  cases hpr : parsePlayRow table row with
  | none => exact h
  | some pr =>
    cases pr with
    | halfRow hh => exact h
    | playRow pInning pHalf text isSub sd batter pitcher outs =>
      exact extractInv_push digest st.1 _ _ _ h rfl

theorem processTable_inv (digest : Str → Str) (sectionTitle : Str)
    (inningFromTitle : Option Int) (s : ExtractState) (table : StatsTable)
    (h : extractInv digest s) :
    extractInv digest (processTable digest sectionTitle inningFromTitle s table) := by
  unfold processTable
  exact foldl_inv (fun st => extractInv digest st.1)
    (processPlayRow digest sectionTitle inningFromTitle table) table.rows (s, none) h
    (fun st row _ hs => processPlayRow_inv digest sectionTitle inningFromTitle table st row hs)

theorem processSection_inv (digest : Str → Str) (s : ExtractState) (sec : StatsSection)
    (h : extractInv digest s) : extractInv digest (processSection digest s sec) := by
  unfold processSection
  by_cases hc : containsLitCI (str "play-by-play") sec.title
  · rw [if_pos hc]
    exact foldl_inv (extractInv digest)
      (processTable digest sec.title (parseInningFromTitle sec.title)) sec.tables s h
      (fun s2 t _ hs => processTable_inv digest sec.title (parseInningFromTitle sec.title) s2 t hs)
  · rw [if_neg hc]
    exact h

theorem extract_inv (digest : Str → Str) (liveStats : LiveStats) :
    extractInv digest (extractLivePlayEventsAux digest liveStats) := by
  unfold extractLivePlayEventsAux
  exact foldl_inv (extractInv digest) (processSection digest) liveStats.sections ⟨[], 0, []⟩
    ⟨List.nodup_nil, fun e he => absurd he (List.not_mem_nil e), fun e he =>
      absurd he (List.not_mem_nil e)⟩
    (fun s sec _ hs => processSection_inv digest s sec hs)

/-- Claim C5: play keys are deterministic and pairwise distinct. The extractor
is a pure function of the stats payload — re-extracting an unchanged payload
reproduces the ordered key sequence — and, for an injective digest, no two
emitted events share a key: every key hashes the row's normalized signature
together with a per-signature occurrence counter, so duplicate-signature rows
get distinct counters and distinct-signature rows get distinct encodings. -/
theorem claim_C5_key_uniqueness (digest : Str → Str) (hinj : Function.Injective digest)
    (liveStats : LiveStats) :
    ((extractLivePlayEvents digest liveStats).map (fun e => e.key)).Nodup ∧
    ∀ liveStats2, liveStats2 = liveStats →
      (extractLivePlayEvents digest liveStats2).map (fun e => e.key) =
        (extractLivePlayEvents digest liveStats).map (fun e => e.key) := by
  obtain ⟨hnd, _, hkeys⟩ := extract_inv digest liveStats
  constructor
  · have hmap : (extractLivePlayEvents digest liveStats).map (fun e => e.key) =
        ((extractLivePlayEventsAux digest liveStats).acc.map (fun e => e.1)).map
          (fun pr => digest (encodePlaySignature pr)) := by
      unfold extractLivePlayEvents
      rw [List.map_map, List.map_map]
      exact List.map_congr_left (fun e he => hkeys e he)
    rw [hmap]
    exact hnd.map (Function.Injective.comp hinj encodePlaySignature_inj)
  · intro liveStats2 heq
    rw [heq]

def c5Stats : LiveStats :=
{ sections := [
  { title := str "Play-by-Play 1st Inning"
    tables := [
      { headers := [str "Play"]
        rows := [
          { cells := [Cell.str (str "Doe,John singled to left field.")] },
          { cells := [Cell.str (str "Doe,John singled to left field.")] } ] } ] } ] }

/-- Witness for C5: two byte-identical play rows in one section still receive
pairwise distinct keys under the identity digest, and re-extraction is
reproducible. -/
theorem claim_C5_witness :
    (extractLivePlayEvents (fun s => s) c5Stats).length = 2 ∧
    (((extractLivePlayEvents (fun s => s) c5Stats).map (fun e => e.key)).Nodup ∧
    ∀ liveStats2, liveStats2 = c5Stats →
      (extractLivePlayEvents (fun s => s) liveStats2).map (fun e => e.key) =
        (extractLivePlayEvents (fun s => s) c5Stats).map (fun e => e.key)) :=
⟨by decide, claim_C5_key_uniqueness (fun s => s) (fun a b hab => hab) c5Stats⟩

/- ===== Claim C7: the player registry ===== -/

/-- The jersey-union step of register (adds an unseen jersey number). -/
def addJersey (e : BaseballPlayer) (jersey : Option Int) : BaseballPlayer :=
match jersey with
| some j =>
  if !e.jerseyNumbers.contains j then { e with jerseyNumbers := e.jerseyNumbers ++ [j] }
  else e
| none => e

/-- The position-union step of register (adds an unseen non-empty position). -/
def addPosition (e1 : BaseballPlayer) (position : Option Str) : BaseballPlayer :=
match position with
| some p =>
  if !p.isEmpty && !e1.positions.contains p then { e1 with positions := e1.positions ++ [p] }
  else e1
| none => e1

/-- The side-union step of register. -/
def addSide (e2 : BaseballPlayer) (side : TeamSide) : BaseballPlayer :=
if !e2.sides.contains side then { e2 with sides := e2.sides ++ [side] } else e2

/-- The base identifier register builds for a fresh player:
side:jerseyOrNA:slug(displayName). -/
def baseIdFor (side : TeamSide) (name : Str) (jersey : Option Int) : Str :=
sideToChars side ++ ':' ::
  ((match jersey with | none => str "na" | some j => intToChars j) ++ ':' ::
    slugForId ((normalizePlayerDisplayName (some name)).getD name))

/-- The record register creates for a fresh player. -/
def freshPlayer (side : TeamSide) (name : Str) (jersey : Option Int) (position : Option Str)
    (playerId : Str) : BaseballPlayer :=
{ playerId := playerId
  name := (normalizePlayerDisplayName (some name)).getD name
  normalizedName := normalizeName (some name)
  sides := [side]
  jerseyNumbers := match jersey with | none => [] | some j => [j]
  positions := match position with | some p => if p.isEmpty then [] else [p] | none => [] }

/-- Branch equation for register. -/
theorem registerPlayer_eq (reg : Registry) (side : TeamSide) (name : Str) (jersey : Option Int)
    (position : Option Str) :
    registerPlayer reg side name jersey position =
      (match alGet reg.idBySideAndName (sideNameKey side (normalizeName (some name))) with
       | some existingByName =>
         (match alGet reg.playersById existingByName with
          | some existing =>
            (existingByName,
              { reg with playersById := (alUpdate reg.playersById existingByName
                  (addSide (addPosition (addJersey existing jersey) position) side)) })
          | none => (existingByName, reg))
       | none =>
         (uniqueId (baseIdFor side name jersey) reg.playersById,
          { playersById := (alUpdate reg.playersById
              (uniqueId (baseIdFor side name jersey) reg.playersById)
              (freshPlayer side name jersey position
                (uniqueId (baseIdFor side name jersey) reg.playersById)))
            idBySideAndName := (alUpdate reg.idBySideAndName
              (sideNameKey side (normalizeName (some name)))
              (uniqueId (baseIdFor side name jersey) reg.playersById)) })) := rfl

theorem alGet_none_of_hasKey_false {β : Type} (m : List (Str × β)) (k : Str)
    (h : hasKey m k = false) : alGet m k = none := by
  induction m with
  | nil => rfl
  | cons e rest ih =>
    rw [hasKey, List.any_cons, Bool.or_eq_false_iff] at h
    rw [alGet_cons, if_neg (of_decide_eq_false h.1)]
    exact ih h.2

theorem hasKey_true_iff_mem {β : Type} (m : List (Str × β)) (k : Str) :
    hasKey m k = true ↔ k ∈ m.map (fun e => e.1) := by
  unfold hasKey
  rw [List.any_eq_true]
  constructor
  · rintro ⟨e, he, hek⟩
    exact List.mem_map.mpr ⟨e, he, of_decide_eq_true hek⟩
  · intro hm
    obtain ⟨e, he, hek⟩ := List.mem_map.mp hm
    exact ⟨e, he, decide_eq_true hek⟩

theorem mkSuffixId_inj (baseId : Str) : Function.Injective (mkSuffixId baseId) := by
  intro i j h
  unfold mkSuffixId at h
  have h2 := List.append_cancel_left h
  injection h2 with _ h3
  exact natToChars_inj h3

/-- The suffix scan returns the first free candidate if one exists within the
fuel window. -/
theorem uniqueIdAux_fresh {β : Type} (m : List (Str × β)) (baseId : Str) :
    ∀ (fuel i : Nat), (∃ j, i ≤ j ∧ j < i + fuel ∧ hasKey m (mkSuffixId baseId j) = false) →
      hasKey m (uniqueIdAux m baseId fuel i) = false := by
  intro fuel
  induction fuel with
  | zero =>
    rintro i ⟨j, hij, hlt, _⟩
    exact absurd hlt (by omega)
  | succ fuel ih =>
    rintro i ⟨j, hij, hlt, hfree⟩
    unfold uniqueIdAux
    by_cases hc : hasKey m (mkSuffixId baseId i) = true
    · rw [if_pos hc]
      apply ih
      refine ⟨j, ?_, by omega, hfree⟩
      rcases Nat.eq_or_lt_of_le hij with rfl | hlt2
      · rw [hc] at hfree
        exact absurd hfree (by simp)
      · omega
    · rw [if_neg hc]
      cases hb : hasKey m (mkSuffixId baseId i) with
      | false => rfl
      | true => exact absurd hb hc

/-- Pigeonhole over the candidate window: among m.length + 1 distinct suffix
candidates at least one is absent from a map of m.length entries. -/
theorem candidates_pigeonhole {β : Type} (m : List (Str × β)) (baseId : Str) :
    ∃ j, 2 ≤ j ∧ j < 2 + (m.length + 1) ∧ hasKey m (mkSuffixId baseId j) = false := by
  by_contra hno
  push_neg at hno
  have hsub : ((List.range (m.length + 1)).map (fun t => mkSuffixId baseId (2 + t))) ⊆
      m.map (fun e => e.1) := by
    intro c hc
    obtain ⟨t, ht, rfl⟩ := List.mem_map.mp hc
    rw [List.mem_range] at ht
    have h2 := hno (2 + t) (by omega) (by omega)
    have h3 : hasKey m (mkSuffixId baseId (2 + t)) = true := by
      cases hb : hasKey m (mkSuffixId baseId (2 + t)) with
      | false => exact absurd hb h2
      | true => rfl
    exact (hasKey_true_iff_mem m _).mp h3
  have hnd : ((List.range (m.length + 1)).map (fun t => mkSuffixId baseId (2 + t))).Nodup := by
    refine List.Nodup.map ?_ (List.nodup_range _)
    intro a b hab
    have := mkSuffixId_inj baseId hab
    omega
  have hlen := (List.subperm_of_subset hnd hsub).length_le
  simp at hlen

/-- uniqueId never returns a key already present in the map. -/
theorem uniqueId_fresh {β : Type} (baseId : Str) (m : List (Str × β)) :
    hasKey m (uniqueId baseId m) = false := by
  unfold uniqueId
  by_cases hb : hasKey m baseId = true
  · rw [hb]
    simp only [Bool.not_true]
    rw [if_neg (by simp)]
    obtain ⟨j, hj2, hjlt, hfree⟩ := candidates_pigeonhole m baseId
    exact uniqueIdAux_fresh m baseId (m.length + 1) 2 ⟨j, hj2, hjlt, hfree⟩
  · have hb2 : hasKey m baseId = false := by
      cases hbb : hasKey m baseId with
      | false => rfl
      | true => exact absurd hbb hb
    rw [hb2]
    simp only [Bool.not_false, if_true]
    exact hb2

theorem uniqueIdAux_shape {β : Type} (m : List (Str × β)) (baseId : Str) :
    ∀ (fuel i : Nat), ∃ j, i ≤ j ∧ uniqueIdAux m baseId fuel i = mkSuffixId baseId j := by
  intro fuel
  induction fuel with
  | zero => exact fun i => ⟨i, le_refl i, rfl⟩
  | succ fuel ih =>
    intro i
    unfold uniqueIdAux
    by_cases hc : hasKey m (mkSuffixId baseId i) = true
    · rw [if_pos hc]
      obtain ⟨j, hij, hj⟩ := ih (i + 1)
      exact ⟨j, by omega, hj⟩
    · rw [if_neg hc]
      exact ⟨i, le_refl i, rfl⟩

/-- uniqueId returns the base id, or the base id with a numeric suffix of at
least 2. -/
theorem uniqueId_shape {β : Type} (baseId : Str) (m : List (Str × β)) :
    uniqueId baseId m = baseId ∨ ∃ n, 2 ≤ n ∧ uniqueId baseId m = mkSuffixId baseId n := by
  unfold uniqueId
  by_cases hb : hasKey m baseId = true
  · rw [hb]
    simp only [Bool.not_true]
    rw [if_neg (by simp)]
    obtain ⟨j, hj2, hj⟩ := uniqueIdAux_shape m baseId (m.length + 1) 2
    exact Or.inr ⟨j, hj2, hj⟩
  · have hb2 : hasKey m baseId = false := by
      cases hbb : hasKey m baseId with
      | false => rfl
      | true => exact absurd hbb hb
    rw [hb2]
    simp only [Bool.not_false, if_true]
    exact Or.inl (by trivial)

structure RegCall where
  side : TeamSide
  name : Str
  jersey : Option Int
  position : Option Str

/-- A sequence of register calls threaded through the registry. -/
def applyCalls (reg : Registry) : List RegCall → Registry
| [] => reg
| c :: rest => applyCalls (registerPlayer reg c.side c.name c.jersey c.position).2 rest

/-- register never changes an existing side+name binding. -/
theorem register_idmap_preserved (r : Registry) (s : TeamSide) (nm : Str) (j : Option Int)
    (p : Option Str) (k : Str) (v : Str) (h : alGet r.idBySideAndName k = some v) :
    alGet ((registerPlayer r s nm j p).2).idBySideAndName k = some v := by
  rw [registerPlayer_eq]
  cases hk : alGet r.idBySideAndName (sideNameKey s (normalizeName (some nm))) with
  | some id0 =>
    dsimp only
    cases hp : alGet r.playersById id0 <;> exact h
  | none =>
    dsimp only
    have hne : k ≠ sideNameKey s (normalizeName (some nm)) := by
      intro he
      rw [he, hk] at h
      exact Option.noConfusion h
    rw [alGet_update_other _ _ _ _ hne]
    exact h

/-- When the side+name key is bound, register returns the bound id. -/
theorem register_id_of_found (r : Registry) (s : TeamSide) (nm : Str) (j : Option Int)
    (p : Option Str) (id0 : Str)
    (hk : alGet r.idBySideAndName (sideNameKey s (normalizeName (some nm))) = some id0) :
    (registerPlayer r s nm j p).1 = id0 := by
  rw [registerPlayer_eq, hk]
  dsimp only
  cases alGet r.playersById id0 <;> rfl

/-- After any register call, the call's side+name key is bound to the id the
call returned. -/
theorem register_key_set (r : Registry) (s : TeamSide) (nm : Str) (j : Option Int)
    (p : Option Str) :
    alGet ((registerPlayer r s nm j p).2).idBySideAndName
      (sideNameKey s (normalizeName (some nm))) = some ((registerPlayer r s nm j p).1) := by
  rw [registerPlayer_eq]
  cases hk : alGet r.idBySideAndName (sideNameKey s (normalizeName (some nm))) with
  | some id0 =>
    dsimp only
    cases hp : alGet r.playersById id0 <;> exact hk
  | none =>
    dsimp only
    exact alGet_update_self _ _ _

theorem applyCalls_idmap_preserved (cs : List RegCall) :
    ∀ (r : Registry) (k : Str) (v : Str), alGet r.idBySideAndName k = some v →
      alGet (applyCalls r cs).idBySideAndName k = some v := by
  induction cs with
  | nil => exact fun r k v h => h
  | cons c rest ih =>
    intro r k v h
    exact ih _ k v (register_idmap_preserved r c.side c.name c.jersey c.position k v h)

theorem addJersey_jerseys (e : BaseballPlayer) (j : Option Int) :
    e.jerseyNumbers.Sublist (addJersey e j).jerseyNumbers ∧
    (addJersey e j).sides = e.sides ∧ (addJersey e j).positions = e.positions := by
  unfold addJersey
  cases j with
  | none => exact ⟨List.Sublist.refl _, rfl, rfl⟩
  | some jj =>
    dsimp only
    by_cases hc : !e.jerseyNumbers.contains jj
    · rw [if_pos hc]
      exact ⟨List.sublist_append_left _ _, rfl, rfl⟩
    · rw [if_neg hc]
      exact ⟨List.Sublist.refl _, rfl, rfl⟩

theorem addPosition_positions (e : BaseballPlayer) (p : Option Str) :
    e.positions.Sublist (addPosition e p).positions ∧
    (addPosition e p).sides = e.sides ∧ (addPosition e p).jerseyNumbers = e.jerseyNumbers := by
  unfold addPosition
  cases p with
  | none => exact ⟨List.Sublist.refl _, rfl, rfl⟩
  | some pp =>
    dsimp only
    by_cases hc : !pp.isEmpty && !e.positions.contains pp
    · rw [if_pos hc]
      exact ⟨List.sublist_append_left _ _, rfl, rfl⟩
    · rw [if_neg hc]
      exact ⟨List.Sublist.refl _, rfl, rfl⟩

theorem addSide_sides (e : BaseballPlayer) (s : TeamSide) :
    e.sides.Sublist (addSide e s).sides ∧
    (addSide e s).positions = e.positions ∧ (addSide e s).jerseyNumbers = e.jerseyNumbers := by
  unfold addSide
  by_cases hc : !e.sides.contains s
  · rw [if_pos hc]
    exact ⟨List.sublist_append_left _ _, rfl, rfl⟩
  · rw [if_neg hc]
    exact ⟨List.Sublist.refl _, rfl, rfl⟩

/-- The union chain only extends the three membership lists. -/
theorem unionChain_sublists (e : BaseballPlayer) (s : TeamSide) (j : Option Int)
    (p : Option Str) :
    e.sides.Sublist (addSide (addPosition (addJersey e j) p) s).sides ∧
    e.jerseyNumbers.Sublist (addSide (addPosition (addJersey e j) p) s).jerseyNumbers ∧
    e.positions.Sublist (addSide (addPosition (addJersey e j) p) s).positions := by
  obtain ⟨hj1, hj2, hj3⟩ := addJersey_jerseys e j
  obtain ⟨hp1, hp2, hp3⟩ := addPosition_positions (addJersey e j) p
  obtain ⟨hs1, hs2, hs3⟩ := addSide_sides (addPosition (addJersey e j) p) s
  refine ⟨?_, ?_, ?_⟩
  · rw [hp2, hj2] at hs1
    exact hs1
  · rw [hs3, hp3]
    exact hj1
  · rw [hs2]
    rw [hj3] at hp1
    exact hp1

theorem alUpdate_length_of_found {β : Type} (m : List (Str × β)) (k : Str) (v w : β)
    (h : alGet m k = some v) : (alUpdate m k w).length = m.length := by
  induction m with
  | nil =>
    rw [alGet_nil] at h
    exact Option.noConfusion h
  | cons e rest ih =>
    rw [alGet_cons] at h
    by_cases he : e.1 = k
    · simp only [alUpdate, if_pos he, List.length_cons]
    · rw [if_neg he] at h
      simp only [alUpdate, if_neg he, List.length_cons, ih h]

theorem addJersey_mem (e : BaseballPlayer) (jj : Int) :
    jj ∈ (addJersey e (some jj)).jerseyNumbers := by
  unfold addJersey
  dsimp only
  by_cases hc : !e.jerseyNumbers.contains jj
  · rw [if_pos hc]
    exact List.mem_append_right _ (by simp)
  · rw [if_neg hc]
    have hcon : e.jerseyNumbers.contains jj = true := by
      cases hb : e.jerseyNumbers.contains jj with
      | false => exact absurd (by rw [hb]; rfl) hc
      | true => rfl
    exact List.mem_of_elem_eq_true hcon

theorem addPosition_mem (e : BaseballPlayer) (pp : Str) (hne : pp.isEmpty = false) :
    pp ∈ (addPosition e (some pp)).positions := by
  unfold addPosition
  dsimp only
  by_cases hc : !pp.isEmpty && !e.positions.contains pp
  · rw [if_pos hc]
    exact List.mem_append_right _ (by simp)
  · rw [if_neg hc]
    have hcon : e.positions.contains pp = true := by
      cases hb : e.positions.contains pp with
      | false => exact absurd (by rw [hne, hb]; rfl) hc
      | true => rfl
    exact List.mem_of_elem_eq_true hcon

theorem unionChain_jersey_mem (e : BaseballPlayer) (s : TeamSide) (jj : Int)
    (p : Option Str) :
    jj ∈ (addSide (addPosition (addJersey e (some jj)) p) s).jerseyNumbers := by
  obtain ⟨_, _, hp3⟩ := addPosition_positions (addJersey e (some jj)) p
  obtain ⟨_, _, hs3⟩ := addSide_sides (addPosition (addJersey e (some jj)) p) s
  rw [hs3, hp3]
  exact addJersey_mem e jj

theorem unionChain_position_mem (e : BaseballPlayer) (s : TeamSide) (j : Option Int)
    (pp : Str) (hne : pp.isEmpty = false) :
    pp ∈ (addSide (addPosition (addJersey e j) (some pp)) s).positions := by
  obtain ⟨_, hs2, _⟩ := addSide_sides (addPosition (addJersey e j) (some pp)) s
  rw [hs2]
  exact addPosition_mem (addJersey e j) pp hne

/-- A register call can only extend any existing player's three membership
lists. -/
theorem register_growth (r : Registry) (s : TeamSide) (nm : Str) (j : Option Int)
    (p : Option Str) (id : Str) (pl : BaseballPlayer)
    (h : alGet r.playersById id = some pl) :
    ∃ pl2, alGet ((registerPlayer r s nm j p).2).playersById id = some pl2 ∧
      pl.sides.Sublist pl2.sides ∧ pl.jerseyNumbers.Sublist pl2.jerseyNumbers ∧
      pl.positions.Sublist pl2.positions := by
  rw [registerPlayer_eq]
  cases hk : alGet r.idBySideAndName (sideNameKey s (normalizeName (some nm))) with
  | some id0 =>
    dsimp only
    cases hp : alGet r.playersById id0 with
    | none => exact ⟨pl, h, List.Sublist.refl _, List.Sublist.refl _, List.Sublist.refl _⟩
    | some existing =>
      dsimp only
      by_cases hid : id = id0
      · subst hid
        rw [alGet_update_self]
        rw [h] at hp
        injection hp with hpe
        subst hpe
        obtain ⟨h1, h2, h3⟩ := unionChain_sublists pl s j p
        exact ⟨_, rfl, h1, h2, h3⟩
      · rw [alGet_update_other _ _ _ _ hid]
        exact ⟨pl, h, List.Sublist.refl _, List.Sublist.refl _, List.Sublist.refl _⟩
  | none =>
    dsimp only
    have hfresh := uniqueId_fresh (baseIdFor s nm j) r.playersById
    have hid : id ≠ uniqueId (baseIdFor s nm j) r.playersById := by
      intro he
      rw [he, alGet_none_of_hasKey_false _ _ hfresh] at h
      exact Option.noConfusion h
    rw [alGet_update_other _ _ _ _ hid]
    exact ⟨pl, h, List.Sublist.refl _, List.Sublist.refl _, List.Sublist.refl _⟩

theorem applyCalls_growth (cs : List RegCall) :
    ∀ (r : Registry) (id : Str) (pl : BaseballPlayer),
      alGet r.playersById id = some pl →
      ∃ pl2, alGet (applyCalls r cs).playersById id = some pl2 ∧
        pl.sides.Sublist pl2.sides ∧ pl.jerseyNumbers.Sublist pl2.jerseyNumbers ∧
        pl.positions.Sublist pl2.positions := by
  induction cs with
  | nil => exact fun r id pl h => ⟨pl, h, List.Sublist.refl _, List.Sublist.refl _,
      List.Sublist.refl _⟩
  | cons c rest ih =>
    intro r id pl h
    obtain ⟨pl1, h1, s1, s2, s3⟩ := register_growth r c.side c.name c.jersey c.position id pl h
    obtain ⟨pl2, h2, t1, t2, t3⟩ := ih _ id pl1 h1
    exact ⟨pl2, h2, s1.trans t1, s2.trans t2, s3.trans t3⟩

/-- A repeat registration unions new data into the existing entry instead of
creating a new one. -/
theorem register_union_case (r : Registry) (s : TeamSide) (nm : Str) (j : Option Int)
    (p : Option Str) (id0 : Str) (pl : BaseballPlayer)
    (hk : alGet r.idBySideAndName (sideNameKey s (normalizeName (some nm))) = some id0)
    (hp : alGet r.playersById id0 = some pl) :
    (registerPlayer r s nm j p).1 = id0 ∧
    ((registerPlayer r s nm j p).2).playersById.length = r.playersById.length ∧
    ∃ pl2, alGet ((registerPlayer r s nm j p).2).playersById id0 = some pl2 ∧
      (∀ jj, j = some jj → jj ∈ pl2.jerseyNumbers) ∧
      (∀ pp, p = some pp → pp.isEmpty = false → pp ∈ pl2.positions) := by
  rw [registerPlayer_eq, hk]
  dsimp only
  rw [hp]
  dsimp only
  refine ⟨rfl, alUpdate_length_of_found _ _ _ _ hp,
    _, alGet_update_self _ _ _, ?_, ?_⟩
  · rintro jj rfl
    exact unionChain_jersey_mem pl s jj p
  · rintro pp rfl hne
    exact unionChain_position_mem pl s j pp hne

/-- Claim C7: the registry invariant. (1) Two registrations with the same
side and normalized-name key — with any sequence of register calls in
between — return the same player identifier. (2) Any single register call
only extends an existing player's sides, jerseyNumbers, and positions lists
(hence any sequence of calls does, by applyCalls_growth). (3) A fresh
identifier is side:jerseyOrNA:slug(name), with a numeric suffix of at least 2
appended on collision. (4) A repeat registration returns the bound id, keeps
the number of player entries unchanged, and unions in the newly observed
jersey number and non-empty position. -/
theorem claim_C7_registry (reg : Registry) (side : TeamSide) (name name2 : Str)
    (jersey jersey2 : Option Int) (position position2 : Option Str) (cs : List RegCall)
    (hn : normalizeName (some name2) = normalizeName (some name)) :
    ((registerPlayer (applyCalls (registerPlayer reg side name jersey position).2 cs)
        side name2 jersey2 position2).1 =
      (registerPlayer reg side name jersey position).1) ∧
    (∀ (r : Registry) (c : RegCall) (id : Str) (pl : BaseballPlayer),
        alGet r.playersById id = some pl →
        ∃ pl2, alGet ((registerPlayer r c.side c.name c.jersey c.position).2).playersById id =
            some pl2 ∧
          pl.sides.Sublist pl2.sides ∧ pl.jerseyNumbers.Sublist pl2.jerseyNumbers ∧
          pl.positions.Sublist pl2.positions) ∧
    (∀ (r : Registry) (s : TeamSide) (nm : Str) (j : Option Int) (pos : Option Str),
        alGet r.idBySideAndName (sideNameKey s (normalizeName (some nm))) = none →
        (registerPlayer r s nm j pos).1 = baseIdFor s nm j ∨
        ∃ n, 2 ≤ n ∧ (registerPlayer r s nm j pos).1 = mkSuffixId (baseIdFor s nm j) n) ∧
    (∀ (r : Registry) (s : TeamSide) (nm : Str) (j : Option Int) (pos : Option Str)
        (id0 : Str) (pl : BaseballPlayer),
        alGet r.idBySideAndName (sideNameKey s (normalizeName (some nm))) = some id0 →
        alGet r.playersById id0 = some pl →
        (registerPlayer r s nm j pos).1 = id0 ∧
        ((registerPlayer r s nm j pos).2).playersById.length = r.playersById.length ∧
        ∃ pl2, alGet ((registerPlayer r s nm j pos).2).playersById id0 = some pl2 ∧
          (∀ jj, j = some jj → jj ∈ pl2.jerseyNumbers) ∧
          (∀ pp, pos = some pp → pp.isEmpty = false → pp ∈ pl2.positions)) := by
  refine ⟨?_, ?_, ?_, ?_⟩
  · have h3 := register_key_set reg side name jersey position
    have h4 := applyCalls_idmap_preserved cs _ _ _ h3
    exact register_id_of_found _ _ _ _ _ _ (by rw [hn]; exact h4)
  · exact fun r c id pl h => register_growth r c.side c.name c.jersey c.position id pl h
  · intro r s nm j pos hnone
    rw [registerPlayer_eq, hnone]
    dsimp only
    exact uniqueId_shape (baseIdFor s nm j) r.playersById
  · exact fun r s nm j pos id0 pl hk hp => register_union_case r s nm j pos id0 pl hk hp

/-- Witness for C7: registering Doe,John twice for the away side around an
interposed home-side registration returns the same identifier. -/
theorem claim_C7_witness :
    ((registerPlayer (applyCalls (registerPlayer emptyRegistry TeamSide.away (str "Doe,John")
        (some 12) (some (str "p"))).2 [⟨TeamSide.home, str "Roe,Rick", none, none⟩])
        TeamSide.away (str "Doe,John") (some 7) none).1 =
      (registerPlayer emptyRegistry TeamSide.away (str "Doe,John") (some 12)
        (some (str "p"))).1) ∧
    (∀ (r : Registry) (c : RegCall) (id : Str) (pl : BaseballPlayer),
        alGet r.playersById id = some pl →
        ∃ pl2, alGet ((registerPlayer r c.side c.name c.jersey c.position).2).playersById id =
            some pl2 ∧
          pl.sides.Sublist pl2.sides ∧ pl.jerseyNumbers.Sublist pl2.jerseyNumbers ∧
          pl.positions.Sublist pl2.positions) ∧
    (∀ (r : Registry) (s : TeamSide) (nm : Str) (j : Option Int) (pos : Option Str),
        alGet r.idBySideAndName (sideNameKey s (normalizeName (some nm))) = none →
        (registerPlayer r s nm j pos).1 = baseIdFor s nm j ∨
        ∃ n, 2 ≤ n ∧ (registerPlayer r s nm j pos).1 = mkSuffixId (baseIdFor s nm j) n) ∧
    (∀ (r : Registry) (s : TeamSide) (nm : Str) (j : Option Int) (pos : Option Str)
        (id0 : Str) (pl : BaseballPlayer),
        alGet r.idBySideAndName (sideNameKey s (normalizeName (some nm))) = some id0 →
        alGet r.playersById id0 = some pl →
        (registerPlayer r s nm j pos).1 = id0 ∧
        ((registerPlayer r s nm j pos).2).playersById.length = r.playersById.length ∧
        ∃ pl2, alGet ((registerPlayer r s nm j pos).2).playersById id0 = some pl2 ∧
          (∀ jj, j = some jj → jj ∈ pl2.jerseyNumbers) ∧
          (∀ pp, pos = some pp → pp.isEmpty = false → pp ∈ pl2.positions)) :=
claim_C7_registry emptyRegistry TeamSide.away (str "Doe,John") (str "Doe,John")
  (some 12) (some 7) (some (str "p")) none [⟨TeamSide.home, str "Roe,Rick", none, none⟩] rfl

/- ===== Claim C1: the scoring-summary unifier ===== -/

/-- The fields of an emitted play that do not depend on the threaded player
registry (identifier, source, inning, half, text, and scoring decision
data). -/
def orphanProj (p : BaseballUnifiedPlay) :
    Str × PlaySource × Option Int × Option Half × Str × Option Str ×
      Option ScoringDecisionContext :=
(p.playId, p.source, p.inning, p.half, p.text, p.scoring.decisionRaw,
  p.scoring.decisionContext)

/-- The orphan phase emits exactly one scoring_summary play per unconsumed
timeline entry, in order, carrying the entry's data and the S-(i+1)
identifier. -/
theorem processOrphans_proj (lookup : TeamTokenLookup) (used : List Nat) :
    ∀ (l : List BaseballScoringEvent) (i0 : Nat) (reg : Registry) (warn : List Str),
      (processOrphans lookup used i0 l reg warn).1.map orphanProj =
        ((List.enumFrom i0 l).filter (fun e => !used.contains e.1)).map
          (fun e => (str "S-" ++ natToChars (e.1 + 1), PlaySource.scoring_summary,
            e.2.inningNumber, e.2.half, e.2.text, e.2.scoringDecision,
            e.2.scoringDecisionContext)) := by
  intro l
  induction l with
  | nil => intro i0 reg warn; rfl
  | cons sp rest ih =>
    intro i0 reg warn
    unfold processOrphans
    by_cases hc : used.contains i0 = true
    · rw [if_pos hc]
      rw [ih (i0 + 1) reg warn]
      rw [List.enumFrom_cons, List.filter_cons]
      rw [show (!used.contains (i0, sp).1) = false from by rw [hc]; rfl]
      rfl
    · have hc2 : used.contains i0 = false := by
        cases hb : used.contains i0 with
        | false => rfl
        | true => exact absurd hb hc
      rw [if_neg hc]
      dsimp only
      rw [List.map_cons]
      rw [ih]
      rw [List.enumFrom_cons, List.filter_cons]
      rw [show (!used.contains (i0, sp).1) = true from by rw [hc2]; rfl]
      rfl

theorem findIdxFromAux_some_spec {α : Type} (p : Nat → α → Bool) :
    ∀ (l : List α) (start i : Nat), findIdxFromAux p l start = some i →
      start ≤ i ∧ i - start < l.length ∧
      ∃ x, l.get? (i - start) = some x ∧ p i x = true := by
  intro l
  induction l with
  | nil => intro start i h; exact Option.noConfusion h
  | cons a rest ih =>
    intro start i h
    unfold findIdxFromAux at h
    by_cases hp : p start a = true
    · rw [if_pos hp] at h
      injection h with h2
      subst h2
      exact ⟨le_refl _, by simp, a, by simp, hp⟩
    · rw [if_neg hp] at h
      obtain ⟨h1, h2, x, h3, h4⟩ := ih (start + 1) i h
      refine ⟨by omega, by simp only [List.length_cons]; omega, x, ?_, h4⟩
      have he : i - start = (i - (start + 1)) + 1 := by omega
      rw [he]
      simpa using h3

theorem findIdxFromAux_none_spec {α : Type} (p : Nat → α → Bool) :
    ∀ (l : List α) (start : Nat), findIdxFromAux p l start = none →
      ∀ j x, l.get? j = some x → p (start + j) x = false := by
  intro l
  induction l with
  | nil =>
    intro start _ j x hj
    simp at hj
  | cons a rest ih =>
    intro start h j x hj
    unfold findIdxFromAux at h
    by_cases hp : p start a = true
    · rw [if_pos hp] at h
      exact Option.noConfusion h
    · rw [if_neg hp] at h
      cases j with
      | zero =>
        simp at hj
        subst hj
        cases hb : p (start + 0) a with
        | false => rfl
        | true => exact absurd (by simpa using hb) hp
      | succ k =>
        have hr := ih (start + 1) h k x (by simpa using hj)
        have he : start + 1 + k = start + (k + 1) := by omega
        rw [he] at hr
        exact hr

/-- Two-tier characterization of findMatchingScoringEventIndex: a hit is an
in-range entry passing the exact-text test, or — when no entry passes the
exact-text test — the batter/pitcher/runs fallback test. -/
theorem fmi_some_spec (timeline : List BaseballScoringEvent) (used : List Nat)
    (inning : Int) (half : Option Half) (event : FinalPlayByPlayEvent) (i : Nat)
    (h : findMatchingScoringEventIndex timeline used inning half event = some i) :
    ∃ sc, timeline.get? i = some sc ∧
      (tier1Test used inning half (normalizePlayText (some event.text)) i sc = true ∨
       ((∀ j sc2, timeline.get? j = some sc2 →
          tier1Test used inning half (normalizePlayText (some event.text)) j sc2 = false) ∧
        tier2Test used inning half (normalizeName event.batter) (normalizeName event.pitcher)
          (countRunsScored event.text) i sc = true)) := by
  unfold findMatchingScoringEventIndex at h
  dsimp only at h
  cases h1 : findIdxFromAux (tier1Test used inning half (normalizePlayText (some event.text)))
      timeline 0 with
  | some i1 =>
    rw [h1] at h
    injection h with h2
    subst h2
    obtain ⟨_, _, x, hx, hp⟩ := findIdxFromAux_some_spec _ timeline 0 i1 h1
    exact ⟨x, by simpa using hx, Or.inl hp⟩
  | none =>
    rw [h1] at h
    obtain ⟨_, _, x, hx, hp⟩ := findIdxFromAux_some_spec _ timeline 0 i h
    refine ⟨x, by simpa using hx, Or.inr ⟨?_, hp⟩⟩
    intro j sc2 hj
    have hr := findIdxFromAux_none_spec _ timeline 0 h1 j sc2 hj
    simpa using hr

theorem tier1_components (used : List Nat) (inning : Int) (half : Option Half) (etext : Str)
    (i : Nat) (sc : BaseballScoringEvent) (h : tier1Test used inning half etext i sc = true) :
    used.contains i = false ∧ sc.inningNumber = some inning ∧ sc.half = half ∧
    normalizePlayText (some sc.text) = etext := by
  unfold tier1Test at h
  simp only [Bool.and_eq_true, Bool.not_eq_true', beq_iff_eq] at h
  exact ⟨h.1.1.1, h.1.1.2, h.1.2, h.2⟩

theorem tier2_components (used : List Nat) (inning : Int) (half : Option Half)
    (ebatter epitcher : Str) (eruns : Nat) (i : Nat) (sc : BaseballScoringEvent)
    (h : tier2Test used inning half ebatter epitcher eruns i sc = true) :
    used.contains i = false ∧ sc.inningNumber = some inning ∧ sc.half = half ∧
    normalizeName sc.batter = ebatter ∧ normalizeName sc.pitcher = epitcher ∧
    sc.runsScoredOnPlay = eruns := by
  unfold tier2Test at h
  simp only [Bool.and_eq_true, Bool.not_eq_true', beq_iff_eq] at h
  exact ⟨h.1.1.1.1.1, h.1.1.1.1.2, h.1.1.1.2, h.1.1.2, h.1.2, h.2⟩

/-- What the play-by-play phase guarantees for each emitted play: the play
comes from the play-by-play source and, when a scoring-summary entry was
merged into it, that entry has the play's inning and half, matches it by
exact normalized text or by batter/pitcher/runs, and contributed its scoring
decision and fielder-location data. -/
def mergedFact (timeline : List BaseballScoringEvent)
    (pr : Option Nat × BaseballUnifiedPlay) : Prop :=
pr.2.source = PlaySource.play_by_play ∧
match pr.1 with
| none => True
| some i =>
  ∃ sc, timeline.get? i = some sc ∧
    sc.inningNumber = pr.2.inning ∧ sc.half = pr.2.half ∧
    (normalizePlayText (some sc.text) = normalizePlayText (some pr.2.text) ∨
     ∃ ev : FinalPlayByPlayEvent, pr.2.text = ev.text ∧
       normalizeName sc.batter = normalizeName ev.batter ∧
       normalizeName sc.pitcher = normalizeName ev.pitcher ∧
       sc.runsScoredOnPlay = countRunsScored ev.text) ∧
    pr.2.scoring.decisionRaw = sc.scoringDecision ∧
    (∀ c, sc.scoringDecisionContext = some c →
      pr.2.scoring.decisionContext = some c ∧
      pr.2.battedBall.fielderCodes = c.fielderCodes ∧
      pr.2.battedBall.fieldLocations = c.fieldLocations)

/-- Invariant of the play-by-play fold: the consumed-index set is exactly the
ordered list of ghost matched indices, the indices are pairwise distinct and
in range, and every emitted play satisfies mergedFact. -/
def unifyInv (timeline : List BaseballScoringEvent) (s : UnifyState) : Prop :=
s.used = s.acc.filterMap (fun pr => pr.1) ∧
s.used.Nodup ∧
(∀ i ∈ s.used, i < timeline.length) ∧
(∀ pr ∈ s.acc, mergedFact timeline pr)

theorem unifyInv_push_none (timeline : List BaseballScoringEvent) (s : UnifyState)
    (reg2 : Registry) (play : BaseballUnifiedPlay) (h : unifyInv timeline s)
    (hsrc : play.source = PlaySource.play_by_play) :
    unifyInv timeline ⟨s.used, reg2, s.acc ++ [(none, play)]⟩ := by
  obtain ⟨h1, h2, h3, h4⟩ := h
  refine ⟨?_, h2, h3, ?_⟩
  · rw [List.filterMap_append]
    simpa using h1
  · intro pr hpr
    rcases List.mem_append.mp hpr with hold | hnew
    · exact h4 pr hold
    · rw [List.mem_singleton] at hnew
      subst hnew
      exact ⟨hsrc, trivial⟩

theorem unifyInv_push_some (timeline : List BaseballScoringEvent) (s : UnifyState)
    (reg2 : Registry) (i : Nat) (play : BaseballUnifiedPlay) (h : unifyInv timeline s)
    (hcont : s.used.contains i = false) (hlt : i < timeline.length)
    (hm : mergedFact timeline (some i, play)) :
    unifyInv timeline ⟨setAdd s.used i, reg2, s.acc ++ [(some i, play)]⟩ := by
  obtain ⟨h1, h2, h3, h4⟩ := h
  have hnotmem : i ∉ s.used := by
    intro hmem
    have he := List.elem_eq_true_of_mem hmem
    rw [show s.used.contains i = List.elem i s.used from rfl, he] at hcont
    exact Bool.noConfusion hcont
  have hset : setAdd s.used i = s.used ++ [i] := by
    unfold setAdd
    rw [if_neg (by rw [hcont]; exact Bool.noConfusion)]
  refine ⟨?_, ?_, ?_, ?_⟩
  · rw [hset, List.filterMap_append, h1]
    rfl
  · rw [hset]
    refine List.Nodup.append h2 (List.nodup_singleton i) ?_
    intro a ha hb
    rw [List.mem_singleton] at hb
    subst hb
    exact hnotmem ha
  · intro j hj
    rw [hset] at hj
    rcases List.mem_append.mp hj with hold | hnew
    · exact h3 j hold
    · rw [List.mem_singleton] at hnew
      subst hnew
      exact hlt
  · intro pr hpr
    rcases List.mem_append.mp hpr with hold | hnew
    · exact h4 pr hold
    · rw [List.mem_singleton] at hnew
      subst hnew
      exact hm

theorem processPbpEvent_inv (fg : FinalGameLite) (timeline : List BaseballScoringEvent)
    (inningBlock : FinalInningPlayByPlay) (st : UnifyState × Option Half × Nat)
    (event : FinalPlayByPlayEvent) (h : unifyInv timeline st.1) :
    unifyInv timeline (processPbpEvent fg timeline inningBlock st event).1 := by
  unfold processPbpEvent
  dsimp only
  by_cases ht : (event.type != PbpEventType.playEvent) = true
  · rw [if_pos ht]
    exact h
  · rw [if_neg ht]
    cases hmi : findMatchingScoringEventIndex timeline st.1.used inningBlock.inning
        (if event.type == PbpEventType.halfMarker then event.half else st.2.1) event with
    | none =>
      dsimp only
      exact unifyInv_push_none timeline st.1 _ _ h rfl
    | some i =>
      dsimp only [Option.bind]
      obtain ⟨sc, hsc, hts⟩ := fmi_some_spec timeline st.1.used inningBlock.inning _ event i hmi
      rw [hsc]
      have hlt : i < timeline.length := by
        rcases List.get?_eq_some.mp hsc with ⟨hl, _⟩
        exact hl
      have hcont : st.1.used.contains i = false := by
        rcases hts with hp | ⟨_, hp⟩
        · exact (tier1_components _ _ _ _ _ _ hp).1
        · exact (tier2_components _ _ _ _ _ _ _ _ hp).1
      refine unifyInv_push_some timeline st.1 _ i _ h hcont hlt ?_
      refine ⟨rfl, sc, hsc, ?_, ?_, ?_, ?_, ?_⟩
      · rcases hts with hp | ⟨_, hp⟩
        · exact (tier1_components _ _ _ _ _ _ hp).2.1
        · exact (tier2_components _ _ _ _ _ _ _ _ hp).2.1
      · rcases hts with hp | ⟨_, hp⟩
        · exact (tier1_components _ _ _ _ _ _ hp).2.2.1
        · exact (tier2_components _ _ _ _ _ _ _ _ hp).2.2.1
      · rcases hts with hp | ⟨_, hp⟩
        · exact Or.inl (tier1_components _ _ _ _ _ _ hp).2.2.2
        · obtain ⟨_, _, _, hbat, hpit, hruns⟩ := tier2_components _ _ _ _ _ _ _ _ hp
          exact Or.inr ⟨event, rfl, hbat, hpit, hruns⟩
      · rfl
      · intro c hc
        dsimp only [Option.bind]
        rw [hc]
        exact ⟨rfl, rfl, rfl⟩

theorem processInningBlock_inv (fg : FinalGameLite) (timeline : List BaseballScoringEvent)
    (s : UnifyState) (inningBlock : FinalInningPlayByPlay) (h : unifyInv timeline s) :
    unifyInv timeline (processInningBlock fg timeline s inningBlock) := by
  unfold processInningBlock
  exact foldl_inv (fun st => unifyInv timeline st.1)
    (processPbpEvent fg timeline inningBlock) inningBlock.events (s, none, 0) h
    (fun st ev _ hs => processPbpEvent_inv fg timeline inningBlock st ev hs)

theorem unify_inv (fg : FinalGameLite) (timeline : List BaseballScoringEvent)
    (reg0 : Registry) :
    unifyInv timeline
      (fg.playByPlayByInning.foldl (processInningBlock fg timeline) ⟨[], reg0, []⟩) := by
  exact foldl_inv (unifyInv timeline) (processInningBlock fg timeline) _ _
    ⟨rfl, List.nodup_nil, fun i hi => absurd hi (List.not_mem_nil i),
      fun pr hpr => absurd hpr (List.not_mem_nil pr)⟩
    (fun s b _ hs => processInningBlock_inv fg timeline s b hs)

/-- Claim C1: the unifier matches scoring-summary entries in two priority
tiers (exact normalized-text first, then batter/pitcher/runs, both restricted
to unconsumed entries of the same inning and half), consumes every entry at
most once across the play-by-play phase (the consumed-index list is
duplicate-free, in range, and is exactly the list of entries merged into
emitted plays, which carry the entry's scoring-decision and fielder-location
data and the play_by_play source), emits every unconsumed entry exactly once
as a standalone scoring_summary play with the S-(i+1) identifier and the
entry's data, and concatenates the two phases into the unified play list, so
no scoring-summary entry is dropped. -/
theorem claim_C1_unifier (fg : FinalGameLite) (timeline : List BaseballScoringEvent)
    (reg0 : Registry) (lookup : TeamTokenLookup) (warn0 : List Str) :
    (∀ (used : List Nat) (inning : Int) (half : Option Half)
        (event : FinalPlayByPlayEvent) (i : Nat),
        findMatchingScoringEventIndex timeline used inning half event = some i →
        ∃ sc, timeline.get? i = some sc ∧
          (tier1Test used inning half (normalizePlayText (some event.text)) i sc = true ∨
           ((∀ j sc2, timeline.get? j = some sc2 →
              tier1Test used inning half (normalizePlayText (some event.text)) j sc2 = false) ∧
            tier2Test used inning half (normalizeName event.batter)
              (normalizeName event.pitcher) (countRunsScored event.text) i sc = true))) ∧
    ((buildUnifiedPlaysAux fg timeline reg0 lookup warn0).1.used).Nodup ∧
    ((buildUnifiedPlaysAux fg timeline reg0 lookup warn0).1.used =
      (buildUnifiedPlaysAux fg timeline reg0 lookup warn0).1.acc.filterMap
        (fun pr => pr.1)) ∧
    (∀ i ∈ (buildUnifiedPlaysAux fg timeline reg0 lookup warn0).1.used,
      i < timeline.length) ∧
    (∀ pr ∈ (buildUnifiedPlaysAux fg timeline reg0 lookup warn0).1.acc,
      mergedFact timeline pr) ∧
    (((buildUnifiedPlaysAux fg timeline reg0 lookup warn0).2.1).map orphanProj =
      ((List.enumFrom 0 timeline).filter
        (fun e => !(buildUnifiedPlaysAux fg timeline reg0 lookup warn0).1.used.contains
          e.1)).map
        (fun e => (str "S-" ++ natToChars (e.1 + 1), PlaySource.scoring_summary,
          e.2.inningNumber, e.2.half, e.2.text, e.2.scoringDecision,
          e.2.scoringDecisionContext))) ∧
    ((buildUnifiedPlays fg timeline reg0 lookup warn0).1 =
      (buildUnifiedPlaysAux fg timeline reg0 lookup warn0).1.acc.map (fun e => e.2) ++
        (buildUnifiedPlaysAux fg timeline reg0 lookup warn0).2.1) := by
  obtain ⟨h1, h2, h3, h4⟩ := unify_inv fg timeline reg0
  refine ⟨?_, h2, h1, h3, h4, ?_, rfl⟩
  · intro used inning half event i hfmi
    exact fmi_some_spec timeline used inning half event i hfmi
  · exact processOrphans_proj lookup _ timeline 0 _ warn0

end BSB
